import Mathlib

/-! # pe_ep_intercept: the PE patcher (`PePatch.cpp`, `PePatchX64.cpp`)

A shallow embedding of the section-append / entry-point-patch code.

* Machine integers are natural numbers reduced modulo `2 ^ w` where the C++
  arithmetic is done in a `w`-bit unsigned type.
* A file, and every `std::vector<char>`, is a list of bytes.
* Header structs are records; overlaying a struct on the raw buffer is a
  decoding function and `memcpy` out of a struct is an encoding function,
  both little-endian with the PE/COFF field offsets.
* Operations that can throw, or that reach C++ undefined behaviour, return
  `Except Failure _`; `SaveFile` returns the writes it issued together with
  the failure that stopped it, if any.
-/

namespace PeEpIntercept

/-! ## 32-bit unsigned arithmetic and `Align` -/

/-- Addition of two `uint32_t` values. -/
def add32 (a b : Nat) : Nat := (a + b) % 2 ^ 32

/-- Subtraction of two `uint32_t` values (wraps below zero). -/
def sub32 (a b : Nat) : Nat := (a + 2 ^ 32 - b % 2 ^ 32) % 2 ^ 32

/-- Multiplication of two `uint32_t` values. -/
def mul32 (a b : Nat) : Nat := (a * b) % 2 ^ 32

/-- `Align` of `PePatch.cpp:15`: `((num + multiple - 1) / multiple) * multiple`, every
step in `uint32_t`.  For `multiple = 0` the C++ division is undefined; the
callers below fail before reaching it, and here the quotient is Lean's `0`. -/
def Align (num multiple : Nat) : Nat :=
  mul32 (sub32 (add32 num multiple) 1 / multiple) multiple

/-! ## Bytes and little-endian overlays -/

/-- One `char` / `uint8_t` of a buffer, as its unsigned value. -/
abbrev Byte := Fin 256

/-- Conversion of an integer value to a byte (`static_cast<char>` / `uint8_t`). -/
def byteOf (n : Nat) : Byte := ⟨n % 256, Nat.mod_lt n (by decide)⟩

/-- The value of a `char` after integral promotion: `char` is signed on the
x86 targets of this program. -/
def charVal (b : Byte) : Int := if b.val < 128 then (b.val : Int) else (b.val : Int) - 256

/-- The unsigned little-endian value of a run of bytes. -/
def leNat : List Byte → Nat
  | [] => 0
  | b :: bs => b.val + 256 * leNat bs

/-- The `width` little-endian bytes of a value (the value modulo `256 ^ width`). -/
def leBytes : Nat → Nat → List Byte
  | 0, _ => []
  | width + 1, n => byteOf n :: leBytes width (n / 256)

/-- The value of a 32-bit pattern read as a signed `LONG`. -/
def toLong (n : Nat) : Int := if n < 2 ^ 31 then (n : Int) else (n : Int) - 2 ^ 32

/-- The 32-bit pattern of a `LONG`. -/
def ofLong (z : Int) : Nat := (z % 2 ^ 32).toNat

/-- Reading `len` bytes at index `off` of a buffer; `none` when the range is
not inside the buffer (an out-of-range access in C++). -/
def readBytes (buf : List Byte) (off len : Nat) : Option (List Byte) :=
  if off + len ≤ buf.length then some ((buf.drop off).take len) else none

/-- Reading at a signed index: an index before the buffer is out of range. -/
def readAt (buf : List Byte) (off : Int) (len : Nat) : Option (List Byte) :=
  if 0 ≤ off then readBytes buf off.toNat len else none

/-! ## Header structures -/

/-- Modelled from the spec: `IMAGE_DOS_HEADER` is declared in a header that is
not among the sources; this is the fixed 64-byte legacy header with `e_magic`
at offset 0 and `e_lfanew` (a `LONG`) at offset 60.  The 58 bytes between them
(`e_cblp` .. `e_res2`), which the code only copies, are kept as one
little-endian number. -/
structure IMAGE_DOS_HEADER where
  e_magic : Nat
  e_cblp_to_e_res2 : Nat
  e_lfanew : Int
deriving DecidableEq

/-- Modelled from the spec: `IMAGE_FILE_HEADER` (the COFF file header, 20
bytes) is declared in a header that is not among the sources. -/
structure IMAGE_FILE_HEADER where
  Machine : Nat
  NumberOfSections : Nat
  TimeDateStamp : Nat
  PointerToSymbolTable : Nat
  NumberOfSymbols : Nat
  SizeOfOptionalHeader : Nat
  Characteristics : Nat
deriving DecidableEq

/-- Modelled from the spec: `IMAGE_OPTIONAL_HEADER64` (240 bytes) is declared
in a header that is not among the sources.  The fields the code reads or
writes are `AddressOfEntryPoint` (offset 16), `SectionAlignment` (32),
`FileAlignment` (36) and `SizeOfImage` (56); each run of fields between them,
which the code only copies, is kept as one little-endian number. -/
structure IMAGE_OPTIONAL_HEADER64 where
  Magic_to_SizeOfUninitializedData : Nat
  AddressOfEntryPoint : Nat
  BaseOfCode_to_ImageBase : Nat
  SectionAlignment : Nat
  FileAlignment : Nat
  MajorOperatingSystemVersion_to_Win32VersionValue : Nat
  SizeOfImage : Nat
  SizeOfHeaders_to_DataDirectory : Nat
deriving DecidableEq

/-- The `Misc` union of a section header, read through its `VirtualSize` member. -/
structure IMAGE_SECTION_HEADER.MiscUnion where
  VirtualSize : Nat
deriving DecidableEq

/-- Modelled from the spec: `IMAGE_SECTION_HEADER` / `SectionHeader` (40
bytes) is declared in a header that is not among the sources.  `Name` is the
8-byte array `Name[IMAGE_SIZEOF_SHORT_NAME]`. -/
structure IMAGE_SECTION_HEADER where
  Name : List Byte
  Misc : IMAGE_SECTION_HEADER.MiscUnion
  VirtualAddress : Nat
  SizeOfRawData : Nat
  PointerToRawData : Nat
  PointerToRelocations : Nat
  PointerToLinenumbers : Nat
  NumberOfRelocations : Nat
  NumberOfLinenumbers : Nat
  Characteristics : Nat
deriving DecidableEq

/-- Modelled from the spec: `sizeof(IMAGE_DOS_HEADER)`. -/
def sizeof_IMAGE_DOS_HEADER : Nat := 64

/-- Modelled from the spec: `sizeof(IMAGE_NT_HEADERS32)`, signature (4) + file
header (20) + 32-bit optional header (224). -/
def sizeof_IMAGE_NT_HEADERS32 : Nat := 248

/-- Modelled from the spec: `sizeof(IMAGE_NT_HEADERS64)` / `sizeof(NtHeaderX64)`,
signature (4) + file header (20) + 64-bit optional header (240). -/
def sizeof_IMAGE_NT_HEADERS64 : Nat := 264

/-- Modelled from the spec: `sizeof(IMAGE_SECTION_HEADER)`. -/
def sizeof_IMAGE_SECTION_HEADER : Nat := 40

/-- Modelled from the spec: `IMAGE_SIZEOF_SHORT_NAME`, the width of the name
field (at most 8 significant characters). -/
def IMAGE_SIZEOF_SHORT_NAME : Nat := 8

/-- `SECTION_MAX_NAME_SIZE` of `PePatch.cpp:9`. -/
def SECTION_MAX_NAME_SIZE : Nat := IMAGE_SIZEOF_SHORT_NAME

/-- Modelled from the spec: `section_name_size`, used by `PePatchX64.cpp` and
declared in a header that is not among the sources; the width of the name
field. -/
def section_name_size : Nat := 8

/-- Modelled from the spec: the `IMAGE_SCN_*` flags for code, executable,
readable and writable, declared in a header that is not among the sources. -/
def IMAGE_SCN_CNT_CODE : Nat := 0x00000020

/-- Modelled from the spec: see `IMAGE_SCN_CNT_CODE`. -/
def IMAGE_SCN_MEM_EXECUTE : Nat := 0x20000000

/-- Modelled from the spec: see `IMAGE_SCN_CNT_CODE`. -/
def IMAGE_SCN_MEM_READ : Nat := 0x40000000

/-- Modelled from the spec: see `IMAGE_SCN_CNT_CODE`. -/
def IMAGE_SCN_MEM_WRITE : Nat := 0x80000000

/-- `SECTION_CHARACTERISTICS` of `PePatch.cpp:11`. -/
def SECTION_CHARACTERISTICS : Nat :=
  IMAGE_SCN_CNT_CODE ||| IMAGE_SCN_MEM_EXECUTE ||| IMAGE_SCN_MEM_READ |||
    IMAGE_SCN_MEM_READ ||| IMAGE_SCN_MEM_WRITE

/-- Modelled from the spec: `characteristics`, used by `PePatchX64.cpp` and
declared in a header that is not among the sources; code, executable,
readable and writable. -/
def characteristics : Nat := SECTION_CHARACTERISTICS

/-- Overlay of an `IMAGE_DOS_HEADER` on 64 bytes. -/
def decodeDosHeader (bs : List Byte) : IMAGE_DOS_HEADER :=
  { e_magic := leNat (bs.take 2)
    e_cblp_to_e_res2 := leNat ((bs.drop 2).take 58)
    e_lfanew := toLong (leNat ((bs.drop 60).take 4)) }

/-- The 64 bytes of an `IMAGE_DOS_HEADER` (`memcpy` out of the struct). -/
def encodeDosHeader (h : IMAGE_DOS_HEADER) : List Byte :=
  leBytes 2 h.e_magic ++ leBytes 58 h.e_cblp_to_e_res2 ++ leBytes 4 (ofLong h.e_lfanew)

/-- Overlay of an `IMAGE_FILE_HEADER` on 20 bytes. -/
def decodeFileHeader (bs : List Byte) : IMAGE_FILE_HEADER :=
  { Machine := leNat (bs.take 2)
    NumberOfSections := leNat ((bs.drop 2).take 2)
    TimeDateStamp := leNat ((bs.drop 4).take 4)
    PointerToSymbolTable := leNat ((bs.drop 8).take 4)
    NumberOfSymbols := leNat ((bs.drop 12).take 4)
    SizeOfOptionalHeader := leNat ((bs.drop 16).take 2)
    Characteristics := leNat ((bs.drop 18).take 2) }

/-- The 20 bytes of an `IMAGE_FILE_HEADER`. -/
def encodeFileHeader (h : IMAGE_FILE_HEADER) : List Byte :=
  leBytes 2 h.Machine ++ leBytes 2 h.NumberOfSections ++ leBytes 4 h.TimeDateStamp ++
    leBytes 4 h.PointerToSymbolTable ++ leBytes 4 h.NumberOfSymbols ++
    leBytes 2 h.SizeOfOptionalHeader ++ leBytes 2 h.Characteristics

/-- Overlay of an `IMAGE_OPTIONAL_HEADER64` on 240 bytes. -/
def decodeOptionalHeader (bs : List Byte) : IMAGE_OPTIONAL_HEADER64 :=
  { Magic_to_SizeOfUninitializedData := leNat (bs.take 16)
    AddressOfEntryPoint := leNat ((bs.drop 16).take 4)
    BaseOfCode_to_ImageBase := leNat ((bs.drop 20).take 12)
    SectionAlignment := leNat ((bs.drop 32).take 4)
    FileAlignment := leNat ((bs.drop 36).take 4)
    MajorOperatingSystemVersion_to_Win32VersionValue := leNat ((bs.drop 40).take 16)
    SizeOfImage := leNat ((bs.drop 56).take 4)
    SizeOfHeaders_to_DataDirectory := leNat ((bs.drop 60).take 180) }

/-- The 240 bytes of an `IMAGE_OPTIONAL_HEADER64`. -/
def encodeOptionalHeader (h : IMAGE_OPTIONAL_HEADER64) : List Byte :=
  leBytes 16 h.Magic_to_SizeOfUninitializedData ++ leBytes 4 h.AddressOfEntryPoint ++
    leBytes 12 h.BaseOfCode_to_ImageBase ++ leBytes 4 h.SectionAlignment ++
    leBytes 4 h.FileAlignment ++
    leBytes 16 h.MajorOperatingSystemVersion_to_Win32VersionValue ++
    leBytes 4 h.SizeOfImage ++ leBytes 180 h.SizeOfHeaders_to_DataDirectory

/-- Overlay of an `IMAGE_SECTION_HEADER` on 40 bytes. -/
def decodeSectionHeader (bs : List Byte) : IMAGE_SECTION_HEADER :=
  { Name := bs.take 8
    Misc := { VirtualSize := leNat ((bs.drop 8).take 4) }
    VirtualAddress := leNat ((bs.drop 12).take 4)
    SizeOfRawData := leNat ((bs.drop 16).take 4)
    PointerToRawData := leNat ((bs.drop 20).take 4)
    PointerToRelocations := leNat ((bs.drop 24).take 4)
    PointerToLinenumbers := leNat ((bs.drop 28).take 4)
    NumberOfRelocations := leNat ((bs.drop 32).take 2)
    NumberOfLinenumbers := leNat ((bs.drop 34).take 2)
    Characteristics := leNat ((bs.drop 36).take 4) }

/-- The 40 bytes of an `IMAGE_SECTION_HEADER` whose `Name` array holds its 8 bytes. -/
def encodeSectionHeader (h : IMAGE_SECTION_HEADER) : List Byte :=
  h.Name ++ leBytes 4 h.Misc.VirtualSize ++ leBytes 4 h.VirtualAddress ++
    leBytes 4 h.SizeOfRawData ++ leBytes 4 h.PointerToRawData ++
    leBytes 4 h.PointerToRelocations ++ leBytes 4 h.PointerToLinenumbers ++
    leBytes 2 h.NumberOfRelocations ++ leBytes 2 h.NumberOfLinenumbers ++
    leBytes 4 h.Characteristics

/-- The 264 bytes of an `IMAGE_NT_HEADERS64` built from the signature, the file
header and the optional header. -/
def encodeNtHeaders (signature : Nat) (fh : IMAGE_FILE_HEADER)
    (oh : IMAGE_OPTIONAL_HEADER64) : List Byte :=
  leBytes 4 signature ++ encodeFileHeader fh ++ encodeOptionalHeader oh

/-! ## The patcher state -/

/-- Modelled from the spec: `PeArch`, the architecture tag, is declared in a
header that is not among the sources. -/
inductive PeArch where
  | x86
  | x64
deriving DecidableEq

/-- The ways an operation stops: the `std::runtime_error`s thrown by the code,
the stream failure raised by a failed seek, and the undefined behaviour the
code can reach. -/
inductive Failure where
  /-- Thrown: could not get file size. -/
  | could_not_get_file_size
  /-- Thrown: could not executable read headers. -/
  | could_not_read_headers
  /-- Thrown: executable type is not x86 or x64. -/
  | type_not_x86_or_x64
  /-- Thrown: This is not a portable executable. -/
  | not_portable_executable
  /-- Thrown: Cannot create new section, naming the colliding section. -/
  | offset_taken (header : IMAGE_SECTION_HEADER)
  /-- Thrown: Unable to write empty code section. -/
  | empty_code_section
  /-- Stream failure: seek to a negative offset. -/
  | seek_failed
  /-- Undefined behaviour: access outside a buffer. -/
  | out_of_range
  /-- Undefined behaviour: `back()` of an empty section table. -/
  | empty_section_table
  /-- Undefined behaviour: integer division by zero. -/
  | division_by_zero
deriving DecidableEq

/-- The data members of `PePatch` that the operations use.  The file stream is
not a member here: what is written to it is the result of `SaveFile`. -/
structure PePatch where
  dos_header : IMAGE_DOS_HEADER
  nt_header_signature : Nat
  file_header : IMAGE_FILE_HEADER
  optional_header : IMAGE_OPTIONAL_HEADER64
  section_headers : List IMAGE_SECTION_HEADER
  original_entry_point : Nat
  type : PeArch
  file_buffer : List Byte
deriving DecidableEq

/-- The data members of `PePatchX64`: those of its base class and
`new_section_header`. -/
structure PePatchX64 extends PePatch where
  new_section_header : IMAGE_SECTION_HEADER
deriving DecidableEq

/-! ## Loading: the constructor `PePatch::PePatch` -/

/-- The machine type as computed at `PePatch.cpp:92`:
`static_cast<uint16_t>((hi << 8) + lo)` on two promoted `char`s. -/
def decodeMachine (hi lo : Byte) : Nat := ((charVal hi * 256 + charVal lo) % 2 ^ 16).toNat

/-- The loop of `PePatch.cpp:127`: section header `i`, `i + 1`, ... for `count`
more iterations, each overlaid at `first_section + i * sizeof(IMAGE_SECTION_HEADER)`
computed in `uint32_t`. -/
def readSectionHeaders (raw_buffer : List Byte) (first_section : Nat) :
    Nat → Nat → Except Failure (List IMAGE_SECTION_HEADER)
  | _, 0 => .ok []
  | i, count + 1 =>
    let section_index := mul32 i sizeof_IMAGE_SECTION_HEADER
    let next_section := add32 first_section section_index
    match readBytes raw_buffer next_section sizeof_IMAGE_SECTION_HEADER with
    | none => .error .out_of_range
    | some bs =>
      match readSectionHeaders raw_buffer first_section (i + 1) count with
      | .error e => .error e
      | .ok rest => .ok (decodeSectionHeader bs :: rest)

/-- The part of the constructor after the architecture is known
(`PePatch.cpp:105-140`).  `optional_header` enters with the value the member
had before the constructor body ran; only the x64 branch assigns it. -/
def loadHeaders (raw_buffer : List Byte) (dos_header : IMAGE_DOS_HEADER) (type : PeArch)
    (optional_header : IMAGE_OPTIONAL_HEADER64) : Except Failure PePatch :=
  let e_lfanew := dos_header.e_lfanew
  let sizeof_nt := match type with
    | .x86 => sizeof_IMAGE_NT_HEADERS32
    | .x64 => sizeof_IMAGE_NT_HEADERS64
  match readAt raw_buffer (e_lfanew + 4) 20, readAt raw_buffer e_lfanew 4,
      (match type with
        | .x86 => some optional_header
        | .x64 => (readAt raw_buffer (e_lfanew + 24) 240).map decodeOptionalHeader) with
  | some fh, some sig, some optional_header =>
    let file_header := decodeFileHeader fh
    let first_section := ofLong (e_lfanew + sizeof_nt)
    let nt_header_signature := leNat sig
    if nt_header_signature ≠ 0x4550 then .error .not_portable_executable
    else
      match readSectionHeaders raw_buffer first_section 0 file_header.NumberOfSections with
      | .error e => .error e
      | .ok section_headers =>
        let count := section_headers.length % 2 ^ 32
        let rest_of_data := add32 first_section (mul32 count sizeof_IMAGE_SECTION_HEADER)
        if rest_of_data ≤ raw_buffer.length then
          .ok { dos_header := dos_header
                nt_header_signature := nt_header_signature
                file_header := file_header
                optional_header := optional_header
                section_headers := section_headers
                original_entry_point := optional_header.AddressOfEntryPoint
                type := type
                file_buffer := raw_buffer.drop rest_of_data }
        else .error .out_of_range
  | _, _, _ => .error .out_of_range

/-- The constructor `PePatch::PePatch` (`PePatch.cpp:63-141`) on the content of
the file, whose length is `size`.  The buffer is allocated with
`(uint32_t) size` elements (`PePatch.cpp:76`) and `size` bytes are read into
it (`PePatch.cpp:78`): when `size` does not fit in 32 bits the read runs past
the end of the buffer, an out-of-range access.  `uninitialised` is the value of
the member `optional_header` before the constructor body runs. -/
def PePatch.ctor (uninitialised : IMAGE_OPTIONAL_HEADER64) (raw_buffer : List Byte) :
    Except Failure PePatch :=
  let size := raw_buffer.length
  if size = 0 then .error .could_not_get_file_size
  else if size % 2 ^ 32 < size then .error .out_of_range
  else
    match readBytes raw_buffer 0 sizeof_IMAGE_DOS_HEADER with
    | none => .error .out_of_range
    | some dos =>
      let dos_header := decodeDosHeader dos
      if dos_header.e_magic ≠ 0x5a4d then .error .could_not_read_headers
      else
        let machine_offset := dos_header.e_lfanew + 4
        match readAt raw_buffer (machine_offset + 1) 1, readAt raw_buffer machine_offset 1 with
        | some [hi], some [lo] =>
          let machine := decodeMachine hi lo
          if machine = 0x014c then loadHeaders raw_buffer dos_header .x86 uninitialised
          else if machine = 0x8664 then loadHeaders raw_buffer dos_header .x64 uninitialised
          else .error .type_not_x86_or_x64
        | _, _ => .error .out_of_range

/-- `PePatch::GetOriginalEntryPoint` (`PePatch.cpp:286`). -/
def PePatch.GetOriginalEntryPoint (self : PePatch) : Nat := self.original_entry_point

/-- `PePatch::GetPeArch` (`PePatch.cpp:290`). -/
def PePatch.GetPeArch (self : PePatch) : PeArch := self.type

/-! ## `AddSection` -/

/-- The name loop of `PePatch.cpp:229-239` and `PePatchX64.cpp:82-92`: byte `i` of
the field is `name.at(i)` when `i < name.length()` and `0` otherwise, for
`i < size`. -/
def copyName (name : List Byte) (size : Nat) : List Byte :=
  (List.range size).map fun i => if i < name.length then name.getD i 0 else 0

/-- The value-initialised `IMAGE_SECTION_HEADER new_section{}`; the name loop
then fills the 8 bytes of `Name`. -/
def zeroSectionHeader : IMAGE_SECTION_HEADER :=
  { Name := List.replicate 8 0
    Misc := { VirtualSize := 0 }
    VirtualAddress := 0
    SizeOfRawData := 0
    PointerToRawData := 0
    PointerToRelocations := 0
    PointerToLinenumbers := 0
    NumberOfRelocations := 0
    NumberOfLinenumbers := 0
    Characteristics := 0 }

/-- `PePatch::AddSection` (`PePatch.cpp:212-246`).  `back()` of an empty table and
a division by a zero alignment are undefined in C++ and are failures here. -/
def PePatch.AddSection (self : PePatch) (name : List Byte) (code_size : Nat) :
    Except Failure PePatch :=
  match self.section_headers.getLast? with
  | none => .error .empty_section_table
  | some last_section =>
    if self.optional_header.FileAlignment = 0 ∨ self.optional_header.SectionAlignment = 0 then
      .error .division_by_zero
    else
      let aligned_size := Align code_size self.optional_header.FileAlignment
      let new_section : IMAGE_SECTION_HEADER :=
        { zeroSectionHeader with
          Characteristics := SECTION_CHARACTERISTICS
          SizeOfRawData := aligned_size
          Misc := { VirtualSize := Align aligned_size self.optional_header.SectionAlignment }
          PointerToRawData := Align
            (add32 last_section.SizeOfRawData last_section.PointerToRawData)
            self.optional_header.FileAlignment
          VirtualAddress := Align
            (add32 last_section.Misc.VirtualSize last_section.VirtualAddress)
            self.optional_header.SectionAlignment
          Name := copyName name SECTION_MAX_NAME_SIZE }
      .ok { self with
            file_header :=
              { self.file_header with
                NumberOfSections := (self.file_header.NumberOfSections + 1) % 2 ^ 16 }
            optional_header :=
              { self.optional_header with
                AddressOfEntryPoint := new_section.VirtualAddress
                SizeOfImage := add32 new_section.VirtualAddress new_section.Misc.VirtualSize }
            section_headers := self.section_headers ++ [new_section] }

/-- `PePatchX64::AddSection` (`PePatchX64.cpp:50-99`).  Its `Align` is declared in
a header that is not among the sources and is taken to be the `Align` of
`PePatch.cpp`.  The new section is stored in `new_section_header`; the section
table is not changed. -/
def PePatchX64.AddSection (self : PePatchX64) (name : List Byte) (code_size : Nat) :
    Except Failure PePatchX64 :=
  match self.section_headers.getLast? with
  | none => .error .empty_section_table
  | some last_section =>
    if self.optional_header.FileAlignment = 0 ∨ self.optional_header.SectionAlignment = 0 then
      .error .division_by_zero
    else
      let aligned_size := Align code_size self.optional_header.FileAlignment
      let new_pointer_to_raw_data := Align
        (add32 last_section.SizeOfRawData last_section.PointerToRawData)
        self.optional_header.FileAlignment
      match self.section_headers.find? (fun header =>
          decide (new_pointer_to_raw_data = header.PointerToRawData)) with
      | some header => .error (.offset_taken header)
      | none =>
        let new_section : IMAGE_SECTION_HEADER :=
          { zeroSectionHeader with
            Characteristics := characteristics
            SizeOfRawData := aligned_size
            Misc := { VirtualSize := Align aligned_size self.optional_header.SectionAlignment }
            PointerToRawData := new_pointer_to_raw_data
            VirtualAddress := Align
              (add32 last_section.Misc.VirtualSize last_section.VirtualAddress)
              self.optional_header.SectionAlignment
            Name := copyName name section_name_size }
        .ok { self with
              file_header :=
                { self.file_header with
                  NumberOfSections := (self.file_header.NumberOfSections + 1) % 2 ^ 16 }
              optional_header :=
                { self.optional_header with
                  AddressOfEntryPoint := new_section.VirtualAddress
                  SizeOfImage := add32 new_section.VirtualAddress new_section.Misc.VirtualSize }
              new_section_header := new_section }

/-! ## `SaveFile` -/

/-- One `seek` followed by one `write` on the file stream. -/
structure Write where
  offset : Nat
  data : List Byte
deriving DecidableEq

/-- What a call of `SaveFile` did: the writes it issued, in order, and the
failure that stopped it, if any. -/
structure SaveResult where
  writes : List Write
  failure : Option Failure
deriving DecidableEq

/-- The padding loop of `PePatch.cpp:279` and `PePatchX64.cpp:137`:
`while (code_buffer.size() < SizeOfRawData) code_buffer.push_back(0)`. -/
def padCode (code_buffer : List Byte) (SizeOfRawData : Nat) : List Byte :=
  if code_buffer.length < SizeOfRawData then padCode (code_buffer ++ [0]) SizeOfRawData
  else code_buffer
termination_by SizeOfRawData - code_buffer.length

/-- The section-table loop of `PePatch.cpp:265` and `PePatchX64.cpp:123`: one write
per entry of `section_headers`, the address advancing by
`sizeof(IMAGE_SECTION_HEADER)` in `uint32_t`. -/
def sectionWrites : Nat → List IMAGE_SECTION_HEADER → List Write
  | _, [] => []
  | address, section_header :: rest =>
    { offset := address, data := encodeSectionHeader section_header } ::
      sectionWrites (add32 address sizeof_IMAGE_SECTION_HEADER) rest

/-- The header writes shared by both `SaveFile`s: the DOS header at 0, the NT
headers at `e_lfanew`, the section table after them.  A seek to a negative
`e_lfanew` fails the stream. -/
def headerWrites (self : PePatch) : SaveResult :=
  let dos : Write := { offset := 0, data := encodeDosHeader self.dos_header }
  if self.dos_header.e_lfanew < 0 then { writes := [dos], failure := some .seek_failed }
  else
    let nt : Write :=
      { offset := self.dos_header.e_lfanew.toNat
        data := encodeNtHeaders self.nt_header_signature self.file_header self.optional_header }
    let address := ofLong (self.dos_header.e_lfanew + sizeof_IMAGE_NT_HEADERS64)
    { writes := dos :: nt :: sectionWrites address self.section_headers, failure := none }

/-- `PePatch::SaveFile` (`PePatch.cpp:248-284`).  The injected section is
`section_headers.back()`. -/
def PePatch.SaveFile (self : PePatch) (code_buffer : List Byte) : SaveResult :=
  let headers := headerWrites self
  match headers.failure with
  | some e => { writes := headers.writes, failure := some e }
  | none =>
    match self.section_headers.getLast? with
    | none => { writes := headers.writes, failure := some .empty_section_table }
    | some new_section =>
      let code_position := new_section.PointerToRawData
      { writes := headers.writes ++
          [{ offset := code_position, data := padCode code_buffer new_section.SizeOfRawData }]
        failure := none }

/-- `PePatchX64::SaveFile` (`PePatchX64.cpp:101-154`).  The injected section is
`new_section_header`; the last write copies the residual buffer from the
literal index `0x000CD800` to the same file offset. -/
def PePatchX64.SaveFile (self : PePatchX64) (code_buffer : List Byte) : SaveResult :=
  if code_buffer.length = 0 then { writes := [], failure := some .empty_code_section }
  else
    let headers := headerWrites self.toPePatch
    match headers.failure with
    | some e => { writes := headers.writes, failure := some e }
    | none =>
      let code_position := self.new_section_header.PointerToRawData
      let code : Write :=
        { offset := code_position
          data := padCode code_buffer self.new_section_header.SizeOfRawData }
      if code_position < self.file_buffer.length then
        match self.section_headers.getLast? with
        | none => { writes := headers.writes ++ [code], failure := some .empty_section_table }
        | some _ =>
          if 0x000CD800 ≤ self.file_buffer.length then
            { writes := headers.writes ++
                [code, { offset := 0x000CD800, data := self.file_buffer.drop 0x000CD800 }]
              failure := none }
          else { writes := headers.writes ++ [code], failure := some .out_of_range }
      else { writes := headers.writes ++ [code], failure := none }

/-- The effect of one write on the content of the file: bytes at
`offset ..` are overwritten, and a write past the end extends the file (a gap
left by the seek reads as zero). -/
def applyWrite (file : List Byte) (w : Write) : List Byte :=
  file.take w.offset ++ List.replicate (w.offset - file.length) 0 ++ w.data ++
    file.drop (w.offset + w.data.length)

/-- The content of the file after a sequence of writes. -/
def applyWrites (file : List Byte) (ws : List Write) : List Byte :=
  ws.foldl applyWrite file

/-! ## The header fields of a file, by offset -/

/-- The 16-bit value at offset 0 of a file. -/
def fileMagic (raw : List Byte) : Nat := leNat (raw.take 2)

/-- The `LONG` at offset 60 of a file: `e_lfanew`. -/
def fileLfanew (raw : List Byte) : Int := toLong (leNat ((raw.drop 60).take 4))

/-- The 32-bit signature at `e_lfanew`. -/
def fileSignature (raw : List Byte) : Nat :=
  leNat ((raw.drop (fileLfanew raw).toNat).take 4)

/-- The 16-bit little-endian machine field at `e_lfanew + 4`. -/
def fileMachine (raw : List Byte) : Nat :=
  leNat ((raw.drop ((fileLfanew raw).toNat + 4)).take 2)

/-- The 16-bit `NumberOfSections` field at `e_lfanew + 6`. -/
def fileNumberOfSections (raw : List Byte) : Nat :=
  leNat ((raw.drop ((fileLfanew raw).toNat + 6)).take 2)

/-- The 32-bit `AddressOfEntryPoint` field of the optional header, at
`e_lfanew + 40`. -/
def fileAddressOfEntryPoint (raw : List Byte) : Nat :=
  leNat ((raw.drop ((fileLfanew raw).toNat + 40)).take 4)

/-- The size of the NT headers the file announces: those of a 32-bit image for
machine `0x014C`, those of a 64-bit image otherwise. -/
def fileNtHeadersSize (raw : List Byte) : Nat :=
  if fileMachine raw = 0x014C then sizeof_IMAGE_NT_HEADERS32 else sizeof_IMAGE_NT_HEADERS64

/-- The size of the NT headers the constructor skips for each architecture
(`PePatch.cpp:110` and `PePatch.cpp:116`). -/
def ntHeadersSize : PeArch → Nat
  | .x86 => sizeof_IMAGE_NT_HEADERS32
  | .x64 => sizeof_IMAGE_NT_HEADERS64

/-- A buffer long enough to hold the headers it addresses: the DOS header, the
NT headers at a non-negative `e_lfanew`, and `NumberOfSections` section
headers after them. -/
def HoldsItsHeaders (raw : List Byte) : Prop :=
  sizeof_IMAGE_DOS_HEADER ≤ raw.length ∧ 0 ≤ fileLfanew raw ∧
    (fileLfanew raw).toNat + fileNtHeadersSize raw +
      sizeof_IMAGE_SECTION_HEADER * fileNumberOfSections raw ≤ raw.length

/-! ## Sample states -/

/-- A `.text` section at file offset `0x200` and address `0x1000`. -/
def sampleText : IMAGE_SECTION_HEADER :=
  { Name := [0x2E, 0x74, 0x65, 0x78, 0x74, 0, 0, 0]
    Misc := { VirtualSize := 0x10 }
    VirtualAddress := 0x1000
    SizeOfRawData := 0x200
    PointerToRawData := 0x200
    PointerToRelocations := 0
    PointerToLinenumbers := 0
    NumberOfRelocations := 0
    NumberOfLinenumbers := 0
    Characteristics := 0x60000020 }

/-- A loaded 64-bit image with `FileAlignment = 0x200`, `SectionAlignment = 0x1000`
and the given section table, before any `AddSection`. -/
def sampleState (section_headers : List IMAGE_SECTION_HEADER) : PePatchX64 :=
  { dos_header := { e_magic := 0x5a4d, e_cblp_to_e_res2 := 0, e_lfanew := 64 }
    nt_header_signature := 0x4550
    file_header :=
      { Machine := 0x8664
        NumberOfSections := section_headers.length
        TimeDateStamp := 0
        PointerToSymbolTable := 0
        NumberOfSymbols := 0
        SizeOfOptionalHeader := 0xF0
        Characteristics := 0x22 }
    optional_header :=
      { Magic_to_SizeOfUninitializedData := 0x20B
        AddressOfEntryPoint := 0x1000
        BaseOfCode_to_ImageBase := 0
        SectionAlignment := 0x1000
        FileAlignment := 0x200
        MajorOperatingSystemVersion_to_Win32VersionValue := 0
        SizeOfImage := 0x2000
        SizeOfHeaders_to_DataDirectory := 0x200 }
    section_headers := section_headers
    original_entry_point := 0x1000
    type := .x64
    file_buffer := List.replicate 144 0 ++ List.replicate 512 0xC3
    new_section_header := zeroSectionHeader }

/-- The section name `.new`. -/
def sampleName : List Byte := [0x2E, 0x6E, 0x65, 0x77]

/-- A last section whose `VirtualSize` is `0`. -/
def sampleNoVirtualSize : IMAGE_SECTION_HEADER :=
  { sampleText with Misc := { VirtualSize := 0 } }

/-- A `.bss` section whose `SizeOfRawData` is `0` and whose `PointerToRawData`,
`0x400`, is a multiple of the file alignment. -/
def sampleNoRawData : IMAGE_SECTION_HEADER :=
  { sampleText with
    Name := [0x2E, 0x62, 0x73, 0x73, 0, 0, 0, 0]
    VirtualAddress := 0x2000
    SizeOfRawData := 0
    PointerToRawData := 0x400 }

/-- The sample image after `PePatchX64::AddSection(".new", 5)`. -/
def sampleAdded : PePatchX64 :=
  match (sampleState [sampleText]).AddSection sampleName 5 with
  | .ok added => added
  | .error _ => sampleState [sampleText]

/-- A two-byte code buffer. -/
def sampleCode : List Byte := [0x90, 0xC3]

/-- A 1024-byte 32-bit image: DOS header with `e_lfanew = 64`, signature, file
header (machine `0x014C`, one section), a 224-byte 32-bit optional header with
`AddressOfEntryPoint = 0x1000` at file offset `64 + 40`, the section header of
`.text` at offset 312, padding, and 512 bytes of section data at `0x200`. -/
def image32 : List Byte :=
  [0x4D, 0x5A] ++ List.replicate 58 0 ++ [0x40, 0, 0, 0] ++
  [0x50, 0x45, 0, 0] ++
  [0x4C, 0x01, 0x01, 0x00] ++ List.replicate 12 0 ++ [0xE0, 0x00, 0x02, 0x01] ++
  [0x0B, 0x01] ++ List.replicate 14 0 ++ [0x00, 0x10, 0, 0] ++ List.replicate 12 0 ++
    [0, 0x10, 0, 0] ++ [0, 0x02, 0, 0] ++ List.replicate 16 0 ++ [0, 0x20, 0, 0] ++
    [0, 0x02, 0, 0] ++ List.replicate 160 0 ++
  [0x2E, 0x74, 0x65, 0x78, 0x74, 0, 0, 0] ++ [0x10, 0, 0, 0] ++ [0, 0x10, 0, 0] ++
    [0, 0x02, 0, 0] ++ [0, 0x02, 0, 0] ++ List.replicate 12 0 ++ [0x20, 0, 0, 0x60] ++
  List.replicate 160 0 ++ List.replicate 512 0xC3

/-- The image `image32` with `AddressOfEntryPoint = 0x2000` instead: byte 105
is `0x20`. -/
def image32b : List Byte := image32.set 105 0x20

/-- A 1024-byte 64-bit image: as `image32` with machine `0x8664`, a 240-byte
64-bit optional header and the section header of `.text` at offset 328. -/
def image64 : List Byte :=
  [0x4D, 0x5A] ++ List.replicate 58 0 ++ [0x40, 0, 0, 0] ++
  [0x50, 0x45, 0, 0] ++
  [0x64, 0x86, 0x01, 0x00] ++ List.replicate 12 0 ++ [0xF0, 0x00, 0x22, 0x00] ++
  [0x0B, 0x02] ++ List.replicate 14 0 ++ [0x00, 0x10, 0, 0] ++ List.replicate 12 0 ++
    [0, 0x10, 0, 0] ++ [0, 0x02, 0, 0] ++ List.replicate 16 0 ++ [0, 0x20, 0, 0] ++
    [0, 0x02, 0, 0] ++ List.replicate 176 0 ++
  [0x2E, 0x74, 0x65, 0x78, 0x74, 0, 0, 0] ++ [0x10, 0, 0, 0] ++ [0, 0x10, 0, 0] ++
    [0, 0x02, 0, 0] ++ [0, 0x02, 0, 0] ++ List.replicate 12 0 ++ [0x20, 0, 0, 0x60] ++
  List.replicate 144 0 ++ List.replicate 512 0xC3

/-- An optional header whose bytes are all zero. -/
def zeroOptionalHeader : IMAGE_OPTIONAL_HEADER64 :=
  { Magic_to_SizeOfUninitializedData := 0
    AddressOfEntryPoint := 0
    BaseOfCode_to_ImageBase := 0
    SectionAlignment := 0
    FileAlignment := 0
    MajorOperatingSystemVersion_to_Win32VersionValue := 0
    SizeOfImage := 0
    SizeOfHeaders_to_DataDirectory := 0 }

/-- What the constructor returns on `image32` when the member `optional_header`
held `uninitialised` before the constructor body ran. -/
def loaded32 (uninitialised : IMAGE_OPTIONAL_HEADER64) : PePatch :=
  { dos_header := { e_magic := 0x5a4d, e_cblp_to_e_res2 := 0, e_lfanew := 64 }
    nt_header_signature := 0x4550
    file_header :=
      { Machine := 0x014c
        NumberOfSections := 1
        TimeDateStamp := 0
        PointerToSymbolTable := 0
        NumberOfSymbols := 0
        SizeOfOptionalHeader := 0xE0
        Characteristics := 0x0102 }
    optional_header := uninitialised
    section_headers := [sampleText]
    original_entry_point := uninitialised.AddressOfEntryPoint
    type := .x86
    file_buffer := image32.drop 352 }

/-! ## The layout invariant -/

/-- The four divisibility conditions of the layout invariant for one section:
`PointerToRawData` and `SizeOfRawData` are multiples of the file alignment,
`VirtualAddress` and `VirtualSize` are multiples of the section alignment. -/
def IsAligned (FileAlignment SectionAlignment : Nat) (s : IMAGE_SECTION_HEADER) : Prop :=
  s.PointerToRawData % FileAlignment = 0 ∧ s.SizeOfRawData % FileAlignment = 0 ∧
    s.VirtualAddress % SectionAlignment = 0 ∧ s.Misc.VirtualSize % SectionAlignment = 0

/-! ## More sample states -/

/-- The section `.text` with a `VirtualSize` that is a multiple of the section
alignment. -/
def sampleAligned : IMAGE_SECTION_HEADER :=
  { sampleText with Misc := { VirtualSize := 0x1000 } }

/-- A first section placed at the high address `0x5000`. -/
def sampleHigh : IMAGE_SECTION_HEADER :=
  { sampleText with VirtualAddress := 0x5000, Misc := { VirtualSize := 0x1000 } }

/-- A last section `.data` at file offset `0x400` and address `0x1000`, below
`sampleHigh`. -/
def sampleLow : IMAGE_SECTION_HEADER :=
  { sampleText with
    Name := [0x2E, 0x64, 0x61, 0x74, 0x61, 0, 0, 0]
    PointerToRawData := 0x400 }

/-- A last section that ends at address `0xFFFFF000`. -/
def sampleTop : IMAGE_SECTION_HEADER :=
  { sampleText with VirtualAddress := 0xFFFFE000, Misc := { VirtualSize := 0x1000 } }

/-- The ten-character section name `.injected!`. -/
def sampleLongName : List Byte := [0x2E, 0x69, 0x6E, 0x6A, 0x65, 0x63, 0x74, 0x65, 0x64, 0x21]

/-! ## `PePatchX64::AddSection`, statement by statement -/

/-- The result of running a member function on an object: the data members
when the function returned or threw, and the failure when it threw. -/
structure Outcome (σ : Type) where
  state : σ
  failure : Option Failure

/-- `PePatchX64::AddSection` (`PePatchX64.cpp:50-99`) with its effect on the
members made explicit: the locals are computed first, the collision loop
throws before any member is assigned, and the four assignments to
`file_header`, `optional_header` and `new_section_header` follow in the order
of the source. -/
def PePatchX64.AddSection_run (self : PePatchX64) (name : List Byte) (code_size : Nat) :
    Outcome PePatchX64 :=
  match self.section_headers.getLast? with
  | none => { state := self, failure := some .empty_section_table }
  | some last_section =>
    if self.optional_header.FileAlignment = 0 ∨ self.optional_header.SectionAlignment = 0 then
      { state := self, failure := some .division_by_zero }
    else
      let aligned_size := Align code_size self.optional_header.FileAlignment
      let new_pointer_to_raw_data := Align
        (add32 last_section.SizeOfRawData last_section.PointerToRawData)
        self.optional_header.FileAlignment
      match self.section_headers.find? (fun header =>
          decide (new_pointer_to_raw_data = header.PointerToRawData)) with
      | some header => { state := self, failure := some (.offset_taken header) }
      | none =>
        let new_section : IMAGE_SECTION_HEADER :=
          { zeroSectionHeader with
            Characteristics := characteristics
            SizeOfRawData := aligned_size
            Misc := { VirtualSize := Align aligned_size self.optional_header.SectionAlignment }
            PointerToRawData := new_pointer_to_raw_data
            VirtualAddress := Align
              (add32 last_section.Misc.VirtualSize last_section.VirtualAddress)
              self.optional_header.SectionAlignment
            Name := copyName name section_name_size }
        let after_count : PePatchX64 :=
          { self with
            file_header :=
              { self.file_header with
                NumberOfSections := (self.file_header.NumberOfSections + 1) % 2 ^ 16 } }
        let after_entry : PePatchX64 :=
          { after_count with
            optional_header :=
              { after_count.optional_header with
                AddressOfEntryPoint := new_section.VirtualAddress } }
        let after_size : PePatchX64 :=
          { after_entry with
            optional_header :=
              { after_entry.optional_header with
                SizeOfImage := add32 new_section.VirtualAddress new_section.Misc.VirtualSize } }
        { state := { after_size with new_section_header := new_section }, failure := none }

/-- The sample image after `PePatch::AddSection(".new", 5)`. -/
def sampleAddedBase : PePatch :=
  match (sampleState [sampleText]).toPePatch.AddSection sampleName 5 with
  | .ok added => added
  | .error _ => (sampleState [sampleText]).toPePatch

/-! ## `HasSection` -/

/-- The bytes of the section table as the vector `section_headers` holds them:
the 40 bytes of each entry, one entry after the other. -/
def sectionMemory : List IMAGE_SECTION_HEADER → List Byte
  | [] => []
  | section_header :: rest => encodeSectionHeader section_header ++ sectionMemory rest

/-- The null-terminated string that starts a region of memory: the bytes before
the first zero byte.  When the region holds no zero byte the scan leaves it,
which is undefined in C++ and `none` here. -/
def cString (memory : List Byte) : Option (List Byte) :=
  if (0 : Byte) ∈ memory then some (memory.takeWhile (fun b => decide (b ≠ 0))) else none

/-- The loop of `PePatch::HasSection` (`PePatch.cpp:203`) over the remaining
entries: `reinterpret_cast<char *>(section.Name) == section_name` compares the
null-terminated string that starts at `section.Name` with `section_name`. -/
def hasSectionLoop : List IMAGE_SECTION_HEADER → List Byte → Except Failure Bool
  | [], _ => .ok false
  | section_header :: rest, section_name =>
    match cString (sectionMemory (section_header :: rest)) with
    | none => .error .out_of_range
    | some name => if name = section_name then .ok true else hasSectionLoop rest section_name

/-- `PePatch::HasSection` (`PePatch.cpp:202-210`). -/
def PePatch.HasSection (self : PePatch) (section_name : List Byte) : Except Failure Bool :=
  hasSectionLoop self.section_headers section_name

/-- The bytes of a `Name` field before its first zero byte. -/
def nameString (s : IMAGE_SECTION_HEADER) : List Byte :=
  s.Name.takeWhile (fun b => decide (b ≠ 0))

/-! ## `ReplaceDword` -/

/-- A `char` converted to `unsigned int`, as in the comparison of a buffer
element with a `uint32_t`: the promoted signed value modulo `2 ^ 32`. -/
def charToU32 (b : Byte) : Nat := (charVal b % 2 ^ 32).toNat

/-- The `while (j < 4)` loop of `PePatch.cpp:28`: the final `j`.  The element
`code_buffer[i + j]` is compared with `target_dword >> ((8 * j) & 0xff)`; an
index outside the buffer is an out-of-range access.  The loop runs at most
three times. -/
def matchRest (code_buffer : List Byte) (i target_dword : Nat) : Nat → Nat → Except Failure Nat
  | 0, j => .ok j
  | fuel + 1, j =>
    if j < 4 then
      match code_buffer.get? (i + j) with
      | none => .error .out_of_range
      | some b =>
        if charToU32 b = (target_dword % 2 ^ 32) >>> ((8 * j) &&& 0xff) then
          matchRest code_buffer i target_dword fuel (j + 1)
        else .ok j
    else .ok j

/-- The replacement loop of `PePatch.cpp:39`: `code_buffer[i + re_i]` becomes byte
`re_i` of `replace_dword`, for `re_i < 4`. -/
def writeDword (code_buffer : List Byte) (i replace_dword : Nat) : List Byte :=
  (List.range 4).foldl
    (fun buffer re_i =>
      buffer.set (i + re_i) (byteOf (((replace_dword % 2 ^ 32) >>> (8 * re_i)) &&& 0xff)))
    code_buffer

/-- What a call of `ReplaceDword` computes: the value it returns and the final
content of its parameter `code_buffer`, which is a copy of the caller's vector
(the parameter is passed by value), so the caller's vector keeps its content. -/
structure ReplaceResult where
  returned : Bool
  local_copy : List Byte
deriving DecidableEq

/-- The `for` loop of `PePatch.cpp:20` from index `i`, for at most `remaining`
iterations. -/
def replaceLoop (code_buffer : List Byte) (target_dword replace_dword : Nat) :
    Nat → Nat → Except Failure ReplaceResult
  | 0, _ => .ok { returned := false, local_copy := code_buffer }
  | remaining + 1, i =>
    match code_buffer.get? i with
    | none => .ok { returned := false, local_copy := code_buffer }
    | some first =>
      if charToU32 first ≠ (target_dword % 2 ^ 32) &&& 0xff then
        replaceLoop code_buffer target_dword replace_dword remaining (i + 1)
      else
        match matchRest code_buffer i target_dword 3 1 with
        | .error e => .error e
        | .ok j =>
          if j = 4 then
            .ok { returned := true, local_copy := writeDword code_buffer i replace_dword }
          else replaceLoop code_buffer target_dword replace_dword remaining (i + 1)

/-- `ReplaceDword` (`PePatch.cpp:19-50`). -/
def ReplaceDword (code_buffer : List Byte) (target_dword replace_dword : Nat) :
    Except Failure ReplaceResult :=
  replaceLoop code_buffer target_dword replace_dword code_buffer.length 0

/-! ## Loading: the constructor `PePatchX64::PePatchX64` -/

/-- The loop of `PePatchX64.cpp:24-39`: as the loop of the base constructor, and
for each header a copy of the first `min(SizeOfRawData, 100)` bytes at
`PointerToRawData` of the buffer, which is an out-of-range access when that
range is not inside the buffer. -/
def readSectionHeadersX64 (raw_buffer : List Byte) (first_section : Nat) :
    Nat → Nat → Except Failure (List IMAGE_SECTION_HEADER)
  | _, 0 => .ok []
  | i, count + 1 =>
    let section_index := mul32 i sizeof_IMAGE_SECTION_HEADER
    let next_section := add32 first_section section_index
    match readBytes raw_buffer next_section sizeof_IMAGE_SECTION_HEADER with
    | none => .error .out_of_range
    | some bs =>
      let hdr := decodeSectionHeader bs
      let raw_data_offset := hdr.PointerToRawData
      let raw_data_size := hdr.SizeOfRawData
      let bytes := if raw_data_size < 100 then raw_data_size else 100
      match readBytes raw_buffer raw_data_offset bytes with
      | none => .error .out_of_range
      | some _ =>
        match readSectionHeadersX64 raw_buffer first_section (i + 1) count with
        | .error e => .error e
        | .ok rest => .ok (hdr :: rest)

/-- The block `if (type == PeArch::x64)` of `PePatchX64.cpp:10-16` on the members
left by the base constructor: the file header, `first_section`, the signature
and the optional header after it.  The buffer it reads is the member
`file_buffer`, which the base constructor has already cut down to the data
after the headers. -/
def reloadNtHeaders (base : PePatch) :
    Option (IMAGE_FILE_HEADER × Nat × Nat × IMAGE_OPTIONAL_HEADER64) :=
  match base.type with
  | .x86 => some (base.file_header, 0, base.nt_header_signature, base.optional_header)
  | .x64 =>
    let raw_buffer := base.file_buffer
    let e_lfanew := base.dos_header.e_lfanew
    match readAt raw_buffer (e_lfanew + 4) 20, readAt raw_buffer e_lfanew 4,
        readAt raw_buffer (e_lfanew + 24) 240 with
    | some fh, some sig, some oh =>
      some (decodeFileHeader fh, ofLong (e_lfanew + sizeof_IMAGE_NT_HEADERS64), leNat sig,
        decodeOptionalHeader oh)
    | _, _, _ => none

/-- The body of the constructor `PePatchX64::PePatchX64` (`PePatchX64.cpp:6-48`),
run on the members left by the base constructor.  The section headers it reads
are pushed onto the `section_headers` the base constructor filled, and the
member `file_buffer` is cut down a second time.  `new_section_header` is not
assigned and keeps the value `uninitialised_section` it had before. -/
def PePatchX64.ctorBody (uninitialised_section : IMAGE_SECTION_HEADER) (base : PePatch) :
    Except Failure PePatchX64 :=
  let raw_buffer := base.file_buffer
  match reloadNtHeaders base with
  | none => .error .out_of_range
  | some (file_header, first_section, nt_header_signature, optional_header) =>
    if nt_header_signature ≠ 0x4550 then .error .not_portable_executable
    else
      match readSectionHeadersX64 raw_buffer first_section 0 file_header.NumberOfSections with
      | .error e => .error e
      | .ok more =>
        let section_headers := base.section_headers ++ more
        let count := section_headers.length % 2 ^ 32
        let rest_of_data := add32 first_section (mul32 count sizeof_IMAGE_SECTION_HEADER)
        if rest_of_data ≤ raw_buffer.length then
          .ok { dos_header := base.dos_header
                nt_header_signature := nt_header_signature
                file_header := file_header
                optional_header := optional_header
                section_headers := section_headers
                original_entry_point := optional_header.AddressOfEntryPoint
                type := base.type
                file_buffer := raw_buffer.drop rest_of_data
                new_section_header := uninitialised_section }
        else .error .out_of_range

/-- The constructor `PePatchX64::PePatchX64` on the content of the file: the base
constructor `PePatch(path)` first, then its own body. -/
def PePatchX64.ctor (uninitialised : IMAGE_OPTIONAL_HEADER64)
    (uninitialised_section : IMAGE_SECTION_HEADER) (raw_buffer : List Byte) :
    Except Failure PePatchX64 :=
  match PePatch.ctor uninitialised raw_buffer with
  | .error e => .error e
  | .ok base => PePatchX64.ctorBody uninitialised_section base

/-! ## A 64-bit image with trailing data -/

/-- The 264 bytes of the NT headers of the sample 64-bit image. -/
def sampleNtHeaders : List Byte :=
  [0x50, 0x45, 0, 0] ++
  [0x64, 0x86, 0x01, 0x00] ++ List.replicate 12 0 ++ [0xF0, 0x00, 0x22, 0x00] ++
  [0x0B, 0x02] ++ List.replicate 14 0 ++ [0x00, 0x10, 0, 0] ++ List.replicate 12 0 ++
    [0, 0x10, 0, 0] ++ [0, 0x02, 0, 0] ++ List.replicate 16 0 ++ [0, 0x20, 0, 0] ++
    [0, 0x02, 0, 0] ++ List.replicate 176 0

/-- The 40 bytes of the section header of `.text` (`sampleText`). -/
def sampleTextBytes : List Byte :=
  [0x2E, 0x74, 0x65, 0x78, 0x74, 0, 0, 0] ++ [0x10, 0, 0, 0] ++ [0, 0x10, 0, 0] ++
    [0, 0x02, 0, 0] ++ [0, 0x02, 0, 0] ++ List.replicate 12 0 ++ [0x20, 0, 0, 0x60]

/-- The first 1060 bytes of a file that `PePatchX64` loads: DOS header with
`e_lfanew = 64`, NT headers at 64, the section header of `.text` at 328, 64
bytes of padding, and then, where the body of the derived constructor looks for
them in the already cut buffer (offsets `368 + 64` and `368 + 328` of the file),
the NT headers and the section header once more; 324 bytes `0x55` follow from
offset 736.  The derived constructor counts two section headers and cuts the
buffer at `328 + 2 * 40` of the cut buffer, that is at offset 776 of the file. -/
def twiceHeaders : List Byte :=
  [0x4D, 0x5A] ++ List.replicate 58 0 ++ [0x40, 0, 0, 0] ++
  sampleNtHeaders ++ sampleTextBytes ++ List.replicate 64 0 ++
  sampleNtHeaders ++ sampleTextBytes ++ List.replicate 324 0x55

/-- The trailing data of the file: bytes `0x55` up to offset `776 + 0xCD800` of
the file, and one final byte `0xAA` at that offset. -/
def trailingData : List Byte := List.replicate (0x000CD800 - 284) 0x55 ++ [0xAA]

/-- A file of `776 + 0xCD800 + 1` bytes that `PePatchX64` loads. -/
def overlayImage : List Byte := twiceHeaders ++ trailingData

/-- The members after `PePatchX64::PePatchX64` on `twiceHeaders`: two copies of
the section header of `.text` in the table, and the last 284 bytes of
`twiceHeaders` as residual buffer. -/
def loadedTwice : PePatchX64 :=
  { sampleState [sampleText, sampleText] with
    file_header :=
      { Machine := 0x8664
        NumberOfSections := 1
        TimeDateStamp := 0
        PointerToSymbolTable := 0
        NumberOfSymbols := 0
        SizeOfOptionalHeader := 0xF0
        Characteristics := 0x22 }
    file_buffer := List.replicate 284 0x55 }

/-- The members after `AddSection(".new", 5)` on `loadedTwice`. -/
def addedTwice : PePatchX64 :=
  match loadedTwice.AddSection sampleName 5 with
  | .ok added => added
  | .error _ => loadedTwice

/-- The 64-bit sample image followed by `2 ^ 32` zero bytes: a file of
`2 ^ 32 + 1024` bytes whose headers are those of `image64`. -/
def hugeImage : List Byte := image64 ++ List.replicate (2 ^ 32) 0

/-- A `.text` section whose raw data ends at file offset `0xCD800`. -/
def sampleDeep : IMAGE_SECTION_HEADER :=
  { sampleText with PointerToRawData := 0x000CD600 }

/-- The sample image with the section `sampleDeep`, after
`PePatchX64::AddSection(".new", 5)`: the new section is at file offset
`0xCD800`. -/
def deepAdded : PePatchX64 :=
  match (sampleState [sampleDeep]).AddSection sampleName 5 with
  | .ok added => added
  | .error _ => sampleState [sampleDeep]

/-- A residual buffer of `0xCD800` bytes `0x55` and one byte `0xAA`. -/
def deepBuffer : List Byte := List.replicate 0x000CD800 0x55 ++ [0xAA]

/-- The members `deepAdded` with the residual buffer `deepBuffer`. -/
def deepOverlaid : PePatchX64 := { deepAdded with file_buffer := deepBuffer }

/-! # Theorems -/

/-! ## Lemmas on the 32-bit arithmetic -/

theorem two_pow_32 : (2 : Nat) ^ 32 = 4294967296 := by norm_num

theorem add32_comm (a b : Nat) : add32 a b = add32 b a := by
  unfold add32; rw [Nat.add_comm]

theorem add32_eq_of_lt {a b : Nat} (h : a + b < 2 ^ 32) : add32 a b = a + b :=
  Nat.mod_eq_of_lt h

theorem sub32_lt (a b : Nat) : sub32 a b < 2 ^ 32 := by
  unfold sub32; exact Nat.mod_lt _ (by norm_num)

/-- The result of `Align` is a multiple of `multiple`, wrap-around or not: the
quotient times `multiple` never exceeds the 32-bit dividend. -/
theorem Align_mod_self (num multiple : Nat) : Align num multiple % multiple = 0 := by
  unfold Align mul32
  have hle : sub32 (add32 num multiple) 1 / multiple * multiple ≤ sub32 (add32 num multiple) 1 :=
    Nat.div_mul_le_self _ _
  rw [Nat.mod_eq_of_lt (lt_of_le_of_lt hle (sub32_lt _ _))]
  exact Nat.mul_mod_left _ _

/-- Without wrap-around `Align` is the exact round-up expression. -/
theorem Align_eq_of_no_wrap {num multiple : Nat} (hm : 0 < multiple)
    (h : num + multiple - 1 < 2 ^ 32) :
    Align num multiple = (num + multiple - 1) / multiple * multiple := by
  have hs : sub32 (add32 num multiple) 1 = num + multiple - 1 := by
    unfold sub32 add32
    simp only [two_pow_32] at *
    omega
  unfold Align mul32
  rw [hs]
  exact Nat.mod_eq_of_lt (lt_of_le_of_lt (Nat.div_mul_le_self _ _) h)

/-- When the 32-bit sum `num + multiple - 1` wraps, `Align` returns `0`. -/
theorem Align_eq_zero_of_wrap {num multiple : Nat} (hn : num < 2 ^ 32)
    (hm : multiple < 2 ^ 32) (h : 2 ^ 32 ≤ num + multiple - 1) :
    Align num multiple = 0 := by
  have hs : sub32 (add32 num multiple) 1 = num + multiple - 1 - 2 ^ 32 := by
    unfold sub32 add32
    simp only [two_pow_32] at *
    omega
  unfold Align mul32
  rw [hs]
  have hq : (num + multiple - 1 - 2 ^ 32) / multiple = 0 := by
    apply Nat.div_eq_of_lt
    omega
  rw [hq]; simp

/-- The exact round-up expression lies in `[num, num + multiple)`. -/
theorem round_up_bounds (num : Nat) {multiple : Nat} (hm : 0 < multiple) :
    num ≤ (num + multiple - 1) / multiple * multiple ∧
      (num + multiple - 1) / multiple * multiple < num + multiple := by
  have h1 := Nat.div_add_mod (num + multiple - 1) multiple
  have h2 := Nat.mod_lt (num + multiple - 1) hm
  rw [Nat.mul_comm] at h1
  constructor <;> omega

/-- Without wrap-around `Align num multiple` lies in `[num, num + multiple)`. -/
theorem Align_bounds {num multiple : Nat} (hm : 0 < multiple)
    (h : num + multiple - 1 < 2 ^ 32) :
    num ≤ Align num multiple ∧ Align num multiple < num + multiple := by
  rw [Align_eq_of_no_wrap hm h]
  exact round_up_bounds num hm

/-! ## C1: the alignment law -/

/-- C1, as stated, fails: for the 32-bit value `0xFFFFFFFF` and the power of two
`2`, the sum `value + multiple - 1` wraps and `Align` returns `0`, which is
below `value`. -/
theorem C1_counterexample :
    (0xFFFFFFFF : Nat) < 2 ^ 32 ∧ (2 : Nat) = 2 ^ 1 ∧ Align 0xFFFFFFFF 2 = 0 ∧
      ¬ (0xFFFFFFFF ≤ Align 0xFFFFFFFF 2) := by
  decide

/-- C1 (amended): for every 32-bit `value` and every power of two
`multiple = 2 ^ k` with `k < 32`, `Align value multiple` is a multiple of
`multiple`; it satisfies `value ≤ r` and `r < value + multiple` exactly when
`value + multiple - 1 < 2 ^ 32`, that is when the 32-bit sum does not wrap, and
it is `0` when the sum wraps. -/
theorem C1_Align_law (value multiple k : Nat) (hv : value < 2 ^ 32)
    (hk : k < 32) (hm : multiple = 2 ^ k) :
    Align value multiple % multiple = 0 ∧
      ((value ≤ Align value multiple ∧ Align value multiple < value + multiple) ↔
        value + multiple - 1 < 2 ^ 32) ∧
      (2 ^ 32 ≤ value + multiple - 1 → Align value multiple = 0) := by
  have hpos : 0 < multiple := by rw [hm]; exact Nat.pos_pow_of_pos _ (by norm_num)
  have hlt : multiple < 2 ^ 32 := by
    rw [hm]; exact Nat.pow_lt_pow_right (by norm_num) hk
  refine ⟨Align_mod_self _ _, ⟨fun hb => ?_, fun h => Align_bounds hpos h⟩,
    fun h => Align_eq_zero_of_wrap hv hlt h⟩
  by_contra hw
  have hz := Align_eq_zero_of_wrap hv hlt (Nat.le_of_not_lt hw)
  rw [hz] at hb
  simp only [two_pow_32] at *
  omega

/-- C1 (amended), witness: `value = 5`, `multiple = 4 = 2 ^ 2`. -/
theorem C1_Align_law_witness :
    (5 < 2 ^ 32 ∧ 2 < 32 ∧ 4 = 2 ^ 2) ∧
      Align 5 4 % 4 = 0 ∧
      ((5 ≤ Align 5 4 ∧ Align 5 4 < 5 + 4) ↔ 5 + 4 - 1 < 2 ^ 32) ∧
      (2 ^ 32 ≤ 5 + 4 - 1 → Align 5 4 = 0) :=
  ⟨by decide, C1_Align_law 5 4 2 (by decide) (by decide) (by decide)⟩

/-! ## Lemmas on `AddSection` -/

/-- What a successful `PePatch::AddSection` returns. -/
theorem AddSection_ok {m m' : PePatch} {name : List Byte} {code_size : Nat}
    (h : m.AddSection name code_size = .ok m') :
    ∃ last, m.section_headers.getLast? = some last ∧
      m.optional_header.FileAlignment ≠ 0 ∧ m.optional_header.SectionAlignment ≠ 0 ∧
      ∃ new : IMAGE_SECTION_HEADER,
        new.SizeOfRawData = Align code_size m.optional_header.FileAlignment ∧
        new.Misc.VirtualSize = Align new.SizeOfRawData m.optional_header.SectionAlignment ∧
        new.PointerToRawData =
          Align (add32 last.PointerToRawData last.SizeOfRawData) m.optional_header.FileAlignment ∧
        new.VirtualAddress =
          Align (add32 last.VirtualAddress last.Misc.VirtualSize)
            m.optional_header.SectionAlignment ∧
        m'.section_headers = m.section_headers ++ [new] ∧
        m'.file_header.NumberOfSections = (m.file_header.NumberOfSections + 1) % 2 ^ 16 ∧
        m'.optional_header.AddressOfEntryPoint = new.VirtualAddress ∧
        m'.optional_header.SizeOfImage = add32 new.VirtualAddress new.Misc.VirtualSize ∧
        m'.original_entry_point = m.original_entry_point := by
  unfold PePatch.AddSection at h
  split at h
  · cases h
  · rename_i last hlast
    split at h
    · cases h
    · rename_i hz
      simp only [not_or] at hz
      injection h with h
      subst h
      refine ⟨last, hlast, hz.1, hz.2, _, rfl, rfl, ?_, ?_, rfl, rfl, rfl, rfl, rfl⟩
      · simp only [add32_comm]
      · simp only [add32_comm]

/-- What a successful `PePatchX64::AddSection` returns. -/
theorem AddSectionX64_ok {m m' : PePatchX64} {name : List Byte} {code_size : Nat}
    (h : m.AddSection name code_size = .ok m') :
    ∃ last, m.section_headers.getLast? = some last ∧
      m.optional_header.FileAlignment ≠ 0 ∧ m.optional_header.SectionAlignment ≠ 0 ∧
      (∀ header ∈ m.section_headers,
        m'.new_section_header.PointerToRawData ≠ header.PointerToRawData) ∧
      m'.new_section_header.SizeOfRawData = Align code_size m.optional_header.FileAlignment ∧
      m'.new_section_header.Misc.VirtualSize =
        Align m'.new_section_header.SizeOfRawData m.optional_header.SectionAlignment ∧
      m'.new_section_header.PointerToRawData =
        Align (add32 last.PointerToRawData last.SizeOfRawData) m.optional_header.FileAlignment ∧
      m'.new_section_header.VirtualAddress =
        Align (add32 last.VirtualAddress last.Misc.VirtualSize)
          m.optional_header.SectionAlignment ∧
      m'.section_headers = m.section_headers ∧
      m'.file_header.NumberOfSections = (m.file_header.NumberOfSections + 1) % 2 ^ 16 ∧
      m'.optional_header.AddressOfEntryPoint = m'.new_section_header.VirtualAddress ∧
      m'.optional_header.SizeOfImage =
        add32 m'.new_section_header.VirtualAddress m'.new_section_header.Misc.VirtualSize ∧
      m'.original_entry_point = m.original_entry_point := by
  unfold PePatchX64.AddSection at h
  split at h
  · cases h
  · rename_i last hlast
    split at h
    · cases h
    · rename_i hz
      simp only [not_or] at hz
      dsimp only at h
      split at h
      · cases h
      · rename_i hfind
        injection h with h
        subst h
        refine ⟨last, hlast, hz.1, hz.2, ?_, rfl, rfl, ?_, ?_, rfl, rfl, rfl, rfl, rfl⟩
        · intro header hmem
          have := List.find?_eq_none.mp hfind header hmem
          simpa using this
        · simp only [add32_comm]
        · simp only [add32_comm]

/-! ## C2: the layout of the new section -/

/-- C2: for every model whose section table ends with `last`, and every
`code_size`, a successful `PePatch::AddSection` appends, and a successful
`PePatchX64::AddSection` stores, a new section with
`SizeOfRawData = Align(code_size, FileAlignment)`,
`VirtualSize = Align(SizeOfRawData, SectionAlignment)`,
`PointerToRawData = Align(last.PointerToRawData + last.SizeOfRawData, FileAlignment)`
and `VirtualAddress = Align(last.VirtualAddress + last.VirtualSize, SectionAlignment)`,
the sums being 32-bit. -/
theorem C2_AddSection_layout (self : PePatchX64) (name : List Byte) (code_size : Nat)
    (last : IMAGE_SECTION_HEADER) (hlast : self.section_headers.getLast? = some last) :
    (∀ m', self.toPePatch.AddSection name code_size = .ok m' →
      ∃ new, m'.section_headers.getLast? = some new ∧
        new.SizeOfRawData = Align code_size self.optional_header.FileAlignment ∧
        new.Misc.VirtualSize = Align new.SizeOfRawData self.optional_header.SectionAlignment ∧
        new.PointerToRawData =
          Align (add32 last.PointerToRawData last.SizeOfRawData)
            self.optional_header.FileAlignment ∧
        new.VirtualAddress =
          Align (add32 last.VirtualAddress last.Misc.VirtualSize)
            self.optional_header.SectionAlignment) ∧
    (∀ mx', self.AddSection name code_size = .ok mx' →
      mx'.new_section_header.SizeOfRawData =
          Align code_size self.optional_header.FileAlignment ∧
        mx'.new_section_header.Misc.VirtualSize =
          Align mx'.new_section_header.SizeOfRawData self.optional_header.SectionAlignment ∧
        mx'.new_section_header.PointerToRawData =
          Align (add32 last.PointerToRawData last.SizeOfRawData)
            self.optional_header.FileAlignment ∧
        mx'.new_section_header.VirtualAddress =
          Align (add32 last.VirtualAddress last.Misc.VirtualSize)
            self.optional_header.SectionAlignment) := by
  constructor
  · intro m' h
    obtain ⟨last', hl, _, _, new, h1, h2, h3, h4, h5, _⟩ := AddSection_ok h
    have : last' = last := by
      have := hl.symm.trans hlast
      exact Option.some.inj this
    subst this
    exact ⟨new, by rw [h5]; simp, h1, h2, h3, h4⟩
  · intro mx' h
    obtain ⟨last', hl, _, _, _, h1, h2, h3, h4, _⟩ := AddSectionX64_ok h
    have : last' = last := by
      have := hl.symm.trans hlast
      exact Option.some.inj this
    subst this
    exact ⟨h1, h2, h3, h4⟩

/-- C2, witness: on the sample image with the single section `.text`, both
variants succeed for `code_size = 5` and lay the new section out at file offset
`0x400` and address `0x2000`. -/
theorem C2_AddSection_layout_witness :
    (sampleState [sampleText]).section_headers.getLast? = some sampleText ∧
      (∃ m', (sampleState [sampleText]).toPePatch.AddSection sampleName 5 = .ok m') ∧
      (∃ mx', (sampleState [sampleText]).AddSection sampleName 5 = .ok mx' ∧
        mx'.new_section_header.SizeOfRawData = 0x200 ∧
        mx'.new_section_header.Misc.VirtualSize = 0x1000 ∧
        mx'.new_section_header.PointerToRawData = 0x400 ∧
        mx'.new_section_header.VirtualAddress = 0x2000) :=
  ⟨rfl, ⟨_, rfl⟩, ⟨_, rfl,
    by
      have h := (C2_AddSection_layout (sampleState [sampleText]) sampleName 5 sampleText rfl).2
        _ rfl
      refine ⟨h.1.trans (by decide), h.2.1.trans (by decide), h.2.2.1.trans (by decide),
        h.2.2.2.trans (by decide)⟩⟩⟩

/-! ## C3: entry point redirection -/

/-- C3: after every successful `AddSection`, in both variants, the optional
header's `AddressOfEntryPoint` equals the new section's `VirtualAddress` (the
appended last entry in `PePatch`, `new_section_header` in `PePatchX64`), and
`GetOriginalEntryPoint()` returns what it returned before the call. -/
theorem C3_entry_point_redirected (self : PePatchX64) (name : List Byte) (code_size : Nat) :
    (∀ m', self.toPePatch.AddSection name code_size = .ok m' →
      (∃ new, m'.section_headers.getLast? = some new ∧
        m'.optional_header.AddressOfEntryPoint = new.VirtualAddress) ∧
      m'.GetOriginalEntryPoint = self.toPePatch.GetOriginalEntryPoint) ∧
    (∀ mx', self.AddSection name code_size = .ok mx' →
      mx'.optional_header.AddressOfEntryPoint = mx'.new_section_header.VirtualAddress ∧
      mx'.toPePatch.GetOriginalEntryPoint = self.toPePatch.GetOriginalEntryPoint) := by
  constructor
  · intro m' h
    obtain ⟨_, _, _, _, new, _, _, _, _, h5, _, h7, _, h9⟩ := AddSection_ok h
    exact ⟨⟨new, by rw [h5]; simp, h7⟩, h9⟩
  · intro mx' h
    obtain ⟨_, _, _, _, _, _, _, _, _, _, _, h7, _, h9⟩ := AddSectionX64_ok h
    exact ⟨h7, h9⟩

/-- C3, witness: on the sample image both variants succeed; the entry point
moves from `0x1000` to the new section at `0x2000` and the original entry
point stays `0x1000`. -/
theorem C3_entry_point_redirected_witness :
    ∃ m' mx', (sampleState [sampleText]).toPePatch.AddSection sampleName 5 = .ok m' ∧
      (sampleState [sampleText]).AddSection sampleName 5 = .ok mx' ∧
      m'.optional_header.AddressOfEntryPoint = 0x2000 ∧
      mx'.optional_header.AddressOfEntryPoint = mx'.new_section_header.VirtualAddress ∧
      m'.GetOriginalEntryPoint = 0x1000 ∧ mx'.toPePatch.GetOriginalEntryPoint = 0x1000 :=
  ⟨_, _, rfl, rfl, by decide,
    ((C3_entry_point_redirected (sampleState [sampleText]) sampleName 5).2 _ rfl).1,
    ((C3_entry_point_redirected (sampleState [sampleText]) sampleName 5).1 _ rfl).2,
    ((C3_entry_point_redirected (sampleState [sampleText]) sampleName 5).2 _ rfl).2⟩

/-! ## Lemmas on `SaveFile` -/

/-- The padding loop appends `n` zero bytes when `n` bytes are missing. -/
theorem padCode_of_missing (n : Nat) :
    ∀ (code_buffer : List Byte) (SizeOfRawData : Nat),
      SizeOfRawData - code_buffer.length = n →
      padCode code_buffer SizeOfRawData = code_buffer ++ List.replicate n 0 := by
  induction n with
  | zero =>
    intro code_buffer size h
    rw [padCode, if_neg (by omega)]
    simp
  | succ n ih =>
    intro code_buffer size h
    rw [padCode, if_pos (by omega), ih (code_buffer ++ [0]) size (by simp; omega)]
    simp [List.replicate_succ]

/-- The padding loop appends exactly the missing zero bytes. -/
theorem padCode_eq (code_buffer : List Byte) (SizeOfRawData : Nat) :
    padCode code_buffer SizeOfRawData =
      code_buffer ++ List.replicate (SizeOfRawData - code_buffer.length) 0 :=
  padCode_of_missing _ code_buffer SizeOfRawData rfl

/-! ## C4: the section table after `AddSection` -/

/-- In `PePatch` a successful `AddSection` appends the new section to the table
and adds one to the 16-bit `NumberOfSections`. -/
theorem AddSection_appends {m m' : PePatch} {name : List Byte} {code_size : Nat}
    (h : m.AddSection name code_size = .ok m') :
    (∃ new, m'.section_headers = m.section_headers ++ [new]) ∧
      m'.file_header.NumberOfSections = (m.file_header.NumberOfSections + 1) % 2 ^ 16 := by
  obtain ⟨_, _, _, _, new, _, _, _, _, h5, h6, _⟩ := AddSection_ok h
  exact ⟨⟨new, h5⟩, h6⟩

/-- In `PePatchX64` a successful `AddSection` leaves the section table as it
was, while `NumberOfSections` grows by one. -/
theorem AddSectionX64_keeps_table {m m' : PePatchX64} {name : List Byte}
    {code_size : Nat} (h : m.AddSection name code_size = .ok m') :
    m'.section_headers = m.section_headers ∧
      m'.file_header.NumberOfSections = (m.file_header.NumberOfSections + 1) % 2 ^ 16 := by
  obtain ⟨_, _, _, _, _, _, _, _, _, h5, h6, _⟩ := AddSectionX64_ok h
  exact ⟨h5, h6⟩

set_option maxRecDepth 100000 in
/-- C4 fails in `PePatchX64`: on the sample image with one section, `AddSection`
succeeds and sets `NumberOfSections` to 2, but the section table still holds
only `.text`; `SaveFile` then writes the DOS header, the NT headers, one
section header at offset 328 and the code at `0x400`, and never writes the new
section's header (which belongs at offset 368). -/
theorem C4_x64_table_not_appended :
    ∃ mx', (sampleState [sampleText]).AddSection sampleName 5 = .ok mx' ∧
      mx'.file_header.NumberOfSections = 2 ∧
      mx'.section_headers = [sampleText] ∧
      mx'.new_section_header ∉ mx'.section_headers ∧
      (mx'.SaveFile [0xC3]).failure = none ∧
      (mx'.SaveFile [0xC3]).writes.map (fun w => (w.offset, w.data.length)) =
        [(0, 64), (64, 264), (328, 40), (0x400, 0x200)] ∧
      (∀ w ∈ (mx'.SaveFile [0xC3]).writes,
        w.data ≠ encodeSectionHeader mx'.new_section_header) := by
  refine ⟨_, rfl, by decide, by decide, by decide, ?_, ?_, ?_⟩ <;>
    simp only [PePatchX64.SaveFile, padCode_eq] <;> decide

/-! ## C5: the new section starts after the last one -/

/-- C5, as stated, fails: the last section of this image has `VirtualSize = 0`;
`AddSection` succeeds in both variants with non-zero alignments, and the new
section's `VirtualAddress` equals the last section's `VirtualAddress`
(`0x1000`) instead of being strictly greater. -/
theorem C5_counterexample :
    ∃ m' mx' new,
      (sampleState [sampleNoVirtualSize]).toPePatch.AddSection sampleName 5 = .ok m' ∧
      (sampleState [sampleNoVirtualSize]).AddSection sampleName 5 = .ok mx' ∧
      m'.section_headers.getLast? = some new ∧
      ¬ (sampleNoVirtualSize.VirtualAddress < new.VirtualAddress) ∧
      ¬ (sampleNoVirtualSize.VirtualAddress < mx'.new_section_header.VirtualAddress) :=
  ⟨_, _, _, rfl, rfl, rfl, by decide, by decide⟩

/-- C5 (amended): for every model whose section table ends with `last`, after a
successful `AddSection`: if `last.SizeOfRawData > 0` and
`last.PointerToRawData + last.SizeOfRawData + FileAlignment - 1 < 2 ^ 32` then the
new section's `PointerToRawData` is strictly greater than `last.PointerToRawData`
(in `PePatchX64` the collision guard makes `last.SizeOfRawData > 0` unnecessary);
if `last.VirtualSize > 0` and
`last.VirtualAddress + last.VirtualSize + SectionAlignment - 1 < 2 ^ 32` then the new
section's `VirtualAddress` is strictly greater than `last.VirtualAddress`. -/
theorem C5_strictly_after_last (self : PePatchX64) (name : List Byte) (code_size : Nat)
    (last : IMAGE_SECTION_HEADER) (hlast : self.section_headers.getLast? = some last) :
    (∀ m', self.toPePatch.AddSection name code_size = .ok m' →
      ∃ new, m'.section_headers.getLast? = some new ∧
        (0 < last.SizeOfRawData →
          last.PointerToRawData + last.SizeOfRawData + self.optional_header.FileAlignment - 1
            < 2 ^ 32 →
          last.PointerToRawData < new.PointerToRawData) ∧
        (0 < last.Misc.VirtualSize →
          last.VirtualAddress + last.Misc.VirtualSize + self.optional_header.SectionAlignment - 1
            < 2 ^ 32 →
          last.VirtualAddress < new.VirtualAddress)) ∧
    (∀ mx', self.AddSection name code_size = .ok mx' →
      (last.PointerToRawData + last.SizeOfRawData + self.optional_header.FileAlignment - 1
            < 2 ^ 32 →
          last.PointerToRawData < mx'.new_section_header.PointerToRawData) ∧
        (0 < last.Misc.VirtualSize →
          last.VirtualAddress + last.Misc.VirtualSize + self.optional_header.SectionAlignment - 1
            < 2 ^ 32 →
          last.VirtualAddress < mx'.new_section_header.VirtualAddress)) := by
  have key : ∀ a s al : Nat, al ≠ 0 → a + s + al - 1 < 2 ^ 32 → a + s ≤ Align (add32 a s) al := by
    intro a s al hal h
    have hsum : a + s < 2 ^ 32 := by omega
    rw [add32_eq_of_lt hsum]
    exact (Align_bounds (Nat.pos_of_ne_zero hal) h).1
  constructor
  · intro m' h
    obtain ⟨last', hl, hfa, hsa, new, _, _, h3, h4, h5, _⟩ := AddSection_ok h
    have : last' = last := Option.some.inj (hl.symm.trans hlast)
    subst this
    refine ⟨new, by rw [h5]; simp, fun hpos hno => ?_, fun hpos hno => ?_⟩
    · have := key _ _ _ hfa hno
      omega
    · have := key _ _ _ hsa hno
      omega
  · intro mx' h
    obtain ⟨last', hl, hfa, hsa, hguard, _, _, h3, h4, _⟩ := AddSectionX64_ok h
    have : last' = last := Option.some.inj (hl.symm.trans hlast)
    subst this
    refine ⟨fun hno => ?_, fun hpos hno => ?_⟩
    · have hle := key _ _ _ hfa hno
      have hne := hguard last' (List.mem_of_getLast?_eq_some hl)
      omega
    · have := key _ _ _ hsa hno
      omega

/-- C5 (amended), witness: on the sample image, whose last section `.text` has
non-zero sizes, both variants succeed and place the new section at file offset
`0x400 > 0x200` and address `0x2000 > 0x1000`. -/
theorem C5_strictly_after_last_witness :
    (sampleState [sampleText]).section_headers.getLast? = some sampleText ∧
      (0 < sampleText.SizeOfRawData ∧ 0 < sampleText.Misc.VirtualSize ∧
        sampleText.PointerToRawData + sampleText.SizeOfRawData + 0x200 - 1 < 2 ^ 32 ∧
        sampleText.VirtualAddress + sampleText.Misc.VirtualSize + 0x1000 - 1 < 2 ^ 32) ∧
      ∃ mx', (sampleState [sampleText]).AddSection sampleName 5 = .ok mx' ∧
        sampleText.PointerToRawData < mx'.new_section_header.PointerToRawData ∧
        sampleText.VirtualAddress < mx'.new_section_header.VirtualAddress :=
  ⟨rfl, by decide, _, rfl,
    ((C5_strictly_after_last (sampleState [sampleText]) sampleName 5 sampleText rfl).2 _ rfl).1
      (by decide),
    ((C5_strictly_after_last (sampleState [sampleText]) sampleName 5 sampleText rfl).2 _ rfl).2
      (by decide) (by decide)⟩

/-! ## C6: the collision guard -/

/-- C6 fails in `PePatch`: the last section of this image has
`SizeOfRawData = 0` and `PointerToRawData = 0x400`, a multiple of the file
alignment.  `PePatchX64::AddSection` throws, naming that section, but
`PePatch::AddSection` succeeds and gives the new section the same
`PointerToRawData = 0x400`. -/
theorem C6_base_has_no_collision_guard :
    (sampleState [sampleText, sampleNoRawData]).AddSection sampleName 5 =
        .error (.offset_taken sampleNoRawData) ∧
      ∃ m' new,
        (sampleState [sampleText, sampleNoRawData]).toPePatch.AddSection sampleName 5 = .ok m' ∧
        m'.section_headers.getLast? = some new ∧
        new.PointerToRawData = 0x400 ∧
        sampleNoRawData ∈ (sampleState [sampleText, sampleNoRawData]).section_headers ∧
        sampleNoRawData.PointerToRawData = new.PointerToRawData :=
  ⟨rfl, _, _, rfl, rfl, by decide, by decide, by decide⟩

/-! ## Lemmas on `SaveFile` -/

/-- With a non-negative `e_lfanew` the header writes all succeed. -/
theorem headerWrites_failure {m : PePatch} (h : 0 ≤ m.dos_header.e_lfanew) :
    (headerWrites m).failure = none := by
  unfold headerWrites
  rw [if_neg (by omega)]

/-- The padded buffer: its length, its prefix and its zero tail. -/
theorem padCode_spec (code_buffer : List Byte) (SizeOfRawData : Nat)
    (h : code_buffer.length < SizeOfRawData) :
    (padCode code_buffer SizeOfRawData).length = SizeOfRawData ∧
      (padCode code_buffer SizeOfRawData).take code_buffer.length = code_buffer ∧
      (padCode code_buffer SizeOfRawData).drop code_buffer.length =
        List.replicate (SizeOfRawData - code_buffer.length) 0 := by
  rw [padCode_eq]
  refine ⟨?_, ?_, ?_⟩
  · simp; omega
  · simp
  · simp

/-! ## Lemmas on buffers and overlays -/

theorem leNat_lt (bs : List Byte) : leNat bs < 256 ^ bs.length := by
  induction bs with
  | nil => simp [leNat]
  | cons b bs ih =>
    have hb := b.isLt
    simp only [leNat, List.length_cons, pow_succ]
    omega

theorem readBytes_eq_some {buf : List Byte} {off len : Nat} (h : off + len ≤ buf.length) :
    readBytes buf off len = some ((buf.drop off).take len) := by
  unfold readBytes
  rw [if_pos h]

theorem readAt_eq_some {buf : List Byte} {off : Int} {len : Nat} (h0 : 0 ≤ off)
    (h : off.toNat + len ≤ buf.length) :
    readAt buf off len = some ((buf.drop off.toNat).take len) := by
  unfold readAt
  rw [if_pos h0, readBytes_eq_some h]

/-- A slice of a slice is a slice of the buffer. -/
theorem slice_slice (l : List Byte) (a n b c : Nat) (h : b + c ≤ n) :
    (((l.drop a).take n).drop b).take c = (l.drop (a + b)).take c := by
  rw [List.drop_take, List.drop_drop, List.take_take]
  congr 1
  omega

theorem slice_length {l : List Byte} {a n : Nat} (h : a + n ≤ l.length) :
    ((l.drop a).take n).length = n := by
  simp; omega

theorem toNat_add_nat {e : Int} (h : 0 ≤ e) (k : Nat) : (e + k).toNat = e.toNat + k := by
  omega

/-- Two adjacent bytes of a buffer. -/
theorem two_bytes {l : List Byte} {k : Nat} (h : k + 2 ≤ l.length) :
    ∃ lo hi, (l.drop k).take 2 = [lo, hi] ∧ (l.drop k).take 1 = [lo] ∧
      (l.drop (k + 1)).take 1 = [hi] := by
  have hlen : (l.drop k).length = l.length - k := List.length_drop k l
  rw [← List.drop_drop]
  match hd : l.drop k with
  | [] => rw [hd] at hlen; simp at hlen; omega
  | [_] => rw [hd] at hlen; simp at hlen; omega
  | lo :: hi :: rest => exact ⟨lo, hi, rfl, rfl, rfl⟩

/-- The machine type computed from two signed `char`s is `0x014c` exactly when
the little-endian 16-bit field is. -/
theorem decodeMachine_x86 (hi lo : Byte) :
    decodeMachine hi lo = 0x014c ↔ leNat [lo, hi] = 0x014C := by
  have h1 := hi.isLt
  have h2 := lo.isLt
  unfold decodeMachine charVal leNat leNat leNat
  split_ifs <;> constructor <;> intro h <;> omega

/-- The machine type computed from two signed `char`s is `0x8664` exactly when
the little-endian 16-bit field is. -/
theorem decodeMachine_x64 (hi lo : Byte) :
    decodeMachine hi lo = 0x8664 ↔ leNat [lo, hi] = 0x8664 := by
  have h1 := hi.isLt
  have h2 := lo.isLt
  unfold decodeMachine charVal leNat leNat leNat
  split_ifs <;> constructor <;> intro h <;> omega

/-! ## Lemmas on the constructor -/

theorem toLong_lt {n : Nat} (h : n < 2 ^ 32) : toLong n < 2 ^ 31 := by
  unfold toLong
  split_ifs <;> omega

theorem fileLfanew_lt (raw : List Byte) : fileLfanew raw < 2 ^ 31 := by
  unfold fileLfanew
  apply toLong_lt
  have h := leNat_lt ((raw.drop 60).take 4)
  have hl : ((raw.drop 60).take 4).length ≤ 4 := by simp
  calc leNat ((raw.drop 60).take 4) < 256 ^ ((raw.drop 60).take 4).length := h
    _ ≤ 256 ^ 4 := Nat.pow_le_pow_right (by norm_num) hl
    _ = 2 ^ 32 := by norm_num

theorem fileNumberOfSections_lt (raw : List Byte) : fileNumberOfSections raw < 2 ^ 16 := by
  unfold fileNumberOfSections
  have h := leNat_lt ((raw.drop ((fileLfanew raw).toNat + 6)).take 2)
  have hl : ((raw.drop ((fileLfanew raw).toNat + 6)).take 2).length ≤ 2 := by simp
  calc _ < 256 ^ ((raw.drop ((fileLfanew raw).toNat + 6)).take 2).length := h
    _ ≤ 256 ^ 2 := Nat.pow_le_pow_right (by norm_num) hl
    _ = 2 ^ 16 := by norm_num

/-- The section-header loop succeeds when every entry lies inside the buffer. -/
theorem readSectionHeaders_ok (raw : List Byte) (first : Nat) :
    ∀ count i, first + 40 * (i + count) ≤ raw.length → first + 40 * (i + count) < 2 ^ 32 →
      ∃ hs, readSectionHeaders raw first i count = .ok hs ∧ hs.length = count := by
  intro count
  induction count with
  | zero => intro i _ _; exact ⟨[], rfl, rfl⟩
  | succ n ih =>
    intro i hlen hlt
    obtain ⟨hs, hok, hl⟩ := ih (i + 1) (by omega) (by omega)
    have hoff : add32 first (mul32 i sizeof_IMAGE_SECTION_HEADER) = first + i * 40 := by
      unfold add32 mul32 sizeof_IMAGE_SECTION_HEADER
      simp only [two_pow_32] at *
      omega
    have hread : readBytes raw (first + i * 40) sizeof_IMAGE_SECTION_HEADER =
        some ((raw.drop (first + i * 40)).take sizeof_IMAGE_SECTION_HEADER) :=
      readBytes_eq_some (by unfold sizeof_IMAGE_SECTION_HEADER; omega)
    refine ⟨decodeSectionHeader
      ((raw.drop (first + i * 40)).take sizeof_IMAGE_SECTION_HEADER) :: hs, ?_, by simp [hl]⟩
    simp only [readSectionHeaders, hoff, hread, hok]

/-- The fields of the DOS header overlaid on a buffer of at least 64 bytes. -/
theorem decodeDosHeader_take (raw : List Byte) :
    (decodeDosHeader (raw.take 64)).e_magic = fileMagic raw ∧
      (decodeDosHeader (raw.take 64)).e_lfanew = fileLfanew raw := by
  have h := slice_slice raw 0 64 60 4 (by omega)
  simp only [List.drop_zero, Nat.zero_add] at h
  unfold decodeDosHeader fileMagic fileLfanew
  simp [h, List.take_take]

/-- The 32-bit pattern of a non-negative `LONG` plus a small size is their sum. -/
theorem ofLong_add {e : Int} (h0 : 0 ≤ e) (h1 : e < 2 ^ 31) (k : Nat) (hk : k < 2 ^ 31) :
    ofLong (e + k) = e.toNat + k := by
  unfold ofLong
  omega

/-- The second half of the constructor on a buffer that holds the headers
addressed by `dos_header.e_lfanew`: it fails exactly on a wrong signature, and
otherwise returns a model of the requested architecture whose original entry
point is the uninitialised member's for x86 and the file's for x64. -/
theorem loadHeaders_spec (raw : List Byte) (dos : IMAGE_DOS_HEADER) (type : PeArch)
    (u : IMAGE_OPTIONAL_HEADER64) (h0 : 0 ≤ dos.e_lfanew) (h1 : dos.e_lfanew < 2 ^ 31)
    (hn : leNat ((raw.drop (dos.e_lfanew.toNat + 6)).take 2) < 2 ^ 16)
    (hfit : dos.e_lfanew.toNat + ntHeadersSize type +
        40 * leNat ((raw.drop (dos.e_lfanew.toNat + 6)).take 2) ≤ raw.length) :
    (leNat ((raw.drop dos.e_lfanew.toNat).take 4) ≠ 0x4550 →
      loadHeaders raw dos type u = .error .not_portable_executable) ∧
    (leNat ((raw.drop dos.e_lfanew.toNat).take 4) = 0x4550 →
      ∃ m, loadHeaders raw dos type u = .ok m ∧ m.type = type ∧ m.dos_header = dos ∧
        (type = .x86 → m.original_entry_point = u.AddressOfEntryPoint) ∧
        (type = .x64 → m.original_entry_point =
          leNat ((raw.drop (dos.e_lfanew.toNat + 40)).take 4))) := by
  have hsz : 248 ≤ ntHeadersSize type := by
    cases type <;> decide
  have hfh : readAt raw (dos.e_lfanew + 4) 20 =
      some ((raw.drop (dos.e_lfanew.toNat + 4)).take 20) := by
    have := @readAt_eq_some raw (dos.e_lfanew + 4) 20 (by omega) (by omega)
    rw [this]
    congr 3
    omega
  have hsig : readAt raw dos.e_lfanew 4 = some ((raw.drop dos.e_lfanew.toNat).take 4) :=
    readAt_eq_some h0 (by omega)
  have hnum : (decodeFileHeader ((raw.drop (dos.e_lfanew.toNat + 4)).take 20)).NumberOfSections
      = leNat ((raw.drop (dos.e_lfanew.toNat + 6)).take 2) := by
    unfold decodeFileHeader
    simp only
    rw [slice_slice raw (dos.e_lfanew.toNat + 4) 20 2 2 (by omega)]
  cases type with
  | x86 =>
    simp only [ntHeadersSize] at hfit
    have hfirst : ofLong (dos.e_lfanew + sizeof_IMAGE_NT_HEADERS32) =
        dos.e_lfanew.toNat + 248 := ofLong_add h0 h1 248 (by norm_num)
    obtain ⟨hs, hok, hl⟩ := readSectionHeaders_ok raw (dos.e_lfanew.toNat + 248)
      (leNat ((raw.drop (dos.e_lfanew.toNat + 6)).take 2)) 0
      (by unfold sizeof_IMAGE_NT_HEADERS32 at hfit; omega)
      (by simp only [two_pow_32] at *; omega)
    have hrest : add32 (dos.e_lfanew.toNat + 248)
        (mul32 (hs.length % 2 ^ 32) sizeof_IMAGE_SECTION_HEADER) ≤ raw.length := by
      unfold add32 mul32 sizeof_IMAGE_SECTION_HEADER
      unfold sizeof_IMAGE_NT_HEADERS32 at hfit
      rw [hl]
      simp only [two_pow_32] at *
      omega
    constructor
    · intro hne
      unfold loadHeaders
      simp only [hfh, hsig]
      rw [if_pos hne]
    · intro heq
      unfold loadHeaders
      simp only [hfh, hsig, hnum, hfirst, hok]
      rw [if_neg (by simpa using heq), if_pos hrest]
      exact ⟨_, rfl, rfl, rfl, fun _ => rfl, by intro h; cases h⟩
  | x64 =>
    simp only [ntHeadersSize] at hfit
    have hfirst : ofLong (dos.e_lfanew + sizeof_IMAGE_NT_HEADERS64) =
        dos.e_lfanew.toNat + 264 := ofLong_add h0 h1 264 (by norm_num)
    have hopt : readAt raw (dos.e_lfanew + 24) 240 =
        some ((raw.drop (dos.e_lfanew.toNat + 24)).take 240) := by
      have := @readAt_eq_some raw (dos.e_lfanew + 24) 240 (by omega)
        (by unfold sizeof_IMAGE_NT_HEADERS64 at hfit; omega)
      rw [this]
      congr 3
      omega
    obtain ⟨hs, hok, hl⟩ := readSectionHeaders_ok raw (dos.e_lfanew.toNat + 264)
      (leNat ((raw.drop (dos.e_lfanew.toNat + 6)).take 2)) 0
      (by unfold sizeof_IMAGE_NT_HEADERS64 at hfit; omega)
      (by simp only [two_pow_32] at *; omega)
    have hrest : add32 (dos.e_lfanew.toNat + 264)
        (mul32 (hs.length % 2 ^ 32) sizeof_IMAGE_SECTION_HEADER) ≤ raw.length := by
      unfold add32 mul32 sizeof_IMAGE_SECTION_HEADER
      unfold sizeof_IMAGE_NT_HEADERS64 at hfit
      rw [hl]
      simp only [two_pow_32] at *
      omega
    have hentry : (decodeOptionalHeader
        ((raw.drop (dos.e_lfanew.toNat + 24)).take 240)).AddressOfEntryPoint =
        leNat ((raw.drop (dos.e_lfanew.toNat + 40)).take 4) := by
      unfold decodeOptionalHeader
      simp only
      rw [slice_slice raw (dos.e_lfanew.toNat + 24) 240 16 4 (by omega)]
    constructor
    · intro hne
      unfold loadHeaders
      simp only [hfh, hsig, hopt, Option.map_some']
      rw [if_pos hne]
    · intro heq
      unfold loadHeaders
      simp only [hfh, hsig, hopt, Option.map_some', hnum, hfirst, hok]
      rw [if_neg (by simpa using heq), if_pos hrest]
      refine ⟨_, rfl, ?_⟩
      simp [hentry]

/-- A size below `2 ^ 32` is the number of elements of the buffer allocated for
it: the read fills the buffer and does not leave it. -/
theorem size_fits {size : Nat} (h : size < 2 ^ 32) : ¬ size % 2 ^ 32 < size := by
  rw [Nat.mod_eq_of_lt h]
  exact Nat.lt_irrefl _

/-- A size of `2 ^ 32` or more is larger than the buffer allocated for it. -/
theorem size_overruns {size : Nat} (h : 2 ^ 32 ≤ size) : size % 2 ^ 32 < size :=
  lt_of_lt_of_le (Nat.mod_lt _ (by norm_num)) h

/-- The first half of the constructor on a buffer of fewer than `2 ^ 32` bytes
that holds its headers: the checks of the magic number and the machine type,
in terms of the file's fields. -/
theorem ctor_spec (u : IMAGE_OPTIONAL_HEADER64) (raw : List Byte) (h : HoldsItsHeaders raw)
    (hsize : raw.length < 2 ^ 32) :
    PePatch.ctor u raw =
      if fileMagic raw ≠ 0x5a4d then .error .could_not_read_headers
      else if fileMachine raw = 0x014C then
        loadHeaders raw (decodeDosHeader (raw.take 64)) .x86 u
      else if fileMachine raw = 0x8664 then
        loadHeaders raw (decodeDosHeader (raw.take 64)) .x64 u
      else .error .type_not_x86_or_x64 := by
  obtain ⟨h64, h0, hfit⟩ := h
  unfold sizeof_IMAGE_DOS_HEADER at h64
  have hsz : 248 ≤ fileNtHeadersSize raw := by
    unfold fileNtHeadersSize; split_ifs <;> decide
  have hdos : readBytes raw 0 sizeof_IMAGE_DOS_HEADER = some (raw.take 64) := by
    have := @readBytes_eq_some raw 0 64 (by omega)
    simpa using this
  obtain ⟨hmagic, hlfanew⟩ := decodeDosHeader_take raw
  obtain ⟨lo, hi, h2, hlo, hhi⟩ := @two_bytes raw ((fileLfanew raw).toNat + 4) (by omega)
  have hrhi : readAt raw (fileLfanew raw + 4 + 1) 1 = some [hi] := by
    have := @readAt_eq_some raw (fileLfanew raw + 4 + 1) 1 (by omega) (by omega)
    rw [this, ← hhi]
    congr 3
    omega
  have hrlo : readAt raw (fileLfanew raw + 4) 1 = some [lo] := by
    have := @readAt_eq_some raw (fileLfanew raw + 4) 1 (by omega) (by omega)
    rw [this, ← hlo]
    congr 3
    omega
  have hm : fileMachine raw = leNat [lo, hi] := by
    unfold fileMachine; rw [h2]
  have hlen : ¬ raw.length = 0 := by omega
  unfold PePatch.ctor
  dsimp only
  rw [if_neg hlen, if_neg (size_fits hsize)]
  simp only [hdos, hmagic, hlfanew, hrhi, hrlo, hm, decodeMachine_x86, decodeMachine_x64]

/-- The constructor returns only on a file of fewer than `2 ^ 32` bytes. -/
theorem ctor_ok_size {u : IMAGE_OPTIONAL_HEADER64} {raw : List Byte} {m : PePatch}
    (h : PePatch.ctor u raw = .ok m) : raw.length < 2 ^ 32 := by
  unfold PePatch.ctor at h
  dsimp only at h
  split_ifs at h with hlen hover
  by_contra hge
  exact hover (size_overruns (Nat.le_of_not_lt hge))

/-! ## Lemmas on the round trip of the headers -/

/-- Encoding the little-endian value of a run of bytes gives the bytes back. -/
theorem leBytes_leNat (bs : List Byte) : leBytes bs.length (leNat bs) = bs := by
  induction bs with
  | nil => rfl
  | cons b bs ih =>
    have hb := b.isLt
    have h1 : byteOf (b.val + 256 * leNat bs) = b := by
      apply Fin.ext
      show (b.val + 256 * leNat bs) % 256 = b.val
      omega
    have h2 : (b.val + 256 * leNat bs) / 256 = leNat bs := by omega
    simp only [List.length_cons, leNat, leBytes, h1, h2, ih]

/-- Encoding the value of a slice that lies inside the buffer gives the slice. -/
theorem leBytes_slice (l : List Byte) (a n : Nat) (h : a + n ≤ l.length) :
    leBytes n (leNat ((l.drop a).take n)) = (l.drop a).take n := by
  have := leBytes_leNat ((l.drop a).take n)
  rwa [slice_length h] at this

/-- Encoding the value of a prefix that lies inside the buffer gives the prefix. -/
theorem leBytes_take (l : List Byte) (n : Nat) (h : n ≤ l.length) :
    leBytes n (leNat (l.take n)) = l.take n := by
  have := leBytes_slice l 0 n (by omega)
  simpa using this

/-- The `LONG` read from a 32-bit pattern has that pattern. -/
theorem ofLong_toLong {n : Nat} (h : n < 2 ^ 32) : ofLong (toLong n) = n := by
  unfold ofLong toLong
  split_ifs <;> omega

/-- A slice followed by the rest of the buffer is the buffer from the start of
the slice. -/
theorem slice_append_drop (l : List Byte) (a n c : Nat) (h : a + n = c) :
    (l.drop a).take n ++ l.drop c = l.drop a := by
  subst h
  have := List.take_append_drop n (l.drop a)
  rwa [List.drop_drop] at this

/-- The last slice of a buffer is the rest of the buffer. -/
theorem slice_eq_drop (l : List Byte) (a n : Nat) (h : l.length ≤ a + n) :
    (l.drop a).take n = l.drop a := by
  apply List.take_of_length_le
  simp; omega

/-- Writing back a slice of the file at its own offset leaves the file as it is. -/
theorem applyWrite_slice (file : List Byte) (off n : Nat) (h : off + n ≤ file.length) :
    applyWrite file { offset := off, data := (file.drop off).take n } = file := by
  unfold applyWrite
  have h0 : off - file.length = 0 := by omega
  simp only [h0, List.replicate_zero, List.append_nil, slice_length h, List.append_assoc]
  rw [slice_append_drop file off n (off + n) rfl, List.take_append_drop]

/-- The DOS header overlaid on 64 bytes is copied out as those bytes. -/
theorem encode_decode_dos (bs : List Byte) (h : bs.length = 64) :
    encodeDosHeader (decodeDosHeader bs) = bs := by
  have h4 : leNat ((bs.drop 60).take 4) < 2 ^ 32 := by
    have := leNat_lt ((bs.drop 60).take 4)
    rw [slice_length (by omega)] at this
    calc _ < 256 ^ 4 := this
      _ = 2 ^ 32 := by norm_num
  unfold encodeDosHeader decodeDosHeader
  simp only [ofLong_toLong h4]
  rw [leBytes_take bs 2 (by omega), leBytes_slice bs 2 58 (by omega),
    leBytes_slice bs 60 4 (by omega), slice_eq_drop bs 60 4 (by omega), List.append_assoc,
    slice_append_drop bs 2 58 60 rfl, List.take_append_drop]

/-- The file header overlaid on 20 bytes is copied out as those bytes. -/
theorem encode_decode_file (bs : List Byte) (h : bs.length = 20) :
    encodeFileHeader (decodeFileHeader bs) = bs := by
  unfold encodeFileHeader decodeFileHeader
  simp only
  rw [leBytes_take bs 2 (by omega), leBytes_slice bs 2 2 (by omega),
    leBytes_slice bs 4 4 (by omega), leBytes_slice bs 8 4 (by omega),
    leBytes_slice bs 12 4 (by omega), leBytes_slice bs 16 2 (by omega),
    leBytes_slice bs 18 2 (by omega), slice_eq_drop bs 18 2 (by omega)]
  simp only [List.append_assoc]
  rw [slice_append_drop bs 16 2 18 rfl, slice_append_drop bs 12 4 16 rfl,
    slice_append_drop bs 8 4 12 rfl, slice_append_drop bs 4 4 8 rfl,
    slice_append_drop bs 2 2 4 rfl, List.take_append_drop]

/-- The optional header overlaid on 240 bytes is copied out as those bytes. -/
theorem encode_decode_optional (bs : List Byte) (h : bs.length = 240) :
    encodeOptionalHeader (decodeOptionalHeader bs) = bs := by
  unfold encodeOptionalHeader decodeOptionalHeader
  simp only
  rw [leBytes_take bs 16 (by omega), leBytes_slice bs 16 4 (by omega),
    leBytes_slice bs 20 12 (by omega), leBytes_slice bs 32 4 (by omega),
    leBytes_slice bs 36 4 (by omega), leBytes_slice bs 40 16 (by omega),
    leBytes_slice bs 56 4 (by omega), leBytes_slice bs 60 180 (by omega),
    slice_eq_drop bs 60 180 (by omega)]
  simp only [List.append_assoc]
  rw [slice_append_drop bs 56 4 60 rfl, slice_append_drop bs 40 16 56 rfl,
    slice_append_drop bs 36 4 40 rfl, slice_append_drop bs 32 4 36 rfl,
    slice_append_drop bs 20 12 32 rfl, slice_append_drop bs 16 4 20 rfl,
    List.take_append_drop]

/-- A section header overlaid on 40 bytes is copied out as those bytes. -/
theorem encode_decode_section (bs : List Byte) (h : bs.length = 40) :
    encodeSectionHeader (decodeSectionHeader bs) = bs := by
  unfold encodeSectionHeader decodeSectionHeader
  simp only
  rw [leBytes_slice bs 8 4 (by omega), leBytes_slice bs 12 4 (by omega),
    leBytes_slice bs 16 4 (by omega), leBytes_slice bs 20 4 (by omega),
    leBytes_slice bs 24 4 (by omega), leBytes_slice bs 28 4 (by omega),
    leBytes_slice bs 32 2 (by omega), leBytes_slice bs 34 2 (by omega),
    leBytes_slice bs 36 4 (by omega), slice_eq_drop bs 36 4 (by omega)]
  simp only [List.append_assoc]
  rw [slice_append_drop bs 34 2 36 rfl, slice_append_drop bs 32 2 34 rfl,
    slice_append_drop bs 28 4 32 rfl, slice_append_drop bs 24 4 28 rfl,
    slice_append_drop bs 20 4 24 rfl, slice_append_drop bs 16 4 20 rfl,
    slice_append_drop bs 12 4 16 rfl, slice_append_drop bs 8 4 12 rfl,
    List.take_append_drop]

/-- Writing back the section headers that the loading loop read, each at the
offset it was read from, leaves the file as it is. -/
theorem sectionWrites_round_trip (raw : List Byte) (first : Nat) :
    ∀ count i hs, first + 40 * (i + count) ≤ raw.length →
      first + 40 * (i + count) < 2 ^ 32 →
      readSectionHeaders raw first i count = .ok hs →
      applyWrites raw (sectionWrites (first + 40 * i) hs) = raw := by
  intro count
  induction count with
  | zero =>
    intro i hs _ _ h
    simp only [readSectionHeaders] at h
    injection h with h
    subst h
    rfl
  | succ n ih =>
    intro i hs hlen hlt h
    have hoff : add32 first (mul32 i sizeof_IMAGE_SECTION_HEADER) = first + 40 * i := by
      unfold add32 mul32 sizeof_IMAGE_SECTION_HEADER
      simp only [two_pow_32] at *
      omega
    have hfit : (first + 40 * i) + 40 ≤ raw.length := by omega
    have hread : readBytes raw (first + 40 * i) sizeof_IMAGE_SECTION_HEADER =
        some ((raw.drop (first + 40 * i)).take 40) := readBytes_eq_some hfit
    have hnext : add32 (first + 40 * i) sizeof_IMAGE_SECTION_HEADER = first + 40 * (i + 1) := by
      unfold add32 sizeof_IMAGE_SECTION_HEADER
      simp only [two_pow_32] at *
      omega
    simp only [readSectionHeaders, hoff, hread] at h
    split at h
    · cases h
    · rename_i rest hrest
      injection h with h
      subst h
      have hrec := ih (i + 1) rest (by omega) (by omega) hrest
      simp only [sectionWrites, applyWrites, List.foldl_cons,
        encode_decode_section _ (slice_length hfit), applyWrite_slice raw _ 40 hfit, hnext]
      exact hrec

/-- Loading and saving the headers of a 64-bit image: the header writes of
`SaveFile`, issued right after the constructor on a buffer that holds its
headers and announces machine `0x8664`, all succeed and leave every byte of
the file as it is. -/
theorem x64_header_round_trip (u : IMAGE_OPTIONAL_HEADER64) (raw : List Byte)
    (h : HoldsItsHeaders raw) (hmachine : fileMachine raw = 0x8664) (m : PePatch)
    (hm : PePatch.ctor u raw = .ok m) :
    (headerWrites m).failure = none ∧ applyWrites raw (headerWrites m).writes = raw := by
  have hspec := ctor_spec u raw h (ctor_ok_size hm)
  obtain ⟨h64, h0, hfit⟩ := h
  obtain ⟨_, hlfanew⟩ := decodeDosHeader_take raw
  have h1 := fileLfanew_lt raw
  have hn := fileNumberOfSections_lt raw
  have h86 : ¬ fileMachine raw = 0x014C := by rw [hmachine]; decide
  have hsize : fileNtHeadersSize raw = 264 := by
    unfold fileNtHeadersSize; rw [if_neg h86]; rfl
  rw [hsize] at hfit
  unfold fileNumberOfSections at hn
  unfold fileNumberOfSections sizeof_IMAGE_SECTION_HEADER at hfit
  unfold sizeof_IMAGE_DOS_HEADER at h64
  rw [hspec] at hm
  split_ifs at hm with hmagic
  -- the reads of the second half of the constructor
  have hfh : readAt raw (fileLfanew raw + 4) 20 =
      some ((raw.drop ((fileLfanew raw).toNat + 4)).take 20) := by
    have := @readAt_eq_some raw (fileLfanew raw + 4) 20 (by omega) (by omega)
    rw [this]; congr 3; omega
  have hsig : readAt raw (fileLfanew raw) 4 = some ((raw.drop (fileLfanew raw).toNat).take 4) :=
    readAt_eq_some h0 (by omega)
  have hopt : readAt raw (fileLfanew raw + 24) 240 =
      some ((raw.drop ((fileLfanew raw).toNat + 24)).take 240) := by
    have := @readAt_eq_some raw (fileLfanew raw + 24) 240 (by omega) (by omega)
    rw [this]; congr 3; omega
  have hnum : (decodeFileHeader ((raw.drop ((fileLfanew raw).toNat + 4)).take 20)).NumberOfSections
      = leNat ((raw.drop ((fileLfanew raw).toNat + 6)).take 2) := by
    unfold decodeFileHeader
    simp only
    rw [slice_slice raw ((fileLfanew raw).toNat + 4) 20 2 2 (by omega)]
  have hfirst : ofLong (fileLfanew raw + sizeof_IMAGE_NT_HEADERS64) =
      (fileLfanew raw).toNat + 264 := ofLong_add h0 h1 264 (by norm_num)
  unfold loadHeaders at hm
  simp only [hlfanew, hfh, hsig, hopt, Option.map_some', hnum, hfirst] at hm
  split_ifs at hm with hbad
  split at hm
  · cases hm
  · rename_i hs hok
    split_ifs at hm with hrest
    injection hm with hm
    subst hm
    have hsec := sectionWrites_round_trip raw ((fileLfanew raw).toNat + 264) _ 0 hs
      (by omega) (by simp only [two_pow_32] at *; omega) hok
    have hneg : ¬ (decodeDosHeader (raw.take 64)).e_lfanew < 0 := by rw [hlfanew]; omega
    have hdos : encodeDosHeader (decodeDosHeader (raw.take 64)) = (raw.drop 0).take 64 := by
      rw [encode_decode_dos _ (by simp; omega)]; rfl
    have hnt : encodeNtHeaders (leNat ((raw.drop (fileLfanew raw).toNat).take 4))
        (decodeFileHeader ((raw.drop ((fileLfanew raw).toNat + 4)).take 20))
        (decodeOptionalHeader ((raw.drop ((fileLfanew raw).toNat + 24)).take 240)) =
        (raw.drop (fileLfanew raw).toNat).take 264 := by
      unfold encodeNtHeaders
      rw [leBytes_slice raw _ 4 (by omega), encode_decode_file _ (slice_length (by omega)),
        encode_decode_optional _ (slice_length (by omega))]
      have e1 := slice_slice raw (fileLfanew raw).toNat 264 0 4 (by omega)
      rw [Nat.add_zero] at e1
      rw [← e1, ← slice_slice raw (fileLfanew raw).toNat 264 4 20 (by omega),
        ← slice_slice raw (fileLfanew raw).toNat 264 24 240 (by omega)]
      have hl : ((raw.drop (fileLfanew raw).toNat).take 264).length = 264 :=
        slice_length (by omega)
      generalize (raw.drop (fileLfanew raw).toNat).take 264 = bs at hl ⊢
      rw [slice_eq_drop bs 24 240 (by omega), List.append_assoc,
        slice_append_drop bs 4 20 24 rfl, slice_append_drop bs 0 4 4 rfl, List.drop_zero]
    refine ⟨by unfold headerWrites; rw [if_neg hneg], ?_⟩
    unfold headerWrites
    rw [if_neg hneg]
    simp only [applyWrites, List.foldl_cons, hdos, hnt, hlfanew, hfirst,
      applyWrite_slice raw 0 64 (by omega),
      applyWrite_slice raw (fileLfanew raw).toNat 264 (by omega)]
    simpa [applyWrites] using hsec

/-! ## C8: loading and saving the headers unchanged -/

/-- A byte inside the range of a write is, after the write, the byte written. -/
theorem get?_applyWrite (file : List Byte) (w : Write) (i : Nat) (h1 : w.offset ≤ i)
    (h2 : i < w.offset + w.data.length) :
    (applyWrite file w).get? i = w.data.get? (i - w.offset) := by
  unfold applyWrite
  have hpre : (file.take w.offset ++ List.replicate (w.offset - file.length) 0).length
      = w.offset := by
    simp only [List.length_append, List.length_take, List.length_replicate]
    omega
  simp only [List.get?_eq_getElem?]
  rw [List.append_assoc, List.append_assoc, ← List.append_assoc (file.take w.offset),
    List.getElem?_append_right (by omega), hpre,
    List.getElem?_append_left (by omega)]

/-- A byte inside the range of the last write of a sequence is, after all the
writes, the byte that write carries. -/
theorem get?_applyWrites_last (file : List Byte) (ws : List Write) (w : Write) (i : Nat)
    (h1 : w.offset ≤ i) (h2 : i < w.offset + w.data.length) :
    (applyWrites file (ws ++ [w])).get? i = w.data.get? (i - w.offset) := by
  unfold applyWrites
  rw [List.foldl_append]
  exact get?_applyWrite _ w i h1 h2

set_option maxRecDepth 100000 in
/-- On the 64-bit sample image the header writes of `SaveFile` right after
loading leave the file as it was. -/
theorem image64_round_trip :
    ∃ m, PePatch.ctor zeroOptionalHeader image64 = .ok m ∧
      (headerWrites m).failure = none ∧
      applyWrites image64 (headerWrites m).writes = image64 := by
  refine ⟨_, rfl, by decide, by decide⟩

set_option maxRecDepth 100000 in
/-- C8 fails for 32-bit images: `image32` holds its headers and loads, whatever
the never-assigned member `optional_header` holds.  `SaveFile` then writes 264
bytes of 64-bit NT headers at `e_lfanew = 64` and the section header of `.text`
at offset `64 + 264 = 328`, while the file has it at `64 + 248 = 312`: byte 328,
inside the section-table entry `[312, 352)`, changes from `0x00` to `0x2E`.
With that member zero the NT header bytes `[64, 312)` change as well.  For
64-bit images the round trip holds (`x64_header_round_trip`). -/
theorem C8_x86_round_trip_fails :
    HoldsItsHeaders image32 ∧ fileMachine image32 = 0x014C ∧
    image32.get? 328 = some 0x00 ∧
    (∀ uninitialised,
      PePatch.ctor uninitialised image32 = .ok (loaded32 uninitialised) ∧
      (headerWrites (loaded32 uninitialised)).failure = none ∧
      (headerWrites (loaded32 uninitialised)).writes.map (fun w => (w.offset, w.data.length)) =
        [(0, 64), (64, 264), (328, 40)] ∧
      (applyWrites image32 (headerWrites (loaded32 uninitialised)).writes).get? 328 =
        some 0x2E) ∧
    ((applyWrites image32 (headerWrites (loaded32 zeroOptionalHeader)).writes).drop 64).take 248
      ≠ (image32.drop 64).take 248 ∧
    ((applyWrites image32 (headerWrites (loaded32 zeroOptionalHeader)).writes).drop 312).take 40
      ≠ (image32.drop 312).take 40 := by
  refine ⟨⟨by decide, by decide, by decide⟩, by decide, by decide,
    fun u => ⟨rfl, rfl, rfl, ?_⟩, by decide, by decide⟩
  have hw : (headerWrites (loaded32 u)).writes =
      [_, _] ++ [{ offset := 328, data := encodeSectionHeader sampleText }] := rfl
  rw [hw, get?_applyWrites_last _ _ _ 328 (by decide) (by decide)]
  decide

/-! ## C9: the original entry point -/

/-- What the constructor returns on a buffer that holds its headers: the
architecture follows the machine field, and the original entry point is the
file's `AddressOfEntryPoint` for x64 but the uninitialised member's for x86. -/
theorem ctor_ok_cases (u : IMAGE_OPTIONAL_HEADER64) (raw : List Byte)
    (h : HoldsItsHeaders raw) (m : PePatch) (hm : PePatch.ctor u raw = .ok m) :
    (fileMachine raw = 0x014C ∧ m.GetPeArch = .x86 ∧
        m.GetOriginalEntryPoint = u.AddressOfEntryPoint) ∨
      (fileMachine raw = 0x8664 ∧ m.GetPeArch = .x64 ∧
        m.GetOriginalEntryPoint = fileAddressOfEntryPoint raw) := by
  have hspec := ctor_spec u raw h (ctor_ok_size hm)
  obtain ⟨h64, h0, hfit⟩ := h
  obtain ⟨_, hlfanew⟩ := decodeDosHeader_take raw
  have h1 := fileLfanew_lt raw
  have hn := fileNumberOfSections_lt raw
  unfold fileNumberOfSections at hn
  unfold fileNumberOfSections sizeof_IMAGE_SECTION_HEADER at hfit
  have hload : ∀ type : PeArch, fileNtHeadersSize raw = ntHeadersSize type →
      loadHeaders raw (decodeDosHeader (raw.take 64)) type u = .ok m →
      m.type = type ∧ (type = .x86 → m.original_entry_point = u.AddressOfEntryPoint) ∧
        (type = .x64 → m.original_entry_point = fileAddressOfEntryPoint raw) := by
    intro type hsize hok
    have := loadHeaders_spec raw (decodeDosHeader (raw.take 64)) type u
      (by rw [hlfanew]; exact h0) (by rw [hlfanew]; exact h1)
      (by rw [hlfanew]; exact hn) (by rw [hlfanew, ← hsize]; exact hfit)
    rw [hlfanew] at this
    by_cases hsig : leNat ((raw.drop (fileLfanew raw).toNat).take 4) = 0x4550
    · obtain ⟨m', hm', ht, _, hx86, hx64⟩ := this.2 hsig
      rw [hm'] at hok
      injection hok with hok
      subst hok
      exact ⟨ht, hx86, hx64⟩
    · rw [this.1 hsig] at hok
      cases hok
  rw [hspec] at hm
  split_ifs at hm with hmagic h86 h64m
  · obtain ⟨ht, hx, _⟩ := hload .x86
      (by unfold fileNtHeadersSize ntHeadersSize; rw [if_pos h86]) hm
    exact Or.inl ⟨h86, ht, hx rfl⟩
  · obtain ⟨ht, _, hx⟩ := hload .x64
      (by unfold fileNtHeadersSize ntHeadersSize; rw [if_neg h86]) hm
    exact Or.inr ⟨h64m, ht, hx rfl⟩

set_option maxRecDepth 100000 in
/-- C9 fails for 32-bit images: `image32` and `image32b` hold their headers, load
as x86, and differ only in their `AddressOfEntryPoint` field (`0x1000` and
`0x2000`); for both, `GetOriginalEntryPoint()` is the value the never-assigned
member `optional_header` happened to hold, so it cannot equal the field of
both images.  With that member zero it is `0`. -/
theorem C9_x86_entry_point_not_captured :
    HoldsItsHeaders image32 ∧ HoldsItsHeaders image32b ∧
    fileAddressOfEntryPoint image32 = 0x1000 ∧
    fileAddressOfEntryPoint image32b = 0x2000 ∧
    (∀ uninitialised, ∃ m mb,
      PePatch.ctor uninitialised image32 = .ok m ∧
      PePatch.ctor uninitialised image32b = .ok mb ∧
      m.GetPeArch = .x86 ∧ mb.GetPeArch = .x86 ∧
      m.GetOriginalEntryPoint = uninitialised.AddressOfEntryPoint ∧
      mb.GetOriginalEntryPoint = uninitialised.AddressOfEntryPoint) ∧
    (∃ m, PePatch.ctor zeroOptionalHeader image32 = .ok m ∧
      m.GetOriginalEntryPoint = 0 ∧
      m.GetOriginalEntryPoint ≠ fileAddressOfEntryPoint image32) := by
  refine ⟨⟨by decide, by decide, by decide⟩, ⟨by decide, by decide, by decide⟩,
    by decide, by decide, fun u => ⟨_, _, rfl, rfl, rfl, rfl, rfl, rfl⟩,
    ⟨_, rfl, rfl, by decide⟩⟩

/-! ## C10: which buffers load -/

/-- C10 (amended): for every buffer of fewer than `2 ^ 32` bytes that is long
enough to hold the headers it addresses, the constructor succeeds if and only
if the 16-bit value at offset 0 is `0x5A4D`,
the 16-bit little-endian machine field at `e_lfanew + 4` is `0x014C` or
`0x8664`, and the 32-bit signature at `e_lfanew` is `0x00004550`; on success
`GetPeArch()` is x86 exactly when the machine field is `0x014C` and x64 exactly
when it is `0x8664`.  A buffer whose magic is not `MZ` is rejected with the
header error, and machine `0x0200` is rejected with the type error. -/
theorem C10_load_acceptance (uninitialised : IMAGE_OPTIONAL_HEADER64) (raw : List Byte)
    (h : HoldsItsHeaders raw) (hsize : raw.length < 2 ^ 32) :
    ((∃ m, PePatch.ctor uninitialised raw = .ok m) ↔
      (fileMagic raw = 0x5A4D ∧ (fileMachine raw = 0x014C ∨ fileMachine raw = 0x8664) ∧
        fileSignature raw = 0x00004550)) ∧
    (∀ m, PePatch.ctor uninitialised raw = .ok m →
      (m.GetPeArch = .x86 ↔ fileMachine raw = 0x014C) ∧
      (m.GetPeArch = .x64 ↔ fileMachine raw = 0x8664)) ∧
    (fileMagic raw ≠ 0x5A4D →
      PePatch.ctor uninitialised raw = .error .could_not_read_headers) ∧
    (fileMagic raw = 0x5A4D → fileMachine raw = 0x0200 →
      PePatch.ctor uninitialised raw = .error .type_not_x86_or_x64) := by
  have hspec := ctor_spec uninitialised raw h hsize
  obtain ⟨h64, h0, hfit⟩ := h
  obtain ⟨_, hlfanew⟩ := decodeDosHeader_take raw
  have h1 := fileLfanew_lt raw
  have hn := fileNumberOfSections_lt raw
  unfold fileNumberOfSections at hn
  unfold fileNumberOfSections sizeof_IMAGE_SECTION_HEADER at hfit
  -- the second half of the constructor, for the architecture the file announces
  have hload : ∀ type : PeArch,
      fileNtHeadersSize raw = ntHeadersSize type →
      (fileSignature raw ≠ 0x4550 →
        loadHeaders raw (decodeDosHeader (raw.take 64)) type uninitialised =
          .error .not_portable_executable) ∧
      (fileSignature raw = 0x4550 →
        ∃ m, loadHeaders raw (decodeDosHeader (raw.take 64)) type uninitialised = .ok m ∧
          m.type = type) := by
    intro type hsize
    have := loadHeaders_spec raw (decodeDosHeader (raw.take 64)) type uninitialised
      (by rw [hlfanew]; exact h0) (by rw [hlfanew]; exact h1)
      (by rw [hlfanew]; exact hn) (by rw [hlfanew, ← hsize]; exact hfit)
    rw [hlfanew] at this
    refine ⟨this.1, fun hs => ?_⟩
    obtain ⟨m, hm, ht, _⟩ := this.2 hs
    exact ⟨m, hm, ht⟩
  by_cases hmagic : fileMagic raw = 0x5A4D
  · by_cases h86 : fileMachine raw = 0x014C
    · have hl := hload .x86 (by unfold fileNtHeadersSize ntHeadersSize; rw [if_pos h86])
      rw [if_neg (by simpa using hmagic), if_pos h86] at hspec
      by_cases hsig : fileSignature raw = 0x4550
      · obtain ⟨m, hm, ht⟩ := hl.2 hsig
        rw [hm] at hspec
        refine ⟨⟨fun _ => ⟨hmagic, Or.inl h86, hsig⟩, fun _ => ⟨m, hspec⟩⟩, ?_, ?_, ?_⟩
        · intro m' hm'
          rw [hspec] at hm'
          injection hm' with hm'
          subst hm'
          unfold PePatch.GetPeArch
          rw [ht, h86]
          simp
        · intro hne; exact absurd hmagic hne
        · intro _ h200; rw [h86] at h200; exact absurd h200 (by decide)
      · rw [hl.1 hsig] at hspec
        refine ⟨⟨fun ⟨m, hm⟩ => ?_, fun ⟨_, _, hs⟩ => absurd hs hsig⟩, ?_, ?_, ?_⟩
        · rw [hspec] at hm; cases hm
        · intro m' hm'; rw [hspec] at hm'; cases hm'
        · intro hne; exact absurd hmagic hne
        · intro _ h200; rw [h86] at h200; exact absurd h200 (by decide)
    · by_cases h64m : fileMachine raw = 0x8664
      · have hl := hload .x64 (by unfold fileNtHeadersSize ntHeadersSize; rw [if_neg h86])
        rw [if_neg (by simpa using hmagic), if_neg h86, if_pos h64m] at hspec
        by_cases hsig : fileSignature raw = 0x4550
        · obtain ⟨m, hm, ht⟩ := hl.2 hsig
          rw [hm] at hspec
          refine ⟨⟨fun _ => ⟨hmagic, Or.inr h64m, hsig⟩, fun _ => ⟨m, hspec⟩⟩, ?_, ?_, ?_⟩
          · intro m' hm'
            rw [hspec] at hm'
            injection hm' with hm'
            subst hm'
            unfold PePatch.GetPeArch
            rw [ht, h64m]
            simp
          · intro hne; exact absurd hmagic hne
          · intro _ h200; rw [h64m] at h200; exact absurd h200 (by decide)
        · rw [hl.1 hsig] at hspec
          refine ⟨⟨fun ⟨m, hm⟩ => ?_, fun ⟨_, _, hs⟩ => absurd hs hsig⟩, ?_, ?_, ?_⟩
          · rw [hspec] at hm; cases hm
          · intro m' hm'; rw [hspec] at hm'; cases hm'
          · intro hne; exact absurd hmagic hne
          · intro _ h200; rw [h64m] at h200; exact absurd h200 (by decide)
      · rw [if_neg (by simpa using hmagic), if_neg h86, if_neg h64m] at hspec
        refine ⟨⟨fun ⟨m, hm⟩ => ?_, fun ⟨_, hor, _⟩ => ?_⟩, ?_, ?_, ?_⟩
        · rw [hspec] at hm; cases hm
        · rcases hor with hx | hx
          · exact absurd hx h86
          · exact absurd hx h64m
        · intro m' hm'; rw [hspec] at hm'; cases hm'
        · intro hne; exact absurd hmagic hne
        · intro _ _; exact hspec
  · rw [if_pos (by simpa using hmagic)] at hspec
    refine ⟨⟨fun ⟨m, hm⟩ => ?_, fun ⟨hm, _⟩ => absurd hm hmagic⟩, ?_, ?_, ?_⟩
    · rw [hspec] at hm; cases hm
    · intro m' hm'; rw [hspec] at hm'; cases hm'
    · intro _; exact hspec
    · intro hm; exact absurd hm hmagic

set_option maxRecDepth 100000 in
/-- C10, witness: the 64-bit sample image holds its headers and loads as x64;
the 32-bit sample image loads as x86. -/
theorem C10_load_acceptance_witness :
    HoldsItsHeaders image64 ∧ image64.length < 2 ^ 32 ∧
      (∃ m, PePatch.ctor zeroOptionalHeader image64 = .ok m ∧ m.GetPeArch = .x64) ∧
      ((∃ m, PePatch.ctor zeroOptionalHeader image64 = .ok m) ↔
        (fileMagic image64 = 0x5A4D ∧
          (fileMachine image64 = 0x014C ∨ fileMachine image64 = 0x8664) ∧
          fileSignature image64 = 0x00004550)) :=
  ⟨⟨by decide, by decide, by decide⟩, by decide, ⟨_, rfl, rfl⟩,
    (C10_load_acceptance zeroOptionalHeader image64 ⟨by decide, by decide, by decide⟩
      (by decide)).1⟩

/-! ## More lemmas on `AddSection` -/

/-- A successful `PePatch::AddSection` leaves the alignments as they were. -/
theorem AddSection_keeps_alignments {m m' : PePatch} {name : List Byte} {code_size : Nat}
    (h : m.AddSection name code_size = .ok m') :
    m'.optional_header.FileAlignment = m.optional_header.FileAlignment ∧
      m'.optional_header.SectionAlignment = m.optional_header.SectionAlignment := by
  unfold PePatch.AddSection at h
  split at h
  · cases h
  · split at h
    · cases h
    · injection h with h
      subst h
      exact ⟨rfl, rfl⟩

/-- A successful `PePatchX64::AddSection` leaves the alignments as they were. -/
theorem AddSectionX64_keeps_alignments {m m' : PePatchX64} {name : List Byte}
    {code_size : Nat} (h : m.AddSection name code_size = .ok m') :
    m'.optional_header.FileAlignment = m.optional_header.FileAlignment ∧
      m'.optional_header.SectionAlignment = m.optional_header.SectionAlignment := by
  unfold PePatchX64.AddSection at h
  split at h
  · cases h
  · split at h
    · cases h
    · dsimp only at h
      split at h
      · cases h
      · injection h with h
        subst h
        exact ⟨rfl, rfl⟩

/-- The name field built by `PePatch::AddSection`. -/
theorem AddSection_name {m m' : PePatch} {name : List Byte} {code_size : Nat}
    (h : m.AddSection name code_size = .ok m') :
    ∃ new, m'.section_headers = m.section_headers ++ [new] ∧
      new.Name = copyName name SECTION_MAX_NAME_SIZE := by
  unfold PePatch.AddSection at h
  split at h
  · cases h
  · split at h
    · cases h
    · injection h with h
      subst h
      exact ⟨_, rfl, rfl⟩

/-- The name field built by `PePatchX64::AddSection`. -/
theorem AddSectionX64_name {m m' : PePatchX64} {name : List Byte} {code_size : Nat}
    (h : m.AddSection name code_size = .ok m') :
    m'.new_section_header.Name = copyName name section_name_size := by
  unfold PePatchX64.AddSection at h
  split at h
  · cases h
  · split at h
    · cases h
    · dsimp only at h
      split at h
      · cases h
      · injection h with h
        subst h
        rfl

/-! ## C13: the alignment invariant -/

/-- The four divisibility conditions of the layout invariant for one section. -/
theorem aligned_of_fields {s : IMAGE_SECTION_HEADER} {code_size a b fa sa : Nat}
    (h1 : s.SizeOfRawData = Align code_size fa)
    (h2 : s.Misc.VirtualSize = Align s.SizeOfRawData sa)
    (h3 : s.PointerToRawData = Align a fa)
    (h4 : s.VirtualAddress = Align b sa) :
    IsAligned fa sa s := by
  unfold IsAligned
  rw [h1, h2, h3, h4]
  exact ⟨Align_mod_self _ _, Align_mod_self _ _, Align_mod_self _ _, Align_mod_self _ _⟩

/-- C13: for every model and every `code_size`, the section built by a
successful `AddSection` (appended in `PePatch`, stored in `new_section_header`
in `PePatchX64`; success implies a non-empty table and non-zero alignments)
has `PointerToRawData` and `SizeOfRawData` multiples of `FileAlignment` and
`VirtualAddress` and `VirtualSize` multiples of `SectionAlignment`, the
alignments are unchanged, and if every section of the table satisfied the four
conditions before the call, every section of the table satisfies them
afterwards. -/
theorem C13_alignment_invariant (self : PePatchX64) (name : List Byte) (code_size : Nat) :
    (∀ m', self.toPePatch.AddSection name code_size = .ok m' →
      m'.optional_header.FileAlignment = self.optional_header.FileAlignment ∧
      m'.optional_header.SectionAlignment = self.optional_header.SectionAlignment ∧
      self.optional_header.FileAlignment ≠ 0 ∧ self.optional_header.SectionAlignment ≠ 0 ∧
      (∃ new, m'.section_headers.getLast? = some new ∧
        IsAligned self.optional_header.FileAlignment self.optional_header.SectionAlignment
          new) ∧
      ((∀ s ∈ self.section_headers,
          IsAligned self.optional_header.FileAlignment self.optional_header.SectionAlignment
            s) →
        ∀ s ∈ m'.section_headers,
          IsAligned m'.optional_header.FileAlignment m'.optional_header.SectionAlignment s)) ∧
    (∀ mx', self.AddSection name code_size = .ok mx' →
      mx'.optional_header.FileAlignment = self.optional_header.FileAlignment ∧
      mx'.optional_header.SectionAlignment = self.optional_header.SectionAlignment ∧
      self.optional_header.FileAlignment ≠ 0 ∧ self.optional_header.SectionAlignment ≠ 0 ∧
      IsAligned self.optional_header.FileAlignment self.optional_header.SectionAlignment
        mx'.new_section_header ∧
      ((∀ s ∈ self.section_headers,
          IsAligned self.optional_header.FileAlignment self.optional_header.SectionAlignment
            s) →
        ∀ s ∈ mx'.section_headers,
          IsAligned mx'.optional_header.FileAlignment mx'.optional_header.SectionAlignment
            s)) := by
  constructor
  · intro m' h
    obtain ⟨fa, sa⟩ := AddSection_keeps_alignments h
    obtain ⟨last, _, hfa, hsa, new, h1, h2, h3, h4, h5, _⟩ := AddSection_ok h
    have hnew := aligned_of_fields h1 h2 h3 h4
    refine ⟨fa, sa, hfa, hsa, ⟨new, by rw [h5]; simp, hnew⟩, fun hall s hs => ?_⟩
    rw [fa, sa]
    rw [h5] at hs
    rcases List.mem_append.mp hs with hs | hs
    · exact hall s hs
    · rw [List.mem_singleton.mp hs]; exact hnew
  · intro mx' h
    obtain ⟨fa, sa⟩ := AddSectionX64_keeps_alignments h
    obtain ⟨last, _, hfa, hsa, _, h1, h2, h3, h4, h5, _⟩ := AddSectionX64_ok h
    refine ⟨fa, sa, hfa, hsa, aligned_of_fields h1 h2 h3 h4, fun hall s hs => ?_⟩
    rw [fa, sa]
    rw [h5] at hs
    exact hall s hs

set_option maxRecDepth 100000 in
/-- C13, witness: on the sample image with the aligned section `.text`, both
variants succeed, the new section satisfies the four conditions and so does
every section of the table afterwards. -/
theorem C13_alignment_invariant_witness :
    (∀ s ∈ (sampleState [sampleAligned]).section_headers, IsAligned 0x200 0x1000 s) ∧
    ∃ m' mx',
      (sampleState [sampleAligned]).toPePatch.AddSection sampleName 5 = .ok m' ∧
      (sampleState [sampleAligned]).AddSection sampleName 5 = .ok mx' ∧
      IsAligned 0x200 0x1000 mx'.new_section_header ∧
      (∀ s ∈ m'.section_headers,
        IsAligned m'.optional_header.FileAlignment m'.optional_header.SectionAlignment s) ∧
      m'.section_headers.length = 2 :=
  ⟨by unfold IsAligned; decide, _, _, rfl, rfl,
    ((C13_alignment_invariant (sampleState [sampleAligned]) sampleName 5).2 _ rfl).2.2.2.2.1,
    ((C13_alignment_invariant (sampleState [sampleAligned]) sampleName 5).1 _ rfl).2.2.2.2.2
      (by unfold IsAligned; decide),
    by decide⟩

/-! ## C17: no overlap with the last section -/

/-- Without wrap-around, aligning the 32-bit end of a section gives an offset at
or after that end. -/
theorem le_Align_add32 (a s al : Nat) (hal : al ≠ 0) (h : a + s + al - 1 < 2 ^ 32) :
    a + s ≤ Align (add32 a s) al := by
  have hsum : a + s < 2 ^ 32 := by omega
  rw [add32_eq_of_lt hsum]
  exact (Align_bounds (Nat.pos_of_ne_zero hal) h).1

/-- C17: for every model whose section table ends with `last`, if
`last.PointerToRawData + last.SizeOfRawData + FileAlignment - 1 < 2 ^ 32` and
`last.VirtualAddress + last.VirtualSize + SectionAlignment - 1 < 2 ^ 32`, the
section built by a successful `AddSection` (either variant) starts in the file
at or after `last.PointerToRawData + last.SizeOfRawData` and in memory at or
after `last.VirtualAddress + last.VirtualSize`. -/
theorem C17_no_overlap_with_last (self : PePatchX64) (name : List Byte) (code_size : Nat)
    (last : IMAGE_SECTION_HEADER) (hlast : self.section_headers.getLast? = some last)
    (hraw : last.PointerToRawData + last.SizeOfRawData + self.optional_header.FileAlignment - 1
      < 2 ^ 32)
    (hvirt : last.VirtualAddress + last.Misc.VirtualSize +
      self.optional_header.SectionAlignment - 1 < 2 ^ 32) :
    (∀ m', self.toPePatch.AddSection name code_size = .ok m' →
      ∃ new, m'.section_headers.getLast? = some new ∧
        last.PointerToRawData + last.SizeOfRawData ≤ new.PointerToRawData ∧
        last.VirtualAddress + last.Misc.VirtualSize ≤ new.VirtualAddress) ∧
    (∀ mx', self.AddSection name code_size = .ok mx' →
      last.PointerToRawData + last.SizeOfRawData ≤ mx'.new_section_header.PointerToRawData ∧
      last.VirtualAddress + last.Misc.VirtualSize ≤ mx'.new_section_header.VirtualAddress) := by
  constructor
  · intro m' h
    obtain ⟨last', hl, hfa, hsa, new, _, _, h3, h4, h5, _⟩ := AddSection_ok h
    have : last' = last := Option.some.inj (hl.symm.trans hlast)
    subst this
    refine ⟨new, by rw [h5]; simp, ?_, ?_⟩
    · rw [h3]; exact le_Align_add32 _ _ _ hfa hraw
    · rw [h4]; exact le_Align_add32 _ _ _ hsa hvirt
  · intro mx' h
    obtain ⟨last', hl, hfa, hsa, _, _, _, h3, h4, _⟩ := AddSectionX64_ok h
    have : last' = last := Option.some.inj (hl.symm.trans hlast)
    subst this
    constructor
    · rw [h3]; exact le_Align_add32 _ _ _ hfa hraw
    · rw [h4]; exact le_Align_add32 _ _ _ hsa hvirt

/-- C17, witness: on the sample image the last section `.text` ends at file
offset `0x400` and address `0x1010`; both variants succeed and the new section
starts at `0x400` and `0x2000`. -/
theorem C17_no_overlap_with_last_witness :
    ((sampleState [sampleText]).section_headers.getLast? = some sampleText ∧
      sampleText.PointerToRawData + sampleText.SizeOfRawData + 0x200 - 1 < 2 ^ 32 ∧
      sampleText.VirtualAddress + sampleText.Misc.VirtualSize + 0x1000 - 1 < 2 ^ 32) ∧
    ∃ m' mx',
      (sampleState [sampleText]).toPePatch.AddSection sampleName 5 = .ok m' ∧
      (sampleState [sampleText]).AddSection sampleName 5 = .ok mx' ∧
      0x400 ≤ mx'.new_section_header.PointerToRawData ∧
      0x1010 ≤ mx'.new_section_header.VirtualAddress :=
  ⟨by decide, _, _, rfl, rfl,
    (C17_no_overlap_with_last (sampleState [sampleText]) sampleName 5 sampleText rfl
      (by decide) (by decide)).2 _ rfl⟩

/-! ## C14: `SizeOfImage` after `AddSection` -/

/-- C14, as stated, fails twice.  In the table `[sampleHigh, sampleLow]` the last
section is not the highest-addressed one: `AddSection` succeeds in both
variants and sets `SizeOfImage = 0x3000`, below the end `0x6000` of
`sampleHigh`.  With the last section `sampleTop` ending at `0xFFFFF000`, the new
section has `VirtualAddress = 0xFFFFF000` and `VirtualSize = 0x1000`, whose sum
is `2 ^ 32`, and `SizeOfImage` is `0`. -/
theorem C14_counterexample :
    (∃ m' mx',
      (sampleState [sampleHigh, sampleLow]).toPePatch.AddSection sampleName 5 = .ok m' ∧
      (sampleState [sampleHigh, sampleLow]).AddSection sampleName 5 = .ok mx' ∧
      m'.optional_header.SizeOfImage = 0x3000 ∧ mx'.optional_header.SizeOfImage = 0x3000 ∧
      sampleHigh ∈ (sampleState [sampleHigh, sampleLow]).section_headers ∧
      ¬ (sampleHigh.VirtualAddress + sampleHigh.Misc.VirtualSize ≤
        mx'.optional_header.SizeOfImage)) ∧
    (∃ mx', (sampleState [sampleTop]).AddSection sampleName 5 = .ok mx' ∧
      mx'.new_section_header.VirtualAddress = 0xFFFFF000 ∧
      mx'.new_section_header.Misc.VirtualSize = 0x1000 ∧
      mx'.optional_header.SizeOfImage = 0 ∧
      mx'.optional_header.SizeOfImage ≠
        mx'.new_section_header.VirtualAddress + mx'.new_section_header.Misc.VirtualSize) :=
  ⟨⟨_, _, rfl, rfl, by decide, by decide, by decide, by decide⟩,
    ⟨_, rfl, by decide, by decide, by decide, by decide⟩⟩

/-- C14 (amended): after every successful `AddSection`, in both variants,
`SizeOfImage` is the 32-bit sum of the new section's `VirtualAddress` and
`VirtualSize`; when that sum is below `2 ^ 32` it is the sum itself, and if
moreover `last.VirtualAddress + last.VirtualSize + SectionAlignment - 1 < 2 ^ 32`,
every section of the table that ends at or before the end of the last section
`last` ends at or before `SizeOfImage`. -/
theorem C14_SizeOfImage (self : PePatchX64) (name : List Byte) (code_size : Nat)
    (last : IMAGE_SECTION_HEADER) (hlast : self.section_headers.getLast? = some last) :
    (∀ m', self.toPePatch.AddSection name code_size = .ok m' →
      ∃ new, m'.section_headers.getLast? = some new ∧
        m'.optional_header.SizeOfImage = add32 new.VirtualAddress new.Misc.VirtualSize ∧
        (new.VirtualAddress + new.Misc.VirtualSize < 2 ^ 32 →
          m'.optional_header.SizeOfImage = new.VirtualAddress + new.Misc.VirtualSize ∧
          (last.VirtualAddress + last.Misc.VirtualSize +
              self.optional_header.SectionAlignment - 1 < 2 ^ 32 →
            ∀ s ∈ self.section_headers,
              s.VirtualAddress + s.Misc.VirtualSize ≤
                last.VirtualAddress + last.Misc.VirtualSize →
              s.VirtualAddress + s.Misc.VirtualSize ≤ m'.optional_header.SizeOfImage))) ∧
    (∀ mx', self.AddSection name code_size = .ok mx' →
      mx'.optional_header.SizeOfImage =
        add32 mx'.new_section_header.VirtualAddress mx'.new_section_header.Misc.VirtualSize ∧
      (mx'.new_section_header.VirtualAddress + mx'.new_section_header.Misc.VirtualSize
          < 2 ^ 32 →
        mx'.optional_header.SizeOfImage =
          mx'.new_section_header.VirtualAddress + mx'.new_section_header.Misc.VirtualSize ∧
        (last.VirtualAddress + last.Misc.VirtualSize +
            self.optional_header.SectionAlignment - 1 < 2 ^ 32 →
          ∀ s ∈ self.section_headers,
            s.VirtualAddress + s.Misc.VirtualSize ≤
              last.VirtualAddress + last.Misc.VirtualSize →
            s.VirtualAddress + s.Misc.VirtualSize ≤ mx'.optional_header.SizeOfImage))) := by
  constructor
  · intro m' h
    obtain ⟨last', hl, _, hsa, new, _, _, _, h4, h5, _, _, h8, _⟩ := AddSection_ok h
    have : last' = last := Option.some.inj (hl.symm.trans hlast)
    subst this
    refine ⟨new, by rw [h5]; simp, h8, fun hsum => ?_⟩
    have heq : m'.optional_header.SizeOfImage = new.VirtualAddress + new.Misc.VirtualSize := by
      rw [h8, add32_eq_of_lt hsum]
    refine ⟨heq, fun hno s _ hs => ?_⟩
    have := le_Align_add32 _ _ _ hsa hno
    rw [← h4] at this
    omega
  · intro mx' h
    obtain ⟨last', hl, _, hsa, _, _, _, _, h4, _, _, _, h8, _⟩ := AddSectionX64_ok h
    have : last' = last := Option.some.inj (hl.symm.trans hlast)
    subst this
    refine ⟨h8, fun hsum => ?_⟩
    have heq : mx'.optional_header.SizeOfImage =
        mx'.new_section_header.VirtualAddress + mx'.new_section_header.Misc.VirtualSize := by
      rw [h8, add32_eq_of_lt hsum]
    refine ⟨heq, fun hno s _ hs => ?_⟩
    have := le_Align_add32 _ _ _ hsa hno
    rw [← h4] at this
    omega

/-- C14 (amended), witness: on the sample image both variants succeed and set
`SizeOfImage = 0x2000 + 0x1000`, which covers the only section `.text`. -/
theorem C14_SizeOfImage_witness :
    (sampleState [sampleText]).section_headers.getLast? = some sampleText ∧
    ∃ m' mx',
      (sampleState [sampleText]).toPePatch.AddSection sampleName 5 = .ok m' ∧
      (sampleState [sampleText]).AddSection sampleName 5 = .ok mx' ∧
      mx'.optional_header.SizeOfImage = 0x3000 ∧
      ∀ s ∈ (sampleState [sampleText]).section_headers,
        s.VirtualAddress + s.Misc.VirtualSize ≤
          sampleText.VirtualAddress + sampleText.Misc.VirtualSize →
        s.VirtualAddress + s.Misc.VirtualSize ≤ mx'.optional_header.SizeOfImage :=
  ⟨rfl, _, _, rfl, rfl, by decide,
    (((C14_SizeOfImage (sampleState [sampleText]) sampleName 5 sampleText rfl).2 _ rfl).2
      (by decide)).2 (by decide)⟩

/-! ## C15: the name field -/

/-- The name loop writes `size` bytes: `name[i]` below the length of the name,
zero from there on. -/
theorem copyName_spec (name : List Byte) (size : Nat) :
    (copyName name size).length = size ∧
      (∀ i, i < size → i < name.length → (copyName name size).get? i = name.get? i) ∧
      (∀ i, i < size → name.length ≤ i → (copyName name size).get? i = some 0) := by
  unfold copyName
  refine ⟨by simp, fun i hi hn => ?_, fun i hi hn => ?_⟩
  · simp only [List.get?_eq_getElem?, List.getElem?_map, List.getElem?_range hi,
      Option.map_some', if_pos hn]
    rw [List.getD_eq_getElem?_getD, List.getElem?_eq_getElem hn]
    rfl
  · simp only [List.get?_eq_getElem?, List.getElem?_map, List.getElem?_range hi,
      Option.map_some', if_neg (Nat.not_lt.mpr hn)]

/-- C15: for every name string, the `Name` field of the section built by a
successful `AddSection` (either variant) is exactly 8 bytes long, byte `i`
equals `name[i]` for every `i < min(8, len(name))`, and byte `i` is `0` for every
`i` with `len(name) ≤ i < 8`. -/
theorem C15_name_copy (self : PePatchX64) (name : List Byte) (code_size : Nat) :
    (∀ m', self.toPePatch.AddSection name code_size = .ok m' →
      ∃ new, m'.section_headers.getLast? = some new ∧
        new.Name.length = 8 ∧
        (∀ i, i < min 8 name.length → new.Name.get? i = name.get? i) ∧
        (∀ i, name.length ≤ i → i < 8 → new.Name.get? i = some 0)) ∧
    (∀ mx', self.AddSection name code_size = .ok mx' →
      mx'.new_section_header.Name.length = 8 ∧
      (∀ i, i < min 8 name.length → mx'.new_section_header.Name.get? i = name.get? i) ∧
      (∀ i, name.length ≤ i → i < 8 → mx'.new_section_header.Name.get? i = some 0)) := by
  obtain ⟨hlen, hcopy, hzero⟩ := copyName_spec name 8
  constructor
  · intro m' h
    obtain ⟨new, h5, hname⟩ := AddSection_name h
    have hname' : new.Name = copyName name 8 := hname
    refine ⟨new, by rw [h5]; simp, ?_, fun i hi => ?_, fun i hn hi => ?_⟩
    · rw [hname']; exact hlen
    · rw [hname']; exact hcopy i (by omega) (by omega)
    · rw [hname']; exact hzero i hi hn
  · intro mx' h
    have hname : mx'.new_section_header.Name = copyName name 8 := AddSectionX64_name h
    refine ⟨?_, fun i hi => ?_, fun i hn hi => ?_⟩
    · rw [hname]; exact hlen
    · rw [hname]; exact hcopy i (by omega) (by omega)
    · rw [hname]; exact hzero i hi hn

/-- C15, witness: a short name is zero-padded and a ten-character name is cut to
its first eight characters, in both variants. -/
theorem C15_name_copy_witness :
    ∃ m' mx' new,
      (sampleState [sampleText]).toPePatch.AddSection sampleName 5 = .ok m' ∧
      (sampleState [sampleText]).AddSection sampleLongName 5 = .ok mx' ∧
      m'.section_headers.getLast? = some new ∧
      new.Name = [0x2E, 0x6E, 0x65, 0x77, 0, 0, 0, 0] ∧
      mx'.new_section_header.Name = [0x2E, 0x69, 0x6E, 0x6A, 0x65, 0x63, 0x74, 0x65] ∧
      mx'.new_section_header.Name.length = 8 ∧
      (∀ i, i < min 8 sampleLongName.length →
        mx'.new_section_header.Name.get? i = sampleLongName.get? i) :=
  ⟨_, _, _, rfl, rfl, rfl, by decide, by decide,
    ((C15_name_copy (sampleState [sampleText]) sampleLongName 5).2 _ rfl).1,
    ((C15_name_copy (sampleState [sampleText]) sampleLongName 5).2 _ rfl).2.1⟩

/-! ## C16: `Align` without overflow -/

/-- C16, as stated, fails: `value = 4294967293` and `multiple = 3` satisfy
`value + multiple - 1 < 2 ^ 32`, and `Align(value, 3) = 4294967295`; aligning that
again wraps and gives `0`. -/
theorem C16_counterexample :
    0 < 3 ∧ 4294967293 + 3 - 1 < 2 ^ 32 ∧ Align 4294967293 3 = 4294967295 ∧
      Align (Align 4294967293 3) 3 = 0 ∧
      Align (Align 4294967293 3) 3 ≠ Align 4294967293 3 := by
  decide

/-- C16 (amended): for every `multiple > 0` and every `value` with
`value + multiple - 1 < 2 ^ 32`, `Align(value, multiple)` is the least multiple
of `multiple` that is at least `value`; it is `value` when `value` is already a
multiple; and aligning it again gives the same value provided
`Align(value, multiple) + multiple - 1 < 2 ^ 32` as well. -/
theorem C16_Align_least_multiple (value multiple : Nat) (hm : 0 < multiple)
    (h : value + multiple - 1 < 2 ^ 32) :
    (Align value multiple % multiple = 0 ∧ value ≤ Align value multiple ∧
      ∀ k, k % multiple = 0 → value ≤ k → Align value multiple ≤ k) ∧
    (value % multiple = 0 → Align value multiple = value) ∧
    (Align value multiple + multiple - 1 < 2 ^ 32 →
      Align (Align value multiple) multiple = Align value multiple) := by
  have hdiv : ∀ q, (multiple * q + multiple - 1) / multiple = q := by
    intro q
    have e : multiple * q + multiple - 1 = multiple * q + (multiple - 1) := by omega
    rw [e, Nat.mul_add_div hm, Nat.div_eq_of_lt (by omega)]
    rfl
  have hfix : ∀ v, v + multiple - 1 < 2 ^ 32 → v % multiple = 0 → Align v multiple = v := by
    intro v hv hmod
    rw [Align_eq_of_no_wrap hm hv]
    obtain ⟨q, rfl⟩ := Nat.dvd_of_mod_eq_zero hmod
    rw [hdiv q, Nat.mul_comm]
  refine ⟨⟨Align_mod_self _ _, (Align_bounds hm h).1, fun k hk hle => ?_⟩, hfix value h,
    fun h2 => hfix _ h2 (Align_mod_self _ _)⟩
  rw [Align_eq_of_no_wrap hm h]
  obtain ⟨q, rfl⟩ := Nat.dvd_of_mod_eq_zero hk
  have hq : (value + multiple - 1) / multiple ≤ q := by
    rw [← hdiv q]
    exact Nat.div_le_div_right (by omega)
  calc (value + multiple - 1) / multiple * multiple ≤ q * multiple :=
        Nat.mul_le_mul_right _ hq
    _ = multiple * q := Nat.mul_comm _ _

/-- C16 (amended), witness: `value = 10`, `multiple = 6`, not a power of two. -/
theorem C16_Align_least_multiple_witness :
    (0 < 6 ∧ 10 + 6 - 1 < 2 ^ 32) ∧ Align 10 6 = 12 ∧
      (Align 10 6 % 6 = 0 ∧ 10 ≤ Align 10 6 ∧ ∀ k, k % 6 = 0 → 10 ≤ k → Align 10 6 ≤ k) ∧
      (10 % 6 = 0 → Align 10 6 = 10) ∧
      (Align 10 6 + 6 - 1 < 2 ^ 32 → Align (Align 10 6) 6 = Align 10 6) :=
  ⟨by decide, by decide, C16_Align_least_multiple 10 6 (by decide) (by decide)⟩

/-! ## C18: the collision failure leaves the model untouched -/

/-- The statement-by-statement run of `PePatchX64::AddSection` and its result
agree: it returns the final members exactly when the run does not throw, and
fails with the failure of the run otherwise. -/
theorem AddSection_run_agrees (self : PePatchX64) (name : List Byte) (code_size : Nat) :
    self.AddSection name code_size =
      match (self.AddSection_run name code_size).failure with
      | none => .ok (self.AddSection_run name code_size).state
      | some e => .error e := by
  cases hlast : self.section_headers.getLast? with
  | none => simp only [PePatchX64.AddSection, PePatchX64.AddSection_run, hlast]
  | some last =>
    by_cases hz : self.optional_header.FileAlignment = 0 ∨
        self.optional_header.SectionAlignment = 0
    · simp only [PePatchX64.AddSection, PePatchX64.AddSection_run, hlast, if_pos hz]
    · cases hfind : self.section_headers.find? (fun header =>
          decide (Align (add32 last.SizeOfRawData last.PointerToRawData)
            self.optional_header.FileAlignment = header.PointerToRawData)) with
      | none => simp only [PePatchX64.AddSection, PePatchX64.AddSection_run, hlast, if_neg hz, hfind]
      | some found =>
        simp only [PePatchX64.AddSection, PePatchX64.AddSection_run, hlast, if_neg hz, hfind]

/-- C18: whenever `PePatchX64::AddSection` fails because an existing section
`header` has the computed `PointerToRawData`, the members at the throw are
exactly those before the call: `NumberOfSections`, `AddressOfEntryPoint`,
`SizeOfImage`, the section table and `new_section_header` are unchanged. -/
theorem C18_collision_failure_is_atomic (self : PePatchX64) (name : List Byte)
    (code_size : Nat) (header : IMAGE_SECTION_HEADER)
    (h : self.AddSection name code_size = .error (.offset_taken header)) :
    (self.AddSection_run name code_size).failure = some (.offset_taken header) ∧
    (self.AddSection_run name code_size).state = self ∧
    (self.AddSection_run name code_size).state.file_header.NumberOfSections =
      self.file_header.NumberOfSections ∧
    (self.AddSection_run name code_size).state.optional_header.AddressOfEntryPoint =
      self.optional_header.AddressOfEntryPoint ∧
    (self.AddSection_run name code_size).state.optional_header.SizeOfImage =
      self.optional_header.SizeOfImage ∧
    (self.AddSection_run name code_size).state.section_headers = self.section_headers ∧
    (self.AddSection_run name code_size).state.new_section_header =
      self.new_section_header := by
  have hstate : (self.AddSection_run name code_size).failure = some (.offset_taken header) ∧
      (self.AddSection_run name code_size).state = self := by
    cases hlast : self.section_headers.getLast? with
    | none =>
      simp only [PePatchX64.AddSection, hlast] at h
      cases h
    | some last =>
      by_cases hz : self.optional_header.FileAlignment = 0 ∨
          self.optional_header.SectionAlignment = 0
      · simp only [PePatchX64.AddSection, hlast, if_pos hz] at h
        cases h
      · cases hfind : self.section_headers.find? (fun header =>
            decide (Align (add32 last.SizeOfRawData last.PointerToRawData)
              self.optional_header.FileAlignment = header.PointerToRawData)) with
        | none =>
          simp only [PePatchX64.AddSection, hlast, if_neg hz, hfind] at h
          cases h
        | some found =>
          simp only [PePatchX64.AddSection, hlast, if_neg hz, hfind, Except.error.injEq,
            Failure.offset_taken.injEq] at h
          simp only [PePatchX64.AddSection_run, hlast, if_neg hz, hfind, h, and_self]
  obtain ⟨hf, hs⟩ := hstate
  refine ⟨hf, hs, ?_, ?_, ?_, ?_, ?_⟩ <;> rw [hs]

/-- C18, witness: on the image whose last section `.bss` has no raw data, the
new section would start at `0x400` like `.bss`; `PePatchX64::AddSection` throws
and the members are those of the image. -/
theorem C18_collision_failure_is_atomic_witness :
    (sampleState [sampleText, sampleNoRawData]).AddSection sampleName 5 =
        .error (.offset_taken sampleNoRawData) ∧
      ((sampleState [sampleText, sampleNoRawData]).AddSection_run sampleName 5).state =
        sampleState [sampleText, sampleNoRawData] :=
  ⟨rfl, (C18_collision_failure_is_atomic (sampleState [sampleText, sampleNoRawData])
    sampleName 5 sampleNoRawData rfl).2.1⟩

/-! ## C11: saving an empty code buffer -/

set_option maxRecDepth 100000 in
/-- C11 fails in `PePatch`: `PePatchX64::SaveFile` throws on an empty code buffer
before any write, for every model, but `PePatch::SaveFile` has no such check.
On the sample image after `AddSection` it issues all its writes without a
failure: the DOS header, the NT headers, two section headers, and `0x200` zero
bytes at the new section's offset `0x400`. -/
theorem C11_base_accepts_empty_code :
    (∀ self : PePatchX64,
      self.SaveFile [] = { writes := [], failure := some .empty_code_section }) ∧
    (sampleAddedBase.SaveFile []).failure = none ∧
    (sampleAddedBase.SaveFile []).writes.map (fun w => (w.offset, w.data.length)) =
      [(0, 64), (64, 264), (328, 40), (368, 40), (0x400, 0x200)] ∧
    (sampleAddedBase.SaveFile []).writes.getLast? =
      some { offset := 0x400, data := List.replicate 0x200 0 } := by
  refine ⟨fun self => rfl, ?_, ?_, ?_⟩ <;>
    simp only [PePatch.SaveFile, padCode_eq] <;> decide

/-! ## C19: `HasSection` -/

/-- The string that starts a region whose first part holds a zero byte is read
from that part alone. -/
theorem cString_append (a b : List Byte) (h : (0 : Byte) ∈ a) :
    cString (a ++ b) = some (a.takeWhile (fun x => decide (x ≠ 0))) := by
  unfold cString
  rw [if_pos (List.mem_append_left b h)]
  congr 1
  induction a with
  | nil => cases h
  | cons x xs ih =>
    by_cases hx : x = 0
    · simp [List.takeWhile, hx]
    · have hmem : (0 : Byte) ∈ xs := by
        rcases List.mem_cons.mp h with h0 | h0
        · exact absurd h0.symm hx
        · exact h0
      have := ih hmem
      simp only [List.cons_append, List.takeWhile, hx, ne_eq, not_false_eq_true, decide_True]
      exact congrArg (List.cons x) this

/-- The string read at a section whose `Name` holds a zero byte is the name
before that byte. -/
theorem cString_sectionMemory (s : IMAGE_SECTION_HEADER) (rest : List IMAGE_SECTION_HEADER)
    (h : (0 : Byte) ∈ s.Name) :
    cString (sectionMemory (s :: rest)) = some (nameString s) := by
  unfold sectionMemory encodeSectionHeader nameString
  simp only [List.append_assoc]
  exact cString_append _ _ h

/-- On a table whose `Name` fields all hold a zero byte, the loop of `HasSection`
returns whether some name equals the argument. -/
theorem hasSectionLoop_spec (name : List Byte) :
    ∀ table : List IMAGE_SECTION_HEADER, (∀ s ∈ table, (0 : Byte) ∈ s.Name) →
      ∃ found, hasSectionLoop table name = .ok found ∧
        (found = true ↔ ∃ s ∈ table, nameString s = name) := by
  intro table
  induction table with
  | nil => intro _; exact ⟨false, rfl, by simp⟩
  | cons s rest ih =>
    intro h
    have hs := cString_sectionMemory s rest (h s (List.mem_cons_self _ _))
    obtain ⟨found, hfound, hiff⟩ := ih (fun t ht => h t (List.mem_cons_of_mem _ ht))
    by_cases heq : nameString s = name
    · refine ⟨true, ?_, by simp [heq]⟩
      simp only [hasSectionLoop, hs, if_pos heq]
    · refine ⟨found, ?_, ?_⟩
      · simp only [hasSectionLoop, hs, if_neg heq, hfound]
      · rw [hiff]
        simp [heq]

/-- A name shorter than the field is copied followed by zero bytes. -/
theorem copyName_short (name : List Byte) (size : Nat) (h : name.length ≤ size) :
    copyName name size = name ++ List.replicate (size - name.length) 0 := by
  obtain ⟨hlen, hcopy, hzero⟩ := copyName_spec name size
  apply List.ext_get?
  intro i
  by_cases hi : i < size
  · by_cases hn : i < name.length
    · rw [hcopy i hi hn]
      simp only [List.get?_eq_getElem?]
      rw [List.getElem?_append_left hn]
    · rw [hzero i hi (by omega)]
      simp only [List.get?_eq_getElem?]
      rw [List.getElem?_append_right (by omega), List.getElem?_replicate]
      rw [if_pos (by omega)]
  · simp only [List.get?_eq_getElem?]
    rw [List.getElem?_eq_none (by omega), List.getElem?_eq_none (by simp; omega)]

/-- The string before the first zero byte of a zero-free run followed by a zero. -/
theorem takeWhile_append_zero (a t : List Byte) (h : (0 : Byte) ∉ a) :
    (a ++ 0 :: t).takeWhile (fun b => decide (b ≠ 0)) = a := by
  induction a with
  | nil => simp [List.takeWhile]
  | cons x xs ih =>
    have hx : x ≠ 0 := fun h0 => h (by rw [h0]; exact List.mem_cons_self _ _)
    have hxs : (0 : Byte) ∉ xs := fun h0 => h (List.mem_cons_of_mem _ h0)
    have := ih hxs
    simp only [List.cons_append, List.takeWhile, hx, ne_eq, not_false_eq_true, decide_True]
    exact congrArg (List.cons x) this

/-- The `Name` built from a zero-free name shorter than the field holds a zero
byte and reads back as that name. -/
theorem nameString_copyName (name : List Byte) (hlen : name.length < 8)
    (hz : (0 : Byte) ∉ name) (s : IMAGE_SECTION_HEADER) (hs : s.Name = copyName name 8) :
    (0 : Byte) ∈ s.Name ∧ nameString s = name := by
  have hk : 8 - name.length = (8 - name.length - 1) + 1 := by omega
  have hshape : s.Name = name ++ 0 :: List.replicate (8 - name.length - 1) 0 := by
    rw [hs, copyName_short name 8 (by omega), hk, List.replicate_succ]
    simp
  constructor
  · rw [hshape]; simp
  · unfold nameString
    rw [hshape]
    exact takeWhile_append_zero _ _ hz

/-- When the last entry of the table has a `Name` with a zero byte that reads as
`name`, the loop of `HasSection` returns true, whatever the other entries. -/
theorem hasSectionLoop_last (name : List Byte) (new : IMAGE_SECTION_HEADER)
    (hzero : (0 : Byte) ∈ new.Name) (hname : nameString new = name) :
    ∀ table : List IMAGE_SECTION_HEADER, hasSectionLoop (table ++ [new]) name = .ok true := by
  have hlast : hasSectionLoop [new] name = .ok true := by
    simp only [hasSectionLoop, cString_sectionMemory new [] hzero, if_pos hname]
  have hmem : ∀ table : List IMAGE_SECTION_HEADER,
      (0 : Byte) ∈ sectionMemory (table ++ [new]) := by
    intro table
    induction table with
    | nil =>
      simp only [List.nil_append, sectionMemory, encodeSectionHeader, List.append_assoc]
      exact List.mem_append_left _ hzero
    | cons s rest ih =>
      simp only [List.cons_append, sectionMemory]
      exact List.mem_append_right _ ih
  intro table
  induction table with
  | nil => exact hlast
  | cons s rest ih =>
    have hm := hmem (s :: rest)
    simp only [List.cons_append] at hm ⊢
    simp only [hasSectionLoop, cString, if_pos hm]
    split_ifs
    · rfl
    · exact ih

/-- C19: `HasSection` compares names by content.  For every section table in
which each `Name` field holds a zero byte and every string `name`,
`HasSection(name)` returns true if and only if the bytes of some section's
`Name` before its first zero byte equal `name`; and in `PePatch`, after a
successful `AddSection(name, code_size)` with `len(name) < 8` and no zero
character in `name`, `HasSection(name)` returns true. -/
theorem C19_HasSection_by_content (self : PePatch) (name : List Byte)
    (h : ∀ s ∈ self.section_headers, (0 : Byte) ∈ s.Name) :
    (∃ found, self.HasSection name = .ok found ∧
      (found = true ↔ ∃ s ∈ self.section_headers, nameString s = name)) ∧
    (∀ code_size m', name.length < 8 → (0 : Byte) ∉ name →
      self.AddSection name code_size = .ok m' → m'.HasSection name = .ok true) := by
  refine ⟨hasSectionLoop_spec name self.section_headers h, fun code_size m' hlen hz hadd => ?_⟩
  obtain ⟨new, htable, hname⟩ := AddSection_name hadd
  obtain ⟨hzero, hstr⟩ := nameString_copyName name hlen hz new hname
  unfold PePatch.HasSection
  rw [htable]
  exact hasSectionLoop_last name new hzero hstr _

set_option maxRecDepth 100000 in
/-- C19, witness: on the sample image `HasSection(".text")` is true and
`HasSection(".new")` is false; after `AddSection(".new", 5)` it is true. -/
theorem C19_HasSection_by_content_witness :
    (∀ s ∈ (sampleState [sampleText]).section_headers, (0 : Byte) ∈ s.Name) ∧
    (sampleState [sampleText]).toPePatch.HasSection [0x2E, 0x74, 0x65, 0x78, 0x74] = .ok true ∧
    (sampleState [sampleText]).toPePatch.HasSection sampleName = .ok false ∧
    (sampleName.length < 8 ∧ (0 : Byte) ∉ sampleName) ∧
    sampleAddedBase.HasSection sampleName = .ok true :=
  ⟨by decide, rfl, rfl, by decide,
    (C19_HasSection_by_content (sampleState [sampleText]).toPePatch sampleName (by decide)).2
      5 sampleAddedBase (by decide) (by decide) rfl⟩

/-! ## C20: `ReplaceDword` -/

/-- C20 fails: the buffer `78 56 34 12` is the little-endian encoding of
`0x12345678`, yet `ReplaceDword` returns false on it, because the second byte
`0x56` is compared with `0x12345678 >> 8 = 0x123456` (the mask `& 0xff` is applied
to the shift count).  It returns true on `34 12 00 00` for the target `0x1234`,
where the unmasked shifts fit in a byte, and then rewrites its own copy of the
buffer only.  A buffer that ends after a matching first byte is read past its
end. -/
theorem C20_ReplaceDword_misses_pattern :
    leBytes 4 0x12345678 = [0x78, 0x56, 0x34, 0x12] ∧
    ReplaceDword [0x78, 0x56, 0x34, 0x12] 0x12345678 0xDEADBEEF =
      .ok { returned := false, local_copy := [0x78, 0x56, 0x34, 0x12] } ∧
    ReplaceDword [0x90, 0x34, 0x12, 0x00, 0x00] 0x1234 0xDEADBEEF =
      .ok { returned := true, local_copy := [0x90, 0xEF, 0xBE, 0xAD, 0xDE] } ∧
    ReplaceDword [0x90, 0x78] 0x12345678 0xDEADBEEF = .error .out_of_range := by
  refine ⟨by decide, rfl, rfl, rfl⟩

/-! ## Lemmas on files with data appended -/

/-- A read that lies inside a buffer gives the same bytes when data is appended
to the buffer. -/
theorem readBytes_append {head : List Byte} {off len : Nat} {x : List Byte}
    (h : readBytes head off len = some x) (tail : List Byte) :
    readBytes (head ++ tail) off len = some x := by
  unfold readBytes at h ⊢
  split_ifs at h with hin
  have hin' : off + len ≤ (head ++ tail).length := by
    rw [List.length_append]; omega
  rw [if_pos hin', ← Option.some.inj h, List.drop_append_of_le_length (by omega),
    List.take_append_of_le_length (by rw [List.length_drop]; omega)]

/-- The same for a read at a signed index. -/
theorem readAt_append {head : List Byte} {off : Int} {len : Nat} {x : List Byte}
    (h : readAt head off len = some x) (tail : List Byte) :
    readAt (head ++ tail) off len = some x := by
  unfold readAt at h ⊢
  split_ifs at h with h0
  rw [if_pos h0]
  exact readBytes_append h tail

/-- The section-header loop of the base constructor reads the same headers when
data is appended to the buffer. -/
theorem readSectionHeaders_append (head tail : List Byte) (first : Nat) :
    ∀ count i hs, readSectionHeaders head first i count = .ok hs →
      readSectionHeaders (head ++ tail) first i count = .ok hs := by
  intro count
  induction count with
  | zero => intro i hs h; exact h
  | succ n ih =>
    intro i hs h
    simp only [readSectionHeaders] at h ⊢
    cases hr : readBytes head (add32 first (mul32 i sizeof_IMAGE_SECTION_HEADER))
        sizeof_IMAGE_SECTION_HEADER with
    | none => simp only [hr] at h; cases h
    | some bs =>
      simp only [hr] at h
      simp only [readBytes_append hr tail]
      cases hrec : readSectionHeaders head first (i + 1) n with
      | error e => simp only [hrec] at h; cases h
      | ok rest =>
        simp only [hrec] at h
        simp only [ih (i + 1) rest hrec]
        exact h

/-- The section-header loop of the derived constructor reads the same headers
when data is appended to the buffer. -/
theorem readSectionHeadersX64_append (head tail : List Byte) (first : Nat) :
    ∀ count i hs, readSectionHeadersX64 head first i count = .ok hs →
      readSectionHeadersX64 (head ++ tail) first i count = .ok hs := by
  intro count
  induction count with
  | zero => intro i hs h; exact h
  | succ n ih =>
    intro i hs h
    simp only [readSectionHeadersX64] at h ⊢
    cases hr : readBytes head (add32 first (mul32 i sizeof_IMAGE_SECTION_HEADER))
        sizeof_IMAGE_SECTION_HEADER with
    | none => simp only [hr] at h; cases h
    | some bs =>
      simp only [hr] at h
      simp only [readBytes_append hr tail]
      cases hc : readBytes head (decodeSectionHeader bs).PointerToRawData
          (if (decodeSectionHeader bs).SizeOfRawData < 100 then
            (decodeSectionHeader bs).SizeOfRawData else 100) with
      | none => simp only [hc] at h; cases h
      | some copy =>
        simp only [hc] at h
        simp only [readBytes_append hc tail]
        cases hrec : readSectionHeadersX64 head first (i + 1) n with
        | error e => simp only [hrec] at h; cases h
        | ok rest =>
          simp only [hrec] at h
          simp only [ih (i + 1) rest hrec]
          exact h

/-- The second half of the base constructor on a file with data appended: the
same members, with the data appended to the residual buffer. -/
theorem loadHeaders_append (head tail : List Byte) (dos : IMAGE_DOS_HEADER) (type : PeArch)
    (u : IMAGE_OPTIONAL_HEADER64) (m : PePatch) (h : loadHeaders head dos type u = .ok m) :
    loadHeaders (head ++ tail) dos type u =
      .ok { m with file_buffer := m.file_buffer ++ tail } := by
  cases type with
  | x86 =>
    unfold loadHeaders at h ⊢
    dsimp only at h ⊢
    split at h
    · rename_i fh sig oh h1 h2 h3
      simp only [readAt_append h1 tail, readAt_append h2 tail, h3]
      split_ifs at h with hsig
      rw [if_neg hsig]
      split at h
      · cases h
      · rename_i hs hok
        simp only [readSectionHeaders_append head tail _ _ _ _ hok]
        split_ifs at h with hrest
        injection h with h
        subst h
        rw [if_pos (by rw [List.length_append]; omega)]
        simp only [List.drop_append_of_le_length hrest]
    · cases h
  | x64 =>
    unfold loadHeaders at h ⊢
    dsimp only at h ⊢
    split at h
    · rename_i fh sig oh h1 h2 h3
      obtain ⟨bs, hbs, hdec⟩ := Option.map_eq_some'.mp h3
      simp only [readAt_append h1 tail, readAt_append h2 tail, readAt_append hbs tail,
        Option.map_some', hdec]
      split_ifs at h with hsig
      rw [if_neg hsig]
      split at h
      · cases h
      · rename_i hs hok
        simp only [readSectionHeaders_append head tail _ _ _ _ hok]
        split_ifs at h with hrest
        injection h with h
        subst h
        rw [if_pos (by rw [List.length_append]; omega)]
        simp only [List.drop_append_of_le_length hrest]
    · cases h

/-- The base constructor on a file with data appended: the same members, with
the data appended to the residual buffer. -/
theorem ctor_append (head tail : List Byte) (u : IMAGE_OPTIONAL_HEADER64) (m : PePatch)
    (h : PePatch.ctor u head = .ok m) (hsize : (head ++ tail).length < 2 ^ 32) :
    PePatch.ctor u (head ++ tail) = .ok { m with file_buffer := m.file_buffer ++ tail } := by
  unfold PePatch.ctor at h ⊢
  dsimp only at h ⊢
  split_ifs at h with hlen hover
  have hlen' : ¬ (head ++ tail).length = 0 := by
    rw [List.length_append]; omega
  rw [if_neg hlen', if_neg (size_fits hsize)]
  split at h
  · cases h
  · rename_i dos hdos
    simp only [readBytes_append hdos tail]
    split_ifs at h with hmagic
    rw [if_neg hmagic]
    split at h
    · rename_i hi lo hhi hlo
      simp only [readAt_append hhi tail, readAt_append hlo tail]
      split_ifs at h with h86 h64
      · rw [if_pos h86]; exact loadHeaders_append head tail _ _ _ _ h
      · rw [if_neg h86, if_pos h64]; exact loadHeaders_append head tail _ _ _ _ h
    · cases h

/-- The block that reloads the NT headers reads the same values when data is
appended to the residual buffer. -/
theorem reloadNtHeaders_append (base : PePatch) (tail : List Byte)
    (r : IMAGE_FILE_HEADER × Nat × Nat × IMAGE_OPTIONAL_HEADER64)
    (h : reloadNtHeaders base = some r) :
    reloadNtHeaders { base with file_buffer := base.file_buffer ++ tail } = some r := by
  unfold reloadNtHeaders at h ⊢
  cases ht : base.type with
  | x86 => simp only [ht] at h ⊢; exact h
  | x64 =>
    simp only [ht] at h ⊢
    split at h
    · rename_i fh sig oh h1 h2 h3
      simp only [readAt_append h1 tail, readAt_append h2 tail, readAt_append h3 tail]
      exact h
    · cases h

/-- The body of the derived constructor on members whose residual buffer has
data appended: the same members, with the data appended to the buffer it
leaves. -/
theorem ctorBody_append (us : IMAGE_SECTION_HEADER) (base : PePatch) (tail : List Byte)
    (mx : PePatchX64) (h : PePatchX64.ctorBody us base = .ok mx) :
    PePatchX64.ctorBody us { base with file_buffer := base.file_buffer ++ tail } =
      .ok { mx with file_buffer := mx.file_buffer ++ tail } := by
  unfold PePatchX64.ctorBody at h ⊢
  dsimp only at h ⊢
  split at h
  · cases h
  · rename_i file_header first_section signature optional_header hre
    simp only [reloadNtHeaders_append base tail _ hre]
    split_ifs at h with hsig
    rw [if_neg hsig]
    split at h
    · cases h
    · rename_i more hok
      simp only [readSectionHeadersX64_append base.file_buffer tail _ _ _ _ hok]
      split_ifs at h with hrest
      injection h with h
      subst h
      rw [if_pos (le_trans hrest (by rw [List.length_append]; exact Nat.le_add_right _ _))]
      simp only [List.drop_append_of_le_length hrest]

/-- The constructor of `PePatchX64` on a file with data appended: the same
members, with the data appended to the residual buffer. -/
theorem ctorX64_append (head tail : List Byte) (u : IMAGE_OPTIONAL_HEADER64)
    (us : IMAGE_SECTION_HEADER) (mx : PePatchX64)
    (h : PePatchX64.ctor u us head = .ok mx) (hsize : (head ++ tail).length < 2 ^ 32) :
    PePatchX64.ctor u us (head ++ tail) =
      .ok { mx with file_buffer := mx.file_buffer ++ tail } := by
  unfold PePatchX64.ctor at h ⊢
  split at h
  · cases h
  · rename_i base hbase
    simp only [ctor_append head tail u base hbase hsize]
    exact ctorBody_append us base tail mx h

/-- `PePatchX64::AddSection` does not look at the residual buffer: with another
buffer it returns the same members, but for the buffer. -/
theorem AddSectionX64_file_buffer (m m' : PePatchX64) (fb : List Byte) (name : List Byte)
    (code_size : Nat) (h : m.AddSection name code_size = .ok m') :
    ({ m with file_buffer := fb } : PePatchX64).AddSection name code_size =
      .ok { m' with file_buffer := fb } := by
  cases hlast : m.section_headers.getLast? with
  | none =>
    simp only [PePatchX64.AddSection, hlast] at h
    cases h
  | some last =>
    by_cases hz : m.optional_header.FileAlignment = 0 ∨ m.optional_header.SectionAlignment = 0
    · simp only [PePatchX64.AddSection, hlast, if_pos hz] at h
      cases h
    · cases hfind : m.section_headers.find? (fun header =>
          decide (Align (add32 last.SizeOfRawData last.PointerToRawData)
            m.optional_header.FileAlignment = header.PointerToRawData)) with
      | some found =>
        simp only [PePatchX64.AddSection, hlast, if_neg hz, hfind] at h
        cases h
      | none =>
        simp only [PePatchX64.AddSection, hlast, if_neg hz, hfind, Except.ok.injEq] at h
        subst h
        simp only [PePatchX64.AddSection, hlast, if_neg hz, hfind]

/-- `PePatchX64::SaveFile` when the trailing-data branch runs: after the header
writes and the code, it writes the residual buffer from index `0x000CD800` on at
file offset `0x000CD800`. -/
theorem SaveFileX64_trailing (self : PePatchX64) (code_buffer : List Byte)
    (hne : code_buffer ≠ []) (hseek : 0 ≤ self.dos_header.e_lfanew)
    (hpos : self.new_section_header.PointerToRawData < self.file_buffer.length)
    (hsec : self.section_headers ≠ []) (hbig : 0x000CD800 ≤ self.file_buffer.length) :
    self.SaveFile code_buffer =
      { writes := (headerWrites self.toPePatch).writes ++
          [{ offset := self.new_section_header.PointerToRawData
             data := padCode code_buffer self.new_section_header.SizeOfRawData },
           { offset := 0x000CD800, data := self.file_buffer.drop 0x000CD800 }]
        failure := none } := by
  have hl : ¬ code_buffer.length = 0 := fun h0 => hne (List.length_eq_zero.mp h0)
  have hf := headerWrites_failure hseek
  unfold PePatchX64.SaveFile
  simp only [if_neg hl, hf, if_pos hpos, if_pos hbig]
  cases hlast : self.section_headers.getLast? with
  | none => exact absurd (List.getLast?_eq_none_iff.mp hlast) hsec
  | some last => rfl

set_option maxRecDepth 100000 in
/-- The constructor of `PePatchX64` on the 1060 bytes `twiceHeaders`. -/
theorem ctor_twiceHeaders :
    PePatchX64.ctor zeroOptionalHeader zeroSectionHeader twiceHeaders = .ok loadedTwice := by
  rfl

set_option maxRecDepth 100000 in
/-- Loading, `AddSection` and `SaveFile` on a file that starts with
`twiceHeaders`, for any data after it that makes the residual buffer reach
index `0x000CD800`: the last write of `SaveFile` copies the residual buffer from
that index on to file offset `0x000CD800`. -/
theorem overlay_run (tail : List Byte)
    (hlen : 0x000CD800 ≤ (List.replicate 284 (0x55 : Byte) ++ tail).length)
    (hsize : (twiceHeaders ++ tail).length < 2 ^ 32) :
    ∃ loaded added,
      PePatchX64.ctor zeroOptionalHeader zeroSectionHeader (twiceHeaders ++ tail) = .ok loaded ∧
      loaded.file_buffer = (twiceHeaders ++ tail).drop 776 ∧
      loaded.AddSection sampleName 5 = .ok added ∧
      added.SaveFile sampleCode =
        { writes := (headerWrites addedTwice.toPePatch).writes ++
            [{ offset := 0x400, data := padCode sampleCode 0x200 },
             { offset := 0x000CD800
               data := (List.replicate 284 (0x55 : Byte) ++ tail).drop 0x000CD800 }]
          failure := none } := by
  have hload := ctorX64_append twiceHeaders tail _ _ _ ctor_twiceHeaders hsize
  have hadd : loadedTwice.AddSection sampleName 5 = .ok addedTwice := rfl
  have hadd' := AddSectionX64_file_buffer loadedTwice addedTwice
    (loadedTwice.file_buffer ++ tail) sampleName 5 hadd
  have htw : twiceHeaders.length = 1060 := by decide
  refine ⟨_, _, hload, ?_, hadd', ?_⟩
  · show List.replicate 284 0x55 ++ tail = (twiceHeaders ++ tail).drop 776
    rw [List.drop_append_of_le_length (by rw [htw]; decide)]
    congr 1
  · exact SaveFileX64_trailing _ sampleCode (by decide)
      (show 0 ≤ addedTwice.dos_header.e_lfanew by decide)
      (lt_of_lt_of_le (show addedTwice.new_section_header.PointerToRawData < 0x000CD800 by decide)
        hlen)
      (show addedTwice.section_headers ≠ [] by decide) hlen

/-- The last element of a list that ends with two given elements. -/
theorem getLast?_append_pair (l : List Write) (a b : Write) :
    (l ++ [a, b]).getLast? = some b := by
  simp

/-- The residual buffer of `overlayImage`: `0xCD800` bytes `0x55` and the byte
`0xAA`. -/
theorem residual_overlay :
    List.replicate 284 (0x55 : Byte) ++ trailingData =
      List.replicate 0x000CD800 0x55 ++ [0xAA] := by
  unfold trailingData
  rw [← List.append_assoc, ← List.replicate_add]

set_option maxRecDepth 100000 in
/-- The length of `twiceHeaders`. -/
theorem twiceHeaders_length : twiceHeaders.length = 1060 := by decide

/-- The residual buffer of `overlayImage` reaches index `0xCD800`. -/
theorem residual_overlay_length :
    0x000CD800 ≤ (List.replicate 284 (0x55 : Byte) ++ trailingData).length := by
  rw [residual_overlay, List.length_append, List.length_replicate]
  exact Nat.le_add_right _ _

/-- The residual buffer of `overlayImage` from index `0xCD800` on. -/
theorem residual_overlay_drop :
    (List.replicate 284 (0x55 : Byte) ++ trailingData).drop 0x000CD800 = [0xAA] := by
  rw [residual_overlay]
  exact List.drop_left' (List.length_replicate _ _)

/-- The size of `overlayImage` fits in 32 bits. -/
theorem overlayImage_size : (twiceHeaders ++ trailingData).length < 2 ^ 32 := by
  unfold trailingData
  rw [List.length_append, twiceHeaders_length, List.length_append, List.length_replicate]
  decide

/-- The byte of `overlayImage` at offset `0xCD800`. -/
theorem overlayImage_at_CD800 : overlayImage.get? 0x000CD800 = some 0x55 := by
  unfold overlayImage trailingData
  simp only [List.get?_eq_getElem?]
  rw [List.getElem?_append_right (by rw [twiceHeaders_length]; decide), twiceHeaders_length,
    List.getElem?_append_left (by rw [List.length_replicate]; decide),
    List.getElem?_replicate]
  rfl

/-- The byte of `overlayImage` at offset `776 + 0xCD800`. -/
theorem overlayImage_at_end : overlayImage.get? (776 + 0x000CD800) = some 0xAA := by
  unfold overlayImage trailingData
  simp only [List.get?_eq_getElem?]
  rw [List.getElem?_append_right (by rw [twiceHeaders_length]; decide), twiceHeaders_length,
    List.getElem?_append_right (by rw [List.length_replicate]),
    List.length_replicate]
  rfl

/-- C12 fails.  The file `overlayImage` (two copies of the headers, so that the
constructor of `PePatchX64` accepts it, then bytes `0x55` and a last byte `0xAA`
at offset `776 + 0xCD800`) loads; its residual buffer is the file from offset
776 on.  After `AddSection(".new", 5)`, `SaveFile` ends with the trailing-data
write at offset `0xCD800`, and the byte it puts there is `0xAA`, the byte the
file held at offset `776 + 0xCD800`, while the file held `0x55` at offset
`0xCD800`. -/
theorem C12_trailing_write_is_shifted :
    ∃ loaded added,
      PePatchX64.ctor zeroOptionalHeader zeroSectionHeader overlayImage = .ok loaded ∧
      loaded.file_buffer = overlayImage.drop 776 ∧
      loaded.AddSection sampleName 5 = .ok added ∧
      (added.SaveFile sampleCode).failure = none ∧
      (added.SaveFile sampleCode).writes.getLast? =
        some { offset := 0x000CD800, data := [0xAA] } ∧
      overlayImage.get? 0x000CD800 = some 0x55 ∧
      overlayImage.get? (776 + 0x000CD800) = some 0xAA := by
  obtain ⟨loaded, added, h1, h2, h3, h4⟩ :=
    overlay_run trailingData residual_overlay_length overlayImage_size
  refine ⟨loaded, added, h1, h2, h3, ?_, ?_, overlayImage_at_CD800, overlayImage_at_end⟩
  · rw [h4]
  · rw [h4, residual_overlay_drop]
    exact getLast?_append_pair _ _ _

/-! ## The residual buffer of every loaded image -/

/-- The section-header loop of the base constructor returns as many headers as
it was asked for. -/
theorem readSectionHeaders_length (raw : List Byte) (first : Nat) :
    ∀ count i hs, readSectionHeaders raw first i count = .ok hs → hs.length = count := by
  intro count
  induction count with
  | zero =>
    intro i hs h
    simp only [readSectionHeaders] at h
    injection h with h
    subst h
    rfl
  | succ n ih =>
    intro i hs h
    simp only [readSectionHeaders] at h
    split at h
    · cases h
    · split at h
      · cases h
      · rename_i rest hrest
        injection h with h
        subst h
        simp [ih (i + 1) rest hrest]

/-- A read at a signed index succeeds only at a non-negative index. -/
theorem readAt_nonneg {buf : List Byte} {off : Int} {len : Nat} {x : List Byte}
    (h : readAt buf off len = some x) : 0 ≤ off := by
  unfold readAt at h
  split_ifs at h with h0
  exact h0

/-- The `NumberOfSections` of an overlaid file header is a 16-bit value. -/
theorem decodeFileHeader_sections_lt (bs : List Byte) :
    (decodeFileHeader bs).NumberOfSections < 2 ^ 16 := by
  unfold decodeFileHeader
  have h := leNat_lt ((bs.drop 2).take 2)
  have hl : ((bs.drop 2).take 2).length ≤ 2 := by simp
  calc _ < 256 ^ ((bs.drop 2).take 2).length := h
    _ ≤ 256 ^ 2 := Nat.pow_le_pow_right (by norm_num) hl
    _ = 2 ^ 16 := by norm_num

/-- The `e_lfanew` of an overlaid DOS header is a 32-bit signed value. -/
theorem decodeDosHeader_lfanew_lt (bs : List Byte) : (decodeDosHeader bs).e_lfanew < 2 ^ 31 := by
  unfold decodeDosHeader
  apply toLong_lt
  have h := leNat_lt ((bs.drop 60).take 4)
  have hl : ((bs.drop 60).take 4).length ≤ 4 := by simp
  calc leNat ((bs.drop 60).take 4) < 256 ^ ((bs.drop 60).take 4).length := h
    _ ≤ 256 ^ 4 := Nat.pow_le_pow_right (by norm_num) hl
    _ = 2 ^ 32 := by norm_num

/-- After the base constructor the residual buffer is the file without its
first `rest` bytes, for some `rest` of at least 248. -/
theorem loadHeaders_residual (raw : List Byte) (dos : IMAGE_DOS_HEADER) (type : PeArch)
    (u : IMAGE_OPTIONAL_HEADER64) (m : PePatch) (he : dos.e_lfanew < 2 ^ 31)
    (h : loadHeaders raw dos type u = .ok m) :
    ∃ rest, 248 ≤ rest ∧ m.file_buffer = raw.drop rest := by
  unfold loadHeaders at h
  dsimp only at h
  split at h
  · rename_i fh sig oh h1 h2 h3
    have h0 := readAt_nonneg h2
    have hn := decodeFileHeader_sections_lt fh
    split_ifs at h with hsig
    split at h
    · cases h
    · rename_i hs hok
      have hl := readSectionHeaders_length raw _ _ _ _ hok
      split_ifs at h with hrest
      injection h with h
      subst h
      refine ⟨_, ?_, rfl⟩
      rw [hl]
      cases type with
      | x86 =>
        have hk := ofLong_add h0 he 248 (by norm_num)
        have hw : ∀ t n : Nat, t < 2 ^ 31 → n < 2 ^ 16 →
            248 ≤ (t + 248 + n % 2 ^ 32 * 40 % 2 ^ 32) % 2 ^ 32 := by
          intro t n ht hn
          have e1 : n % 2 ^ 32 = n := Nat.mod_eq_of_lt (by omega)
          have e2 : n * 40 % 2 ^ 32 = n * 40 := Nat.mod_eq_of_lt (by omega)
          have e3 : (t + 248 + n * 40) % 2 ^ 32 = t + 248 + n * 40 := Nat.mod_eq_of_lt (by omega)
          rw [e1, e2, e3]
          omega
        simp only [sizeof_IMAGE_NT_HEADERS32]
        rw [hk]
        unfold add32 mul32 sizeof_IMAGE_SECTION_HEADER
        have ht : dos.e_lfanew.toNat < 2 ^ 31 := by omega
        exact hw dos.e_lfanew.toNat (decodeFileHeader fh).NumberOfSections ht hn
      | x64 =>
        have hk := ofLong_add h0 he 264 (by norm_num)
        have hw : ∀ t n : Nat, t < 2 ^ 31 → n < 2 ^ 16 →
            248 ≤ (t + 264 + n % 2 ^ 32 * 40 % 2 ^ 32) % 2 ^ 32 := by
          intro t n ht hn
          have e1 : n % 2 ^ 32 = n := Nat.mod_eq_of_lt (by omega)
          have e2 : n * 40 % 2 ^ 32 = n * 40 := Nat.mod_eq_of_lt (by omega)
          have e3 : (t + 264 + n * 40) % 2 ^ 32 = t + 264 + n * 40 := Nat.mod_eq_of_lt (by omega)
          rw [e1, e2, e3]
          omega
        simp only [sizeof_IMAGE_NT_HEADERS64]
        rw [hk]
        unfold add32 mul32 sizeof_IMAGE_SECTION_HEADER
        have ht : dos.e_lfanew.toNat < 2 ^ 31 := by omega
        exact hw dos.e_lfanew.toNat (decodeFileHeader fh).NumberOfSections ht hn
  · cases h

/-- After the base constructor the residual buffer is the file without its
first `rest` bytes, for some `rest` of at least 248. -/
theorem ctor_residual (raw : List Byte) (u : IMAGE_OPTIONAL_HEADER64) (m : PePatch)
    (h : PePatch.ctor u raw = .ok m) :
    ∃ rest, 248 ≤ rest ∧ m.file_buffer = raw.drop rest := by
  unfold PePatch.ctor at h
  dsimp only at h
  split_ifs at h with hlen hover
  split at h
  · cases h
  · rename_i dos hdos
    split_ifs at h with hmagic
    split at h
    · split_ifs at h with h86 h64
      · exact loadHeaders_residual raw _ _ u m (decodeDosHeader_lfanew_lt dos) h
      · exact loadHeaders_residual raw _ _ u m (decodeDosHeader_lfanew_lt dos) h
    · cases h

/-- After the constructor of `PePatchX64` the residual buffer is the file
without its first `rest` bytes, for some `rest` of at least 248: what the buffer
holds at index `k` is what the file holds at offset `rest + k`. -/
theorem ctorX64_residual (raw : List Byte) (u : IMAGE_OPTIONAL_HEADER64)
    (us : IMAGE_SECTION_HEADER) (mx : PePatchX64)
    (h : PePatchX64.ctor u us raw = .ok mx) :
    ∃ rest, 248 ≤ rest ∧ mx.file_buffer = raw.drop rest := by
  unfold PePatchX64.ctor at h
  split at h
  · cases h
  · rename_i base hbase
    obtain ⟨rest1, h248, hfb⟩ := ctor_residual raw u base hbase
    unfold PePatchX64.ctorBody at h
    dsimp only at h
    split at h
    · cases h
    · split_ifs at h with hsig
      split at h
      · cases h
      · split_ifs at h with hrest
        injection h with h
        subst h
        show ∃ rest, 248 ≤ rest ∧ base.file_buffer.drop _ = raw.drop rest
        rw [hfb, List.drop_drop]
        exact ⟨_, by omega, rfl⟩

/-- A successful `PePatchX64::AddSection` leaves the residual buffer as it was. -/
theorem AddSectionX64_keeps_buffer {m m' : PePatchX64} {name : List Byte}
    {code_size : Nat} (h : m.AddSection name code_size = .ok m') :
    m'.file_buffer = m.file_buffer := by
  unfold PePatchX64.AddSection at h
  split at h
  · cases h
  · split at h
    · cases h
    · dsimp only at h
      split at h
      · cases h
      · injection h with h
        subst h
        rfl

/-- The trailing-data write of `PePatchX64::SaveFile`, for every loaded image:
when the trailing-data branch runs after loading and `AddSection`, the last
write puts at file offset `0xCD800` the bytes the file held from offset
`rest + 0xCD800` on, where `rest ≥ 248` is the number of bytes the constructor
cut off the buffer. -/
theorem trailing_write_source (raw : List Byte) (u : IMAGE_OPTIONAL_HEADER64)
    (us : IMAGE_SECTION_HEADER) (loaded added : PePatchX64) (name code_buffer : List Byte)
    (code_size : Nat) (hload : PePatchX64.ctor u us raw = .ok loaded)
    (hadd : loaded.AddSection name code_size = .ok added) (hne : code_buffer ≠ [])
    (hseek : 0 ≤ added.dos_header.e_lfanew)
    (hpos : added.new_section_header.PointerToRawData < added.file_buffer.length)
    (hsec : added.section_headers ≠ []) (hbig : 0x000CD800 ≤ added.file_buffer.length) :
    ∃ rest, 248 ≤ rest ∧
      (added.SaveFile code_buffer).writes.getLast? =
        some { offset := 0x000CD800, data := raw.drop (rest + 0x000CD800) } := by
  obtain ⟨rest, h248, hfb⟩ := ctorX64_residual raw u us loaded hload
  refine ⟨rest, h248, ?_⟩
  rw [SaveFileX64_trailing added code_buffer hne hseek hpos hsec hbig,
    AddSectionX64_keeps_buffer hadd, hfb, List.drop_drop]
  exact getLast?_append_pair _ _ _

/-! ## C10: files of `2 ^ 32` bytes or more -/

/-- On a file of `2 ^ 32` bytes or more the constructor reads past the end of
the buffer it allocated. -/
theorem ctor_overrun (u : IMAGE_OPTIONAL_HEADER64) (raw : List Byte)
    (h : 2 ^ 32 ≤ raw.length) : PePatch.ctor u raw = .error .out_of_range := by
  have h0 : ¬ raw.length = 0 := by
    intro h0
    rw [h0] at h
    exact absurd h (by norm_num)
  unfold PePatch.ctor
  dsimp only
  rw [if_neg h0, if_pos (size_overruns h)]

/-- A slice inside the head of a buffer is not changed by data appended to it. -/
theorem slice_append_left (head tail : List Byte) (a n : Nat) (h : a + n ≤ head.length) :
    ((head ++ tail).drop a).take n = (head.drop a).take n := by
  rw [List.drop_append_of_le_length (by omega),
    List.take_append_of_le_length (by rw [List.length_drop]; omega)]

/-- The header fields of a buffer that holds its headers are not changed by
data appended to it, and the longer buffer holds its headers too. -/
theorem fields_append (head tail : List Byte) (h : HoldsItsHeaders head) :
    fileMagic (head ++ tail) = fileMagic head ∧
    fileLfanew (head ++ tail) = fileLfanew head ∧
    fileSignature (head ++ tail) = fileSignature head ∧
    fileMachine (head ++ tail) = fileMachine head ∧
    fileNumberOfSections (head ++ tail) = fileNumberOfSections head ∧
    HoldsItsHeaders (head ++ tail) := by
  obtain ⟨h64, h0, hfit⟩ := h
  unfold sizeof_IMAGE_DOS_HEADER at h64
  have hsz : 248 ≤ fileNtHeadersSize head := by
    unfold fileNtHeadersSize; split_ifs <;> decide
  have hmagic : fileMagic (head ++ tail) = fileMagic head := by
    unfold fileMagic
    rw [List.take_append_of_le_length (by omega)]
  have hlfanew : fileLfanew (head ++ tail) = fileLfanew head := by
    unfold fileLfanew
    rw [slice_append_left head tail 60 4 (by omega)]
  have hsig : fileSignature (head ++ tail) = fileSignature head := by
    unfold fileSignature
    rw [hlfanew, slice_append_left head tail _ 4 (by omega)]
  have hmachine : fileMachine (head ++ tail) = fileMachine head := by
    unfold fileMachine
    rw [hlfanew, slice_append_left head tail _ 2 (by omega)]
  have hnum : fileNumberOfSections (head ++ tail) = fileNumberOfSections head := by
    unfold fileNumberOfSections
    rw [hlfanew, slice_append_left head tail _ 2 (by omega)]
  refine ⟨hmagic, hlfanew, hsig, hmachine, hnum, ?_, ?_, ?_⟩
  · unfold sizeof_IMAGE_DOS_HEADER
    rw [List.length_append]
    omega
  · rw [hlfanew]
    exact h0
  · unfold fileNtHeadersSize
    rw [hlfanew, hmachine, hnum, List.length_append]
    unfold fileNtHeadersSize at hfit
    omega

set_option maxRecDepth 100000 in
/-- The sample image `image64` holds its headers and has the three fields of an
accepted 64-bit image. -/
theorem image64_fields :
    HoldsItsHeaders image64 ∧ fileMagic image64 = 0x5A4D ∧ fileMachine image64 = 0x8664 ∧
      fileSignature image64 = 0x00004550 :=
  ⟨⟨by decide, by decide, by decide⟩, by decide, by decide, by decide⟩

set_option maxRecDepth 100000 in
/-- The length of `image64`. -/
theorem image64_length : image64.length = 1024 := by decide

/-- C10, as stated, fails on a file of `2 ^ 32` bytes or more.  `hugeImage` has
`2 ^ 32 + 1024` bytes, holds its headers, and its magic, machine field and
signature are `0x5A4D`, `0x8664` and `0x00004550`; yet the constructor does not
succeed on it: the buffer is allocated with `(uint32_t) size = 1024` elements
and the read of `size` bytes runs past its end. -/
theorem C10_counterexample :
    hugeImage.length = 2 ^ 32 + 1024 ∧ hugeImage.length % 2 ^ 32 = 1024 ∧
    HoldsItsHeaders hugeImage ∧
    fileMagic hugeImage = 0x5A4D ∧ fileMachine hugeImage = 0x8664 ∧
    fileSignature hugeImage = 0x00004550 ∧
    (∀ uninitialised, PePatch.ctor uninitialised hugeImage = .error .out_of_range) ∧
    ¬ ((∃ m, PePatch.ctor zeroOptionalHeader hugeImage = .ok m) ↔
      (fileMagic hugeImage = 0x5A4D ∧
        (fileMachine hugeImage = 0x014C ∨ fileMachine hugeImage = 0x8664) ∧
        fileSignature hugeImage = 0x00004550)) := by
  obtain ⟨hholds, hmagic, hmachine, hsig⟩ := image64_fields
  obtain ⟨fmagic, _, fsig, fmachine, _, fholds⟩ :=
    fields_append image64 (List.replicate (2 ^ 32) 0) hholds
  have hlen : hugeImage.length = 2 ^ 32 + 1024 := by
    unfold hugeImage
    rw [List.length_append, List.length_replicate, image64_length]
    norm_num
  have hctor : ∀ u, PePatch.ctor u hugeImage = .error .out_of_range := fun u =>
    ctor_overrun u hugeImage (by rw [hlen]; norm_num)
  refine ⟨hlen, by rw [hlen]; norm_num, fholds, fmagic.trans hmagic, fmachine.trans hmachine,
    fsig.trans hsig, hctor, ?_⟩
  intro hiff
  obtain ⟨m, hm⟩ := hiff.mpr ⟨fmagic.trans hmagic, Or.inr (fmachine.trans hmachine),
    fsig.trans hsig⟩
  rw [hctor] at hm
  cases hm

/-! ## C7: padding of the injected code, and where it lands in the file -/

/-- The file after a write: what precedes the written bytes has the length of
the offset. -/
theorem applyWrite_eq (file : List Byte) (w : Write) :
    ∃ pre post, applyWrite file w = pre ++ (w.data ++ post) ∧ pre.length = w.offset := by
  refine ⟨file.take w.offset ++ List.replicate (w.offset - file.length) 0,
    file.drop (w.offset + w.data.length), ?_, ?_⟩
  · unfold applyWrite
    rw [List.append_assoc (file.take w.offset ++ List.replicate (w.offset - file.length) 0)]
  · simp only [List.length_append, List.length_take, List.length_replicate]
    omega

/-- The file after a write holds the written bytes at the offset of the write. -/
theorem slice_applyWrite (file : List Byte) (w : Write) :
    ((applyWrite file w).drop w.offset).take w.data.length = w.data := by
  obtain ⟨pre, post, heq, hpre⟩ := applyWrite_eq file w
  rw [heq, List.drop_left' hpre, List.take_left' rfl]

/-- The file after a write reaches the end of the written bytes. -/
theorem length_applyWrite (file : List Byte) (w : Write) :
    w.offset + w.data.length ≤ (applyWrite file w).length := by
  obtain ⟨pre, post, heq, hpre⟩ := applyWrite_eq file w
  rw [heq, List.length_append, List.length_append, hpre]
  omega

/-- A write leaves the bytes of the file before its offset as they are. -/
theorem slice_applyWrite_before (file : List Byte) (w : Write) (a n : Nat)
    (h1 : a + n ≤ w.offset) (h2 : a + n ≤ file.length) :
    ((applyWrite file w).drop a).take n = (file.drop a).take n := by
  unfold applyWrite
  rw [List.append_assoc, List.append_assoc,
    slice_append_left (file.take w.offset) _ a n (by rw [List.length_take]; omega)]
  apply List.ext_getElem?
  intro i
  simp only [List.getElem?_take, List.getElem?_drop]
  by_cases hi : i < n
  · simp only [if_pos hi]
    rw [if_pos (by omega)]
  · simp only [if_neg hi]

/-- After a sequence of writes the file holds the bytes of the last write at the
offset of that write. -/
theorem slice_applyWrites_last (file : List Byte) (ws : List Write) (w : Write) :
    ((applyWrites file (ws ++ [w])).drop w.offset).take w.data.length = w.data := by
  unfold applyWrites
  rw [List.foldl_append]
  exact slice_applyWrite _ w

/-- After a sequence of writes the file holds the bytes of the last but one
write at the offset of that write, when the last write starts at or after their
end. -/
theorem slice_applyWrites_before (file : List Byte) (ws : List Write) (w t : Write)
    (h : w.offset + w.data.length ≤ t.offset) :
    ((applyWrites file (ws ++ [w, t])).drop w.offset).take w.data.length = w.data := by
  unfold applyWrites
  rw [List.foldl_append]
  show ((applyWrite (applyWrite _ w) t).drop w.offset).take w.data.length = w.data
  rw [slice_applyWrite_before _ t _ _ h (length_applyWrite _ w)]
  exact slice_applyWrite _ w

/-- The members of a loaded image have a non-negative `e_lfanew`: the
constructor reads the signature at that index. -/
theorem loadHeaders_lfanew (raw : List Byte) (dos : IMAGE_DOS_HEADER) (type : PeArch)
    (u : IMAGE_OPTIONAL_HEADER64) (m : PePatch) (h : loadHeaders raw dos type u = .ok m) :
    0 ≤ m.dos_header.e_lfanew := by
  unfold loadHeaders at h
  dsimp only at h
  split at h
  · rename_i fh sig oh h1 h2 h3
    have h0 := readAt_nonneg h2
    split_ifs at h with hsig
    split at h
    · cases h
    · split_ifs at h with hrest
      injection h with h
      subst h
      exact h0
  · cases h

/-- After the base constructor `e_lfanew` is non-negative. -/
theorem ctor_lfanew (raw : List Byte) (u : IMAGE_OPTIONAL_HEADER64) (m : PePatch)
    (h : PePatch.ctor u raw = .ok m) : 0 ≤ m.dos_header.e_lfanew := by
  unfold PePatch.ctor at h
  dsimp only at h
  split_ifs at h with hlen hover
  split at h
  · cases h
  · split_ifs at h with hmagic
    split at h
    · split_ifs at h with h86 h64
      · exact loadHeaders_lfanew raw _ _ u m h
      · exact loadHeaders_lfanew raw _ _ u m h
    · cases h

/-- After loading with `PePatchX64` and a successful `AddSection`, `e_lfanew` is
non-negative: the seek to it in `SaveFile` succeeds. -/
theorem loaded_lfanew (raw : List Byte) (u : IMAGE_OPTIONAL_HEADER64)
    (us : IMAGE_SECTION_HEADER) (loaded added : PePatchX64) (name : List Byte)
    (code_size : Nat) (hload : PePatchX64.ctor u us raw = .ok loaded)
    (hadd : loaded.AddSection name code_size = .ok added) :
    0 ≤ added.dos_header.e_lfanew := by
  have h1 : 0 ≤ loaded.dos_header.e_lfanew := by
    unfold PePatchX64.ctor at hload
    split at hload
    · cases hload
    · rename_i base hbase
      have hb := ctor_lfanew raw u base hbase
      unfold PePatchX64.ctorBody at hload
      dsimp only at hload
      split at hload
      · cases hload
      · split_ifs at hload with hsig
        split at hload
        · cases hload
        · split_ifs at hload with hrest
          injection hload with hload
          subst hload
          exact hb
  have h2 : added.dos_header = loaded.dos_header := by
    unfold PePatchX64.AddSection at hadd
    split at hadd
    · cases hadd
    · split at hadd
      · cases hadd
      · dsimp only at hadd
        split at hadd
        · cases hadd
        · injection hadd with hadd
          subst hadd
          rfl
  rw [h2]
  exact h1

set_option maxRecDepth 100000 in
/-- C7, as stated, fails in `PePatchX64`.  The empty code buffer is shorter than
the injected section's `SizeOfRawData = 0x200`, and `SaveFile` throws on it
before any write: no byte run is written at `PointerToRawData`.  And when the
injected section is at offset `0xCD800` and the trailing-data branch runs
(`deepOverlaid`, what `AddSection` returns for a last section ending at
`0xCD800` and a residual buffer of `0xCD801` bytes), two byte runs are written
at `PointerToRawData`: the padded code, and after it one byte `0xAA` of the
residual buffer. -/
theorem C7_counterexample :
    (sampleAdded.new_section_header.SizeOfRawData = 0x200 ∧
      ([] : List Byte).length < sampleAdded.new_section_header.SizeOfRawData ∧
      0 ≤ sampleAdded.dos_header.e_lfanew ∧
      sampleAdded.SaveFile [] = { writes := [], failure := some .empty_code_section } ∧
      ∀ w ∈ (sampleAdded.SaveFile []).writes,
        w.offset ≠ sampleAdded.new_section_header.PointerToRawData) ∧
    (({ sampleState [sampleDeep] with file_buffer := deepBuffer } : PePatchX64).AddSection
        sampleName 5 = .ok deepOverlaid ∧
      deepOverlaid.new_section_header.PointerToRawData = 0x000CD800 ∧
      deepOverlaid.new_section_header.SizeOfRawData = 0x200 ∧
      sampleCode.length < deepOverlaid.new_section_header.SizeOfRawData ∧
      deepOverlaid.SaveFile sampleCode =
        { writes := (headerWrites deepOverlaid.toPePatch).writes ++
            [{ offset := 0x000CD800, data := sampleCode ++ List.replicate 0x1FE 0 },
             { offset := 0x000CD800, data := [0xAA] }]
          failure := none }) := by
  refine ⟨⟨by decide, by decide, by decide, rfl, ?_⟩, ?_, rfl, rfl, by decide, ?_⟩
  · intro w hw
    exact absurd hw (List.not_mem_nil w)
  · exact AddSectionX64_file_buffer (sampleState [sampleDeep]) deepAdded deepBuffer
      sampleName 5 rfl
  · have hlen : deepOverlaid.file_buffer.length = 0x000CD800 + 1 := by
      show deepBuffer.length = 0x000CD800 + 1
      unfold deepBuffer
      rw [List.length_append, List.length_replicate]
      rfl
    have hdrop : deepOverlaid.file_buffer.drop 0x000CD800 = [0xAA] := by
      show deepBuffer.drop 0x000CD800 = [0xAA]
      unfold deepBuffer
      exact List.drop_left' (List.length_replicate _ _)
    have hpad : padCode sampleCode deepOverlaid.new_section_header.SizeOfRawData =
        sampleCode ++ List.replicate 0x1FE 0 := by
      rw [padCode_eq]
      rfl
    rw [SaveFileX64_trailing deepOverlaid sampleCode (by decide)
      (show 0 ≤ deepAdded.dos_header.e_lfanew by decide)
      (by rw [hlen]; show 0x000CD800 < 0x000CD800 + 1; exact Nat.lt_succ_self _)
      (show deepAdded.section_headers ≠ [] by decide)
      (by rw [hlen]; exact Nat.le_add_right _ _), hdrop, hpad]
    rfl

/-- After loading with `PePatch` and a successful `AddSection`, `e_lfanew` is
non-negative: the seek to it in `SaveFile` succeeds. -/
theorem loaded_lfanew_base (raw : List Byte) (u : IMAGE_OPTIONAL_HEADER64)
    (loaded added : PePatch) (name : List Byte) (code_size : Nat)
    (hload : PePatch.ctor u raw = .ok loaded)
    (hadd : loaded.AddSection name code_size = .ok added) :
    0 ≤ added.dos_header.e_lfanew := by
  have h2 : added.dos_header = loaded.dos_header := by
    unfold PePatch.AddSection at hadd
    split at hadd
    · cases hadd
    · split at hadd
      · cases hadd
      · injection hadd with hadd
        subst hadd
        rfl
  rw [h2]
  exact ctor_lfanew raw u loaded hload

/-- C7 (amended): for every code buffer shorter than the injected section's
`SizeOfRawData`, non-empty in `PePatchX64`, the write that `SaveFile` issues at
that section's `PointerToRawData` right after the header writes carries exactly
`SizeOfRawData` bytes: the code buffer followed by zero bytes only.  The
injected section is `section_headers.back()` in `PePatch` and
`new_section_header` in `PePatchX64`; `e_lfanew` is non-negative, as in every
loaded image.  In `PePatch` it is the last write, no failure occurs, and the
file then holds these bytes at `PointerToRawData`.  In `PePatchX64` the only
write that can follow it is the trailing-data write at `0xCD800`; that write
is not issued when `PointerToRawData` is not below the size of the residual
buffer; and when `SaveFile` completes and that write is not issued or starts
at or after `PointerToRawData + SizeOfRawData`, the file holds the padded code
at `PointerToRawData`. -/
theorem C7_code_is_zero_padded (self : PePatchX64) (code_buffer : List Byte)
    (hseek : 0 ≤ self.dos_header.e_lfanew) :
    (∀ new, self.section_headers.getLast? = some new →
      code_buffer.length < new.SizeOfRawData →
      ∃ data,
        self.toPePatch.SaveFile code_buffer =
          { writes := (headerWrites self.toPePatch).writes ++
              [{ offset := new.PointerToRawData, data := data }]
            failure := none } ∧
        data.length = new.SizeOfRawData ∧
        data.take code_buffer.length = code_buffer ∧
        data.drop code_buffer.length =
          List.replicate (new.SizeOfRawData - code_buffer.length) 0 ∧
        ∀ file,
          ((applyWrites file (self.toPePatch.SaveFile code_buffer).writes).drop
            new.PointerToRawData).take new.SizeOfRawData = data) ∧
    (code_buffer ≠ [] →
      code_buffer.length < self.new_section_header.SizeOfRawData →
      ∃ data,
        data.length = self.new_section_header.SizeOfRawData ∧
        data.take code_buffer.length = code_buffer ∧
        data.drop code_buffer.length =
          List.replicate (self.new_section_header.SizeOfRawData - code_buffer.length) 0 ∧
        ((self.SaveFile code_buffer).writes =
            (headerWrites self.toPePatch).writes ++
              [{ offset := self.new_section_header.PointerToRawData, data := data }] ∨
          (self.SaveFile code_buffer).writes =
            (headerWrites self.toPePatch).writes ++
              [{ offset := self.new_section_header.PointerToRawData, data := data },
               { offset := 0x000CD800, data := self.file_buffer.drop 0x000CD800 }]) ∧
        (self.file_buffer.length ≤ self.new_section_header.PointerToRawData →
          self.SaveFile code_buffer =
            { writes := (headerWrites self.toPePatch).writes ++
                [{ offset := self.new_section_header.PointerToRawData, data := data }]
              failure := none }) ∧
        ∀ file, (self.SaveFile code_buffer).failure = none →
          (self.file_buffer.length ≤ self.new_section_header.PointerToRawData ∨
            self.new_section_header.PointerToRawData +
              self.new_section_header.SizeOfRawData ≤ 0x000CD800) →
          ((applyWrites file (self.SaveFile code_buffer).writes).drop
            self.new_section_header.PointerToRawData).take
              self.new_section_header.SizeOfRawData = data) := by
  have hf := headerWrites_failure hseek
  constructor
  · intro new hnew hlen
    obtain ⟨p1, p2, p3⟩ := padCode_spec code_buffer new.SizeOfRawData hlen
    have hsave : self.toPePatch.SaveFile code_buffer =
        { writes := (headerWrites self.toPePatch).writes ++
            [{ offset := new.PointerToRawData
               data := padCode code_buffer new.SizeOfRawData }]
          failure := none } := by
      unfold PePatch.SaveFile
      simp only [hf, hnew]
    refine ⟨padCode code_buffer new.SizeOfRawData, hsave, p1, p2, p3, fun file => ?_⟩
    rw [hsave]
    have := slice_applyWrites_last file (headerWrites self.toPePatch).writes
      { offset := new.PointerToRawData, data := padCode code_buffer new.SizeOfRawData }
    rwa [p1] at this
  · intro hne hlen
    have hl : ¬ code_buffer.length = 0 := fun h0 => hne (List.length_eq_zero.mp h0)
    obtain ⟨p1, p2, p3⟩ :=
      padCode_spec code_buffer self.new_section_header.SizeOfRawData hlen
    refine ⟨padCode code_buffer self.new_section_header.SizeOfRawData, p1, p2, p3, ?_⟩
    by_cases hpos : self.new_section_header.PointerToRawData < self.file_buffer.length
    · cases hsec : self.section_headers.getLast? with
      | none =>
        have hsave : self.SaveFile code_buffer =
            { writes := (headerWrites self.toPePatch).writes ++
                [{ offset := self.new_section_header.PointerToRawData
                   data := padCode code_buffer self.new_section_header.SizeOfRawData }]
              failure := some .empty_section_table } := by
          unfold PePatchX64.SaveFile
          simp only [if_neg hl, hf, if_pos hpos, hsec]
        rw [hsave]
        refine ⟨Or.inl rfl, fun hle => absurd hpos (Nat.not_lt.mpr hle), fun file hnone => ?_⟩
        cases hnone
      | some last =>
        by_cases hbig : 0x000CD800 ≤ self.file_buffer.length
        · have hsave := SaveFileX64_trailing self code_buffer hne hseek hpos
            (fun hnil => by rw [hnil] at hsec; cases hsec) hbig
          rw [hsave]
          refine ⟨Or.inr rfl, fun hle => absurd hpos (Nat.not_lt.mpr hle),
            fun file _ hcase => ?_⟩
          rcases hcase with hle | hfar
          · exact absurd hpos (Nat.not_lt.mpr hle)
          · have := slice_applyWrites_before file (headerWrites self.toPePatch).writes
              { offset := self.new_section_header.PointerToRawData
                data := padCode code_buffer self.new_section_header.SizeOfRawData }
              { offset := 0x000CD800, data := self.file_buffer.drop 0x000CD800 }
              (by show _ + (padCode _ _).length ≤ _; rw [p1]; exact hfar)
            rwa [p1] at this
        · have hsave : self.SaveFile code_buffer =
              { writes := (headerWrites self.toPePatch).writes ++
                  [{ offset := self.new_section_header.PointerToRawData
                     data := padCode code_buffer self.new_section_header.SizeOfRawData }]
                failure := some .out_of_range } := by
            unfold PePatchX64.SaveFile
            simp only [if_neg hl, hf, if_pos hpos, hsec, if_neg hbig]
          rw [hsave]
          refine ⟨Or.inl rfl, fun hle => absurd hpos (Nat.not_lt.mpr hle),
            fun file hnone => ?_⟩
          cases hnone
    · have hsave : self.SaveFile code_buffer =
          { writes := (headerWrites self.toPePatch).writes ++
              [{ offset := self.new_section_header.PointerToRawData
                 data := padCode code_buffer self.new_section_header.SizeOfRawData }]
            failure := none } := by
        unfold PePatchX64.SaveFile
        simp only [if_neg hl, hf, if_neg hpos]
      rw [hsave]
      refine ⟨Or.inl rfl, fun _ => rfl, fun file _ _ => ?_⟩
      have := slice_applyWrites_last file (headerWrites self.toPePatch).writes
        { offset := self.new_section_header.PointerToRawData
          data := padCode code_buffer self.new_section_header.SizeOfRawData }
      rwa [p1] at this

set_option maxRecDepth 100000 in
/-- C7, witness: the sample image after `AddSection`, with a two-byte code
buffer: the injected section has `SizeOfRawData = 0x200` at offset `0x400` in
`PePatchX64`, which is not below the size of the residual buffer, and the last
section of the table has `SizeOfRawData = 0x200`. -/
theorem C7_code_is_zero_padded_witness :
    (0 ≤ sampleAdded.dos_header.e_lfanew ∧
      sampleAdded.section_headers.getLast? = some sampleText ∧
      sampleCode.length < sampleText.SizeOfRawData ∧ sampleCode ≠ [] ∧
      sampleCode.length < sampleAdded.new_section_header.SizeOfRawData ∧
      sampleAdded.new_section_header.SizeOfRawData = 0x200 ∧
      sampleAdded.new_section_header.PointerToRawData = 0x400 ∧
      sampleAdded.file_buffer.length ≤ sampleAdded.new_section_header.PointerToRawData) ∧
    (∃ data,
        sampleAdded.toPePatch.SaveFile sampleCode =
          { writes := (headerWrites sampleAdded.toPePatch).writes ++
              [{ offset := sampleText.PointerToRawData, data := data }]
            failure := none } ∧
        data.length = sampleText.SizeOfRawData ∧
        data.take sampleCode.length = sampleCode ∧
        data.drop sampleCode.length =
          List.replicate (sampleText.SizeOfRawData - sampleCode.length) 0 ∧
        ∀ file,
          ((applyWrites file (sampleAdded.toPePatch.SaveFile sampleCode).writes).drop
            sampleText.PointerToRawData).take sampleText.SizeOfRawData = data) ∧
    (∃ data,
        data.length = sampleAdded.new_section_header.SizeOfRawData ∧
        data.take sampleCode.length = sampleCode ∧
        data.drop sampleCode.length =
          List.replicate (sampleAdded.new_section_header.SizeOfRawData - sampleCode.length) 0 ∧
        ((sampleAdded.SaveFile sampleCode).writes =
            (headerWrites sampleAdded.toPePatch).writes ++
              [{ offset := sampleAdded.new_section_header.PointerToRawData, data := data }] ∨
          (sampleAdded.SaveFile sampleCode).writes =
            (headerWrites sampleAdded.toPePatch).writes ++
              [{ offset := sampleAdded.new_section_header.PointerToRawData, data := data },
               { offset := 0x000CD800, data := sampleAdded.file_buffer.drop 0x000CD800 }]) ∧
        (sampleAdded.file_buffer.length ≤ sampleAdded.new_section_header.PointerToRawData →
          sampleAdded.SaveFile sampleCode =
            { writes := (headerWrites sampleAdded.toPePatch).writes ++
                [{ offset := sampleAdded.new_section_header.PointerToRawData, data := data }]
              failure := none }) ∧
        ∀ file, (sampleAdded.SaveFile sampleCode).failure = none →
          (sampleAdded.file_buffer.length ≤ sampleAdded.new_section_header.PointerToRawData ∨
            sampleAdded.new_section_header.PointerToRawData +
              sampleAdded.new_section_header.SizeOfRawData ≤ 0x000CD800) →
          ((applyWrites file (sampleAdded.SaveFile sampleCode).writes).drop
            sampleAdded.new_section_header.PointerToRawData).take
              sampleAdded.new_section_header.SizeOfRawData = data) :=
  ⟨by decide,
    (C7_code_is_zero_padded sampleAdded sampleCode (by decide)).1 sampleText (by decide)
      (by decide),
    (C7_code_is_zero_padded sampleAdded sampleCode (by decide)).2 (by decide) (by decide)⟩

end PeEpIntercept
